import Mathlib

/-! # Gremlins mutation engine: catalogue, arid analysis and discovery

A shallow embedding of the Go sources under `internal/mutator`, `internal/astutil`
and `internal/engine`.

* `go/token.Token` is the enumeration `Token`; a Go `map[token.Token]T` is a
  function `Token → Option T` (`none` is the "not found" result of a lookup).
* `go/ast` nodes are the inductive type `Node`; a `nil` node is `none : Option Node`.
* A closure `func()` that writes through the node pointer captured by an operator
  is the state transformer `Node → Node` on the value of that node.
* Code that can panic or recurse without bound returns a `Result`.
-/

namespace Gremlins

/-! ## go/token -/

/-- The token set of `go/token`, in declaration order. -/
inductive Token where
  | ILLEGAL | EOF | COMMENT
  | IDENT | INT | FLOAT | IMAG | CHAR | STRING
  | ADD | SUB | MUL | QUO | REM
  | AND | OR | XOR | SHL | SHR | AND_NOT
  | ADD_ASSIGN | SUB_ASSIGN | MUL_ASSIGN | QUO_ASSIGN | REM_ASSIGN
  | AND_ASSIGN | OR_ASSIGN | XOR_ASSIGN | SHL_ASSIGN | SHR_ASSIGN | AND_NOT_ASSIGN
  | LAND | LOR | ARROW | INC | DEC
  | EQL | LSS | GTR | ASSIGN | NOT
  | NEQ | LEQ | GEQ | DEFINE | ELLIPSIS
  | LPAREN | LBRACK | LBRACE | COMMA | PERIOD
  | RPAREN | RBRACK | RBRACE | SEMICOLON | COLON
  | BREAK | CASE | CHAN | CONST | CONTINUE
  | DEFAULT | DEFER | ELSE | FALLTHROUGH | FOR
  | FUNC | GO | GOTO | IF | IMPORT_
  | INTERFACE | MAP | PACKAGE | RANGE | RETURN
  | SELECT | STRUCT | SWITCH | TYPE | VAR | TILDE
deriving DecidableEq, Repr

/-- The compound assignment token `op=` of a binary operator token `op`: the token
whose spelling in `go/token` is the spelling of `op` followed by `=`. -/
def Token.withAssign : Token → Option Token
  | .ADD => some .ADD_ASSIGN
  | .SUB => some .SUB_ASSIGN
  | .MUL => some .MUL_ASSIGN
  | .QUO => some .QUO_ASSIGN
  | .REM => some .REM_ASSIGN
  | .AND => some .AND_ASSIGN
  | .OR => some .OR_ASSIGN
  | .XOR => some .XOR_ASSIGN
  | .SHL => some .SHL_ASSIGN
  | .SHR => some .SHR_ASSIGN
  | .AND_NOT => some .AND_NOT_ASSIGN
  | _ => none

/-! ## go/ast -/

/-- The syntax tree of `go/ast`, restricted to the node kinds the engine inspects
plus a generic `Other` node for every remaining kind.  Fields follow the Go
structs; comment groups and closing-delimiter positions are left out.

* `Ident.Obj` is `none` for an unresolved identifier (`n.Obj == nil`), or the
  index of the declaration `n.Obj.Decl` in the table of declarations of the file
  (the Go tree is a graph there: an identifier inside a function body may point
  back to the enclosing `FuncDecl`).
* `AssignStmt.Lhs` is split in its first element and the rest: the parser never
  builds an assignment with an empty left-hand side, and `Pos()` reads `Lhs[0]`.
* Optional children (`Init`, `Else`, `Label`, `Recv`, the body of a `FuncDecl`)
  are `Option Node`. -/
inductive Node where
  | Ident (namePos : Nat) (name : String) (obj : Option Nat)
  | BasicLit (valuePos : Nat) (kind : Token) (value : String)
  | BinaryExpr (x : Node) (opPos : Nat) (op : Token) (y : Node)
  | UnaryExpr (opPos : Nat) (op : Token) (x : Node)
  | CallExpr (func : Node) (args : List Node)
  | SelectorExpr (x : Node) (sel : Node)
  | ExprStmt (x : Node)
  | AssignStmt (lhs0 : Node) (lhsRest : List Node) (tokPos : Nat) (tok : Token) (rhs : List Node)
  | IncDecStmt (x : Node) (tokPos : Nat) (tok : Token)
  | BranchStmt (tokPos : Nat) (tok : Token) (label : Option Node)
  | ReturnStmt (returnPos : Nat) (results : List Node)
  | DeferStmt (deferPos : Nat) (call : Node)
  | DeclStmt (decl : Node)
  | BlockStmt (lbrace : Nat) (list : List Node)
  | IfStmt (ifPos : Nat) (init : Option Node) (cond : Node) (body : Node) (els : Option Node)
  | CaseClause (casePos : Nat) (list : List Node) (body : List Node)
  | SwitchStmt (switchPos : Nat) (init : Option Node) (tag : Option Node) (body : Node)
  | ForStmt (forPos : Nat) (init : Option Node) (cond : Option Node) (post : Option Node) (body : Node)
  | FuncDecl (recv : Option Node) (name : Node) (type : Node) (body : Option Node)
  | File (package : Nat) (name : Node) (decls : List Node)
  | Other (kind : String) (pos : Nat) (children : List Node)
deriving Repr

namespace Node

/-- The method `Pos()` of `ast.Node`: position of the first character of the node. -/
def Pos : Node → Nat
  | Ident namePos _ _ => namePos
  | BasicLit valuePos _ _ => valuePos
  | BinaryExpr x _ _ _ => x.Pos
  | UnaryExpr opPos _ _ => opPos
  | CallExpr func _ => func.Pos
  | SelectorExpr x _ => x.Pos
  | ExprStmt x => x.Pos
  | AssignStmt lhs0 _ _ _ _ => lhs0.Pos
  | IncDecStmt x _ _ => x.Pos
  | BranchStmt tokPos _ _ => tokPos
  | ReturnStmt returnPos _ => returnPos
  | DeferStmt deferPos _ => deferPos
  | DeclStmt decl => decl.Pos
  | BlockStmt lbrace _ => lbrace
  | IfStmt ifPos _ _ _ _ => ifPos
  | CaseClause casePos _ _ => casePos
  | SwitchStmt switchPos _ _ _ => switchPos
  | ForStmt forPos _ _ _ _ => forPos
  | FuncDecl _ _ type _ => type.Pos
  | File package _ _ => package
  | Other _ pos _ => pos

/-- The assignment `n.Op = t` on a `*ast.BinaryExpr`. -/
def setOp : Node → Token → Node
  | BinaryExpr x opPos _ y, t => BinaryExpr x opPos t y
  | n, _ => n

/-- The assignment `n.X = e` on a `*ast.BinaryExpr`. -/
def setX : Node → Node → Node
  | BinaryExpr _ opPos op y, e => BinaryExpr e opPos op y
  | n, _ => n

/-- The assignment `n.Y = e` on a `*ast.BinaryExpr`. -/
def setY : Node → Node → Node
  | BinaryExpr x opPos op _, e => BinaryExpr x opPos op e
  | n, _ => n

/-- The assignment `n.Tok = t` on a `*ast.AssignStmt`, `*ast.IncDecStmt` or
`*ast.BranchStmt`. -/
def setTok : Node → Token → Node
  | AssignStmt lhs0 lhsRest tokPos _ rhs, t => AssignStmt lhs0 lhsRest tokPos t rhs
  | IncDecStmt x tokPos _, t => IncDecStmt x tokPos t
  | BranchStmt tokPos _ label, t => BranchStmt tokPos t label
  | n, _ => n

/-- The slice of statements `l` that `GetRemoveStatementMutations`, `findNodeMutations`
and `StmtRemover.Apply` select: `n.List` of a block, `n.Body` of a case clause, and
the nil slice for every other node. -/
def stmts : Node → List Node
  | BlockStmt _ list => list
  | CaseClause _ _ body => body
  | _ => []

/-- The assignment `l[i] = s` through the slice `l` taken by `stmts`: it writes
into the statement list of the block or case clause the slice aliases. -/
def setStmt : Node → Nat → Node → Node
  | BlockStmt lbrace list, i, s => BlockStmt lbrace (list.set i s)
  | CaseClause casePos list body, i, s => CaseClause casePos list (body.set i s)
  | n, _, _ => n

/-- Type test `node.(*ast.BinaryExpr)`. -/
def isBinaryExpr : Node → Bool
  | BinaryExpr _ _ _ _ => true
  | _ => false

/-- Type test `node.(*ast.AssignStmt)`. -/
def isAssignStmt : Node → Bool
  | AssignStmt _ _ _ _ _ => true
  | _ => false

/-- Type test `node.(*ast.IncDecStmt)`. -/
def isIncDecStmt : Node → Bool
  | IncDecStmt _ _ _ => true
  | _ => false

/-- Type test `node.(*ast.BranchStmt)`. -/
def isBranchStmt : Node → Bool
  | BranchStmt _ _ _ => true
  | _ => false

end Node

/-- The value `ast.NewIdent(name)`: an identifier without position and without object. -/
def NewIdent (name : String) : Node := Node.Ident 0 name none

/-! ## mutator.Mutation and mutator.Type -/

/-- The struct `mutator.Mutation`.  `Change` and `Reset` are the closures of the Go
struct, read as transformers of the node the operator was called on. -/
structure Mutation where
  Change : Node → Node
  Reset : Node → Node
  Pos : Nat

/-- Modelled from the spec: the enumeration `mutator.Type` is declared outside the
given sources; these are the twelve kinds of the catalogue table, all of which the
sources register or list in `tokenMutantType`. -/
inductive MutType where
  | ArithmeticBase
  | InvertAssignments
  | InvertBitwise
  | InvertBitwiseAssignments
  | RemoveSelfAssignments
  | ConditionalsBoundary
  | ConditionalsNegation
  | InvertLogical
  | RemoveBinaryExpression
  | IncrementDecrement
  | InvertLoopCtrl
  | RemoveStatement
deriving DecidableEq, Repr

/-! ## internal/mutator/arithmetic -/

namespace arithmetic

/-- The map `arithmeticBaseMutations` of `base.go`. -/
def arithmeticBaseMutations : Token → Option Token
  | .ADD => some .SUB
  | .MUL => some .QUO
  | .QUO => some .MUL
  | .REM => some .MUL
  | .SUB => some .ADD
  | _ => none

/-- The function `GetArithmeticBaseMutations` of `base.go`. -/
def GetArithmeticBaseMutations (node : Node) : List Mutation :=
  match node with
  | .BinaryExpr _ opPos op _ =>
    let original := op
    match arithmeticBaseMutations op with
    | none => []
    | some mutated =>
      [{ Change := fun n => n.setOp mutated, Reset := fun n => n.setOp original, Pos := opPos }]
  | _ => []

/-- The map `invertAssignmentMutations` of `invert_assignment.go`. -/
def invertAssignmentMutations : Token → Option Token
  | .ADD_ASSIGN => some .SUB_ASSIGN
  | .MUL_ASSIGN => some .QUO_ASSIGN
  | .QUO_ASSIGN => some .MUL_ASSIGN
  | .REM_ASSIGN => some .REM_ASSIGN
  | .SUB_ASSIGN => some .ADD_ASSIGN
  | _ => none

/-- The function `GetInvertAssignmentsMutations` of `invert_assignment.go`. -/
def GetInvertAssignmentsMutations (node : Node) : List Mutation :=
  match node with
  | .AssignStmt _ _ tokPos tok _ =>
    let original := tok
    match invertAssignmentMutations tok with
    | none => []
    | some mutated =>
      [{ Change := fun n => n.setTok mutated, Reset := fun n => n.setTok original, Pos := tokPos }]
  | _ => []

/-- The map `assignmentMutations` of `remove_self_assignment.go`. -/
def assignmentMutations : Token → Option Token
  | .ADD_ASSIGN => some .ASSIGN
  | .AND_ASSIGN => some .ASSIGN
  | .AND_NOT_ASSIGN => some .ASSIGN
  | .MUL_ASSIGN => some .ASSIGN
  | .OR_ASSIGN => some .ASSIGN
  | .QUO_ASSIGN => some .ASSIGN
  | .REM_ASSIGN => some .ASSIGN
  | .SHL_ASSIGN => some .ASSIGN
  | .SHR_ASSIGN => some .ASSIGN
  | .SUB_ASSIGN => some .ASSIGN
  | .XOR_ASSIGN => some .ASSIGN
  | _ => none

/-- The function `GetRemoveSelfAssignmentMutations` of `remove_self_assignment.go`. -/
def GetRemoveSelfAssignmentMutations (node : Node) : List Mutation :=
  match node with
  | .AssignStmt _ _ tokPos tok _ =>
    let original := tok
    match assignmentMutations tok with
    | none => []
    | some mutated =>
      [{ Change := fun n => n.setTok mutated, Reset := fun n => n.setTok original, Pos := tokPos }]
  | _ => []

/-- The map `bitwiseMutations` of `invert_bitwise.go`. -/
def bitwiseMutations : Token → Option Token
  | .AND => some .OR
  | .OR => some .AND
  | .XOR => some .AND
  | .AND_NOT => some .AND
  | .SHL => some .SHR
  | .SHR => some .SHL
  | _ => none

/-- The function `GetInvertBitwiseMutations` of `invert_bitwise.go`. -/
def GetInvertBitwiseMutations (node : Node) : List Mutation :=
  match node with
  | .BinaryExpr _ opPos op _ =>
    let original := op
    match bitwiseMutations op with
    | none => []
    | some mutated =>
      [{ Change := fun n => n.setOp mutated, Reset := fun n => n.setOp original, Pos := opPos }]
  | _ => []

/-- The map `invertBitwiseAssignmentMutations` of `invert_bitwise_assignment.go`. -/
def invertBitwiseAssignmentMutations : Token → Option Token
  | .AND_ASSIGN => some .OR_ASSIGN
  | .OR_ASSIGN => some .AND_ASSIGN
  | .XOR_ASSIGN => some .AND_ASSIGN
  | .AND_NOT_ASSIGN => some .AND_ASSIGN
  | .SHL_ASSIGN => some .SHR_ASSIGN
  | .SHR_ASSIGN => some .SHL_ASSIGN
  | _ => none

/-- The function `GetInvertBitwiseAssignmentsMutations` of
`invert_bitwise_assignment.go`. -/
def GetInvertBitwiseAssignmentsMutations (node : Node) : List Mutation :=
  match node with
  | .AssignStmt _ _ tokPos tok _ =>
    let original := tok
    match invertBitwiseAssignmentMutations tok with
    | none => []
    | some mutated =>
      [{ Change := fun n => n.setTok mutated, Reset := fun n => n.setTok original, Pos := tokPos }]
  | _ => []

end arithmetic

/-! ## internal/mutator/conditional -/

namespace conditional

/-- The map `boundaryMutations` of `boundary.go`. -/
def boundaryMutations : Token → Option Token
  | .GEQ => some .GTR
  | .GTR => some .GEQ
  | .LEQ => some .LSS
  | .LSS => some .LEQ
  | _ => none

/-- The function `GetConditionalBoundaryMutations` of `boundary.go`. -/
def GetConditionalBoundaryMutations (node : Node) : List Mutation :=
  match node with
  | .BinaryExpr _ opPos op _ =>
    let original := op
    match boundaryMutations op with
    | none => []
    | some mutated =>
      [{ Change := fun n => n.setOp mutated, Reset := fun n => n.setOp original, Pos := opPos }]
  | _ => []

/-- The map `negatedMutations` of `negated.go`. -/
def negatedMutations : Token → Option Token
  | .GTR => some .LEQ
  | .LSS => some .GEQ
  | .GEQ => some .LSS
  | .LEQ => some .GTR
  | .EQL => some .NEQ
  | .NEQ => some .EQL
  | _ => none

/-- The function `GetConditionalNegationMutations` of `negated.go`. -/
def GetConditionalNegationMutations (node : Node) : List Mutation :=
  match node with
  | .BinaryExpr _ opPos op _ =>
    let original := op
    match negatedMutations op with
    | none => []
    | some mutated =>
      [{ Change := fun n => n.setOp mutated, Reset := fun n => n.setOp original, Pos := opPos }]
  | _ => []

/-- The map `invertLogicalMutations` of `invert_logical.go`. -/
def invertLogicalMutations : Token → Option Token
  | .LAND => some .LOR
  | .LOR => some .LAND
  | _ => none

/-- The function `GetInvertLogicalMutations` of `invert_logical.go`. -/
def GetInvertLogicalMutations (node : Node) : List Mutation :=
  match node with
  | .BinaryExpr _ opPos op _ =>
    let original := op
    match invertLogicalMutations op with
    | none => []
    | some mutated =>
      [{ Change := fun n => n.setOp mutated, Reset := fun n => n.setOp original, Pos := opPos }]
  | _ => []

/-- The function `MutatorRemoveTerm` of `remove_binary_expression.go`.  After the
guard `n.Op != token.LAND && n.Op != token.LOR` the switch over `n.Op` always
assigns `r`. -/
def MutatorRemoveTerm (node : Node) : List Mutation :=
  match node with
  | .BinaryExpr x opPos op y =>
    if op ≠ .LAND ∧ op ≠ .LOR then []
    else
      let r : Node := if op = .LAND then NewIdent "true" else NewIdent "false"
      [ { Change := fun n => n.setX r, Reset := fun n => n.setX x, Pos := opPos },
        { Change := fun n => n.setY r, Reset := fun n => n.setY y, Pos := opPos } ]
  | _ => []

end conditional

/-! ## internal/mutator/incrementdecrement and internal/mutator/loop -/

namespace incrementdecrement

/-- The map `incDecMutations` of `incrementdecrement.go`. -/
def incDecMutations : Token → Option Token
  | .DEC => some .INC
  | .INC => some .DEC
  | _ => none

/-- The function `GetIncDecMutations` of `incrementdecrement.go`. -/
def GetIncDecMutations (node : Node) : List Mutation :=
  match node with
  | .IncDecStmt _ tokPos tok =>
    let original := tok
    match incDecMutations tok with
    | none => []
    | some mutated =>
      [{ Change := fun n => n.setTok mutated, Reset := fun n => n.setTok original, Pos := tokPos }]
  | _ => []

end incrementdecrement

namespace loop

/-- The map `breakMutations` of `invert_loop_control.go`. -/
def breakMutations : Token → Option Token
  | .CONTINUE => some .BREAK
  | .BREAK => some .CONTINUE
  | _ => none

/-- The function `MutatorLoopBreak` of `invert_loop_control.go`. -/
def MutatorLoopBreak (node : Node) : List Mutation :=
  match node with
  | .BranchStmt tokPos tok _ =>
    let original := tok
    match breakMutations tok with
    | none => []
    | some mutated =>
      [{ Change := fun n => n.setTok mutated, Reset := fun n => n.setTok original, Pos := tokPos }]
  | _ => []

end loop

/-! ## Outcomes of code that may panic or recurse without bound -/

/-- Outcome of a Go call: a returned value, a run-time panic, or the exhaustion of
the recursion budget given to the call. -/
inductive Result (α : Type) where
  | ret (a : α)
  | panic
  | fuel
deriving DecidableEq, Repr

namespace Result

/-- Apply a function to the returned value. -/
def map {α β : Type} (f : α → β) : Result α → Result β
  | ret a => ret (f a)
  | panic => panic
  | fuel => fuel

end Result

/-! ## go/ast: Inspect -/

/-- One step of `ast.Walk` with the visitor of `ast.Inspect`: call `f` on the node;
when it answers `true`, walk the children and then call `f(nil)`. -/
def visit {σ : Type} (f : Option Node → σ → Bool × σ) (n : Node) (s : σ)
    (children : σ → σ) : σ :=
  match f (some n) s with
  | (false, s1) => s1
  | (true, s1) => (f none (children s1)).2

mutual
/-- The function `ast.Inspect(node, f)`: depth-first pre-order traversal, children in
the order of `ast.Walk`; the state `σ` is what the callback closes over. -/
def Inspect {σ : Type} (f : Option Node → σ → Bool × σ) : Node → σ → σ
  | .Ident namePos name obj, s => visit f (.Ident namePos name obj) s id
  | .BasicLit valuePos kind value, s => visit f (.BasicLit valuePos kind value) s id
  | .BinaryExpr x opPos op y, s =>
    visit f (.BinaryExpr x opPos op y) s fun s => Inspect f y (Inspect f x s)
  | .UnaryExpr opPos op x, s => visit f (.UnaryExpr opPos op x) s fun s => Inspect f x s
  | .CallExpr func args, s =>
    visit f (.CallExpr func args) s fun s => InspectList f args (Inspect f func s)
  | .SelectorExpr x sel, s =>
    visit f (.SelectorExpr x sel) s fun s => Inspect f sel (Inspect f x s)
  | .ExprStmt x, s => visit f (.ExprStmt x) s fun s => Inspect f x s
  | .AssignStmt lhs0 lhsRest tokPos tok rhs, s =>
    visit f (.AssignStmt lhs0 lhsRest tokPos tok rhs) s fun s =>
      InspectList f rhs (InspectList f lhsRest (Inspect f lhs0 s))
  | .IncDecStmt x tokPos tok, s => visit f (.IncDecStmt x tokPos tok) s fun s => Inspect f x s
  | .BranchStmt tokPos tok label, s =>
    visit f (.BranchStmt tokPos tok label) s fun s => InspectOpt f label s
  | .ReturnStmt returnPos results, s =>
    visit f (.ReturnStmt returnPos results) s fun s => InspectList f results s
  | .DeferStmt deferPos call, s => visit f (.DeferStmt deferPos call) s fun s => Inspect f call s
  | .DeclStmt decl, s => visit f (.DeclStmt decl) s fun s => Inspect f decl s
  | .BlockStmt lbrace list, s => visit f (.BlockStmt lbrace list) s fun s => InspectList f list s
  | .IfStmt ifPos init cond body els, s =>
    visit f (.IfStmt ifPos init cond body els) s fun s =>
      InspectOpt f els (Inspect f body (Inspect f cond (InspectOpt f init s)))
  | .CaseClause casePos list body, s =>
    visit f (.CaseClause casePos list body) s fun s => InspectList f body (InspectList f list s)
  | .SwitchStmt switchPos init tag body, s =>
    visit f (.SwitchStmt switchPos init tag body) s fun s =>
      Inspect f body (InspectOpt f tag (InspectOpt f init s))
  | .ForStmt forPos init cond post body, s =>
    visit f (.ForStmt forPos init cond post body) s fun s =>
      Inspect f body (InspectOpt f post (InspectOpt f cond (InspectOpt f init s)))
  | .FuncDecl recv name type body, s =>
    visit f (.FuncDecl recv name type body) s fun s =>
      InspectOpt f body (Inspect f type (Inspect f name (InspectOpt f recv s)))
  | .File package name decls, s =>
    visit f (.File package name decls) s fun s => InspectList f decls (Inspect f name s)
  | .Other kind pos children, s =>
    visit f (.Other kind pos children) s fun s => InspectList f children s
/-- Walk of a slice of nodes, first to last. -/
def InspectList {σ : Type} (f : Option Node → σ → Bool × σ) : List Node → σ → σ
  | [], s => s
  | n :: rest, s => InspectList f rest (Inspect f n s)
/-- Walk of an optional child: a nil child is skipped. -/
def InspectOpt {σ : Type} (f : Option Node → σ → Bool × σ) : Option Node → σ → σ
  | none, s => s
  | some n, s => Inspect f n s
end

/-! ## internal/astutil -/

namespace astutil

/-- The map `loggerIdentifiers` of `astutil/aridnode.go`. -/
def loggerIdentifiers : String → Option Bool
  | "log" => some true
  | "fmt" => some true
  | "slogger" => some true
  | "logger" => some true
  | "serrormonitor" => some true
  | _ => none

/-- The callback that `isLoggerStmt` hands to `ast.Inspect`; the state is the
variable `firstIdent`. -/
def loggerVisit (n : Option Node) (firstIdent : String) : Bool × String :=
  match n with
  | some (.Ident _ name _) =>
    if firstIdent ≠ "" then (false, firstIdent) else (false, name)
  | _ =>
    if firstIdent ≠ "" then (false, firstIdent) else (true, firstIdent)

/-- The function `isLoggerStmt` of `astutil/aridnode.go`. -/
def isLoggerStmt (es : Node) : Bool :=
  let firstIdent := Inspect loggerVisit es ""
  (loggerIdentifiers firstIdent).isSome

mutual
/-- The body of `IsAridNode` on a non-nil node.  The recursion follows the tree,
except for an identifier resolved to a `FuncDecl`, where it is handed to `resolve`.
A `FuncDecl` without body passes a nil `*ast.BlockStmt` inside a non-nil `ast.Node`:
the `BlockStmt` case is taken and reading `n.List` panics. -/
def IsAridNodeAux (decls : List Node) (resolve : Node → Result Bool) : Node → Result Bool
  | .ExprStmt x =>
    if isLoggerStmt (.ExprStmt x) then .ret true
    else IsAridNodeAux decls resolve x
  | .BlockStmt _ list => IsAridList decls resolve list
  | .IfStmt _ _ _ body els =>
    match IsAridNodeAux decls resolve body with
    | .ret true => IsAridOpt decls resolve els
    | r => r
  | .CallExpr func _ => IsAridNodeAux decls resolve func
  | .Ident _ _ obj =>
    match obj with
    | none => .ret true
    | some d =>
      match decls[d]? with
      | some (.FuncDecl recv name type body) => resolve (.FuncDecl recv name type body)
      | _ => .ret false
  | .FuncDecl _ _ _ body =>
    match body with
    | none => .panic
    | some b => IsAridNodeAux decls resolve b
  | .CaseClause _ _ body => IsAridList decls resolve body
  | _ => .ret false
/-- The loop `for _, s := range l { if !IsAridNode(s) { allChildrenArid = false; break } }`. -/
def IsAridList (decls : List Node) (resolve : Node → Result Bool) : List Node → Result Bool
  | [] => .ret true
  | s :: rest =>
    match IsAridNodeAux decls resolve s with
    | .ret true => IsAridList decls resolve rest
    | r => r
/-- The call `IsAridNode(c)` on an interface-typed child `c`, nil included. -/
def IsAridOpt (decls : List Node) (resolve : Node → Result Bool) : Option Node → Result Bool
  | none => .ret true
  | some n => IsAridNodeAux decls resolve n
end

/-- The function `IsAridNode` of `astutil/aridnode.go`.  `decls` is the table of the
declarations identifiers point to, and `fuel` bounds how many times in a row the
analysis may follow a resolved identifier into the `FuncDecl` it points to. -/
def IsAridNode (decls : List Node) : Nat → Option Node → Result Bool
  | _, none => .ret true
  | 0, some n => IsAridNodeAux decls (fun _ => .fuel) n
  | fuel + 1, some n => IsAridNodeAux decls (fun fd => IsAridNode decls fuel (some fd)) n

end astutil

/-! ## internal/mutator/statement -/

namespace statement

/-- The function `checkRemoveStatement` of `statement/remove.go`. -/
def checkRemoveStatement (decls : List Node) (fuel : Nat) (node : Node) : Result Bool :=
  match astutil.IsAridNode decls fuel (some node) with
  | .ret true => .ret false
  | .ret false =>
    match node with
    | .AssignStmt _ _ _ tok _ => if tok ≠ .DEFINE then .ret true else .ret false
    | .ExprStmt _ => .ret true
    | .IncDecStmt _ _ _ => .ret true
    | _ => .ret false
  | .panic => .panic
  | .fuel => .fuel

/-- The loop `for i, ni := range l` of `GetRemoveStatementMutations`, entered at index
`i` with the mutations collected so far.  `CreateNoopOfStatement` is a function of
`astutil` outside the given sources and is the parameter `noop`. -/
def removeLoop (noop : Node → Node) (decls : List Node) (fuel : Nat) :
    List Node → Nat → List Mutation → Result (List Mutation)
  | [], _, mutations => .ret mutations
  | ni :: rest, i, mutations =>
    match checkRemoveStatement decls fuel ni with
    | .ret true =>
      let li := i
      let old := ni
      removeLoop noop decls fuel rest (i + 1)
        (mutations ++ [{ Change := fun n => n.setStmt li (noop old),
                         Reset := fun n => n.setStmt li old,
                         Pos := old.Pos }])
    | .ret false => removeLoop noop decls fuel rest (i + 1) mutations
    | .panic => .panic
    | .fuel => .fuel

/-- The function `GetRemoveStatementMutations` of `statement/remove.go`. -/
def GetRemoveStatementMutations (noop : Node → Node) (decls : List Node) (fuel : Nat)
    (node : Node) : Result (List Mutation) :=
  removeLoop noop decls fuel node.stmts 0 []

end statement

/-! ## The registry of operators -/

/-- The registry filled by the `init` functions of the operator packages through
`mutator.Register(kind.String(), operator)`: the operator registered for each kind. -/
def catalogue (noop : Node → Node) (decls : List Node) (fuel : Nat) :
    MutType → Node → Result (List Mutation)
  | .ArithmeticBase, n => .ret (arithmetic.GetArithmeticBaseMutations n)
  | .InvertAssignments, n => .ret (arithmetic.GetInvertAssignmentsMutations n)
  | .InvertBitwise, n => .ret (arithmetic.GetInvertBitwiseMutations n)
  | .InvertBitwiseAssignments, n => .ret (arithmetic.GetInvertBitwiseAssignmentsMutations n)
  | .RemoveSelfAssignments, n => .ret (arithmetic.GetRemoveSelfAssignmentMutations n)
  | .ConditionalsBoundary, n => .ret (conditional.GetConditionalBoundaryMutations n)
  | .ConditionalsNegation, n => .ret (conditional.GetConditionalNegationMutations n)
  | .InvertLogical, n => .ret (conditional.GetInvertLogicalMutations n)
  | .RemoveBinaryExpression, n => .ret (conditional.MutatorRemoveTerm n)
  | .IncrementDecrement, n => .ret (incrementdecrement.GetIncDecMutations n)
  | .InvertLoopCtrl, n => .ret (loop.MutatorLoopBreak n)
  | .RemoveStatement, n => statement.GetRemoveStatementMutations noop decls fuel n

/-! ## internal/engine -/

namespace engine

/-- The map `tokenMutantType` of `engine/mappings.go` (read by `findTokenMutations`
under the name `TokenMutantType`). -/
def tokenMutantType : Token → Option (List MutType)
  | .ADD => some [.ArithmeticBase]
  | .ADD_ASSIGN => some [.InvertAssignments, .RemoveSelfAssignments]
  | .AND => some [.InvertBitwise]
  | .AND_ASSIGN => some [.RemoveSelfAssignments, .InvertBitwiseAssignments]
  | .AND_NOT => some [.InvertBitwise]
  | .AND_NOT_ASSIGN => some [.RemoveSelfAssignments, .InvertBitwiseAssignments]
  | .BREAK => some [.InvertLoopCtrl]
  | .CONTINUE => some [.InvertLoopCtrl]
  | .DEC => some [.IncrementDecrement]
  | .EQL => some [.ConditionalsNegation]
  | .GEQ => some [.ConditionalsBoundary, .ConditionalsNegation]
  | .GTR => some [.ConditionalsBoundary, .ConditionalsNegation]
  | .INC => some [.IncrementDecrement]
  | .LAND => some [.InvertLogical, .RemoveBinaryExpression]
  | .LEQ => some [.ConditionalsBoundary, .ConditionalsNegation]
  | .LOR => some [.InvertLogical, .RemoveBinaryExpression]
  | .LSS => some [.ConditionalsBoundary, .ConditionalsNegation]
  | .MUL => some [.ArithmeticBase]
  | .MUL_ASSIGN => some [.InvertAssignments, .RemoveSelfAssignments]
  | .NEQ => some [.ConditionalsNegation]
  | .OR => some [.InvertBitwise]
  | .OR_ASSIGN => some [.RemoveSelfAssignments, .InvertBitwiseAssignments]
  | .QUO => some [.ArithmeticBase]
  | .QUO_ASSIGN => some [.InvertAssignments, .RemoveSelfAssignments]
  | .REM => some [.ArithmeticBase]
  | .REM_ASSIGN => some [.InvertAssignments, .RemoveSelfAssignments]
  | .SHL => some [.InvertBitwise]
  | .SHL_ASSIGN => some [.RemoveSelfAssignments, .InvertBitwiseAssignments]
  | .SHR => some [.InvertBitwise]
  | .SHR_ASSIGN => some [.RemoveSelfAssignments, .InvertBitwiseAssignments]
  | .SUB => some [.ArithmeticBase]
  | .SUB_ASSIGN => some [.InvertAssignments, .RemoveSelfAssignments]
  | .XOR => some [.InvertBitwise]
  | .XOR_ASSIGN => some [.RemoveSelfAssignments, .InvertBitwiseAssignments]
  | _ => none

/-- The expression `tokenMutantType[t]...` appended to a slice: the entry of `t`, and
nothing when `t` has no entry. -/
def tokenMutantTypes (t : Token) : List MutType :=
  (tokenMutantType t).getD []

/-- The function `GetMutantTypes` of `engine/mappings.go`. -/
def GetMutantTypes (node : Node) : List MutType :=
  match node with
  | .AssignStmt _ _ _ tok _ => [] ++ tokenMutantTypes tok
  | .BinaryExpr _ _ op _ => [] ++ tokenMutantTypes op
  | .BranchStmt _ tok _ => [] ++ tokenMutantTypes tok
  | .IncDecStmt _ _ tok => [] ++ tokenMutantTypes tok
  | .UnaryExpr _ op _ => [] ++ tokenMutantTypes op
  | .BlockStmt _ _ => [] ++ [.RemoveStatement]
  | .CaseClause _ _ _ => [] ++ [.RemoveStatement]
  | _ => []

/-- The map `loggerIdentifiers` of `engine/engine.go`. -/
def loggerIdentifiers : String → Option Bool
  | "log" => some true
  | "fmt" => some true
  | "slogger" => some true
  | "logger" => some true
  | _ => none

/-- The callback that `isLoggerStmt` of `engine/engine.go` hands to `ast.Inspect`. -/
def loggerVisit (n : Option Node) (firstIdent : String) : Bool × String :=
  match n with
  | some (.Ident _ name _) =>
    if firstIdent ≠ "" then (false, firstIdent) else (false, name)
  | _ =>
    if firstIdent ≠ "" then (false, firstIdent) else (true, firstIdent)

/-- The function `isLoggerStmt` of `engine/engine.go`. -/
def isLoggerStmt (es : Node) : Bool :=
  let firstIdent := Inspect loggerVisit es ""
  (loggerIdentifiers firstIdent).isSome

mutual
/-- The body of `isAridNode` of `engine/engine.go` on a non-nil node; see
`astutil.IsAridNodeAux` for `resolve` and for the `FuncDecl` without body. -/
def isAridNodeAux (decls : List Node) (resolve : Node → Result Bool) : Node → Result Bool
  | .ExprStmt x =>
    if isLoggerStmt (.ExprStmt x) then .ret true
    else isAridNodeAux decls resolve x
  | .BlockStmt _ list => isAridList decls resolve list
  | .IfStmt _ init _ body els =>
    match isAridOpt decls resolve init with
    | .ret true =>
      match isAridNodeAux decls resolve body with
      | .ret true => isAridOpt decls resolve els
      | r => r
    | r => r
  | .CallExpr func _ => isAridNodeAux decls resolve func
  | .Ident _ _ obj =>
    match obj with
    | none => .ret true
    | some d =>
      match decls[d]? with
      | some (.FuncDecl recv name type body) => resolve (.FuncDecl recv name type body)
      | _ => .ret false
  | .FuncDecl _ _ _ body =>
    match body with
    | none => .panic
    | some b => isAridNodeAux decls resolve b
  | .CaseClause _ _ body => isAridList decls resolve body
  | _ => .ret false
/-- The loop `for _, s := range l { if !isAridNode(s) { allChildrenArid = false; break } }`. -/
def isAridList (decls : List Node) (resolve : Node → Result Bool) : List Node → Result Bool
  | [] => .ret true
  | s :: rest =>
    match isAridNodeAux decls resolve s with
    | .ret true => isAridList decls resolve rest
    | r => r
/-- The call `isAridNode(c)` on an interface-typed child `c`, nil included. -/
def isAridOpt (decls : List Node) (resolve : Node → Result Bool) : Option Node → Result Bool
  | none => .ret true
  | some n => isAridNodeAux decls resolve n
end

/-- The function `isAridNode` of `engine/engine.go`; `decls` and `fuel` as in
`astutil.IsAridNode`. -/
def isAridNode (decls : List Node) : Nat → Option Node → Result Bool
  | _, none => .ret true
  | 0, some n => isAridNodeAux decls (fun _ => .fuel) n
  | fuel + 1, some n => isAridNodeAux decls (fun fd => isAridNode decls fuel (some fd)) n

/-- The function `checkRemoveStatement` of `engine/engine.go`. -/
def checkRemoveStatement (decls : List Node) (fuel : Nat) (node : Node) : Result Bool :=
  match isAridNode decls fuel (some node) with
  | .ret true => .ret false
  | .ret false =>
    match node with
    | .AssignStmt _ _ _ tok _ => .ret (decide (tok ≠ .DEFINE))
    | .IncDecStmt _ _ _ => .ret true
    | .ExprStmt _ => .ret true
    | _ => .ret false
  | .panic => .panic
  | .fuel => .fuel

/-- The struct `token.Position`. -/
structure Position where
  Filename : String
  Offset : Nat
  Line : Nat
  Column : Nat
deriving DecidableEq, Repr

/-- Modelled from the spec: the enumeration `mutator.Status` is declared outside the
given sources; `NotCovered` is its zero value. -/
inductive Status where
  | NotCovered
  | Skipped
  | Runnable
  | Lived
  | Killed
  | NotViable
  | TimedOut
  | Error
deriving DecidableEq, Repr

instance : Inhabited Status := ⟨Status.NotCovered⟩

/-- The struct `CodeData`, reduced to the two queries the engine makes:
`Cov.IsCovered(pos)` and `Diff.IsChanged(pos)`. -/
structure CodeData where
  IsCovered : Position → Bool
  IsChanged : Position → Bool

/-- The method `Engine.mutationStatus` of `engine/engine.go`. -/
def mutationStatus (codeData : CodeData) (pos : Position) : Status :=
  let status : Status := default
  let status := if codeData.IsCovered pos then Status.Runnable else status
  let status := if !codeData.IsChanged pos then Status.Skipped else status
  status

/-- The struct `NodeToken`: the token of a node and its position. -/
structure NodeToken where
  tok : Token
  TokPos : Nat
deriving DecidableEq, Repr

/-- Modelled from the spec: `NewTokenNode` is declared outside the given sources; the
projection succeeds on the nodes that carry an operator token (`AssignStmt`,
`BinaryExpr`, `BranchStmt`, `IncDecStmt`, `UnaryExpr`) and gives that token and its
position. -/
def NewTokenNode : Option Node → Option NodeToken
  | some (.AssignStmt _ _ tokPos tok _) => some ⟨tok, tokPos⟩
  | some (.BinaryExpr _ opPos op _) => some ⟨op, opPos⟩
  | some (.BranchStmt tokPos tok _) => some ⟨tok, tokPos⟩
  | some (.IncDecStmt _ tokPos tok) => some ⟨tok, tokPos⟩
  | some (.UnaryExpr opPos op _) => some ⟨op, opPos⟩
  | _ => none

/-- Modelled from the spec: `NewNode` is declared outside the given sources; the
projection succeeds on a `Block` and on a `CaseClause`, the nodes pass 2 iterates. -/
def NewNode : Option Node → Option Node
  | some (.BlockStmt lbrace list) => some (.BlockStmt lbrace list)
  | some (.CaseClause casePos list body) => some (.CaseClause casePos list body)
  | _ => none

/-- The mutants the engine collects (`mutator.Mutator`): a token mutant built by
`NewTokenMutant` or a statement remover built by `NewStmtRemover`, each with the type
and the status set on it. -/
inductive Mutator where
  | TokenMutant (pkg : String) (node : NodeToken) (mutantType : MutType) (status : Status)
  | StmtRemover (pkgName : String) (node : Node) (idx : Nat) (pos : Nat)
      (mutantType : MutType) (status : Status)
deriving Repr

namespace Mutator

/-- The method `Pos()` of a mutant. -/
def Pos : Mutator → Nat
  | TokenMutant _ node _ _ => node.TokPos
  | StmtRemover _ _ _ pos _ _ => pos

/-- The method `Type()` of a mutant (`Type` is reserved in Lean). -/
def Type_ : Mutator → MutType
  | TokenMutant _ _ mutantType _ => mutantType
  | StmtRemover _ _ _ _ mutantType _ => mutantType

/-- The method `Status()` of a mutant. -/
def Status : Mutator → engine.Status
  | TokenMutant _ _ _ status => status
  | StmtRemover _ _ _ _ _ status => status

end Mutator

/-- What `runOnFile` takes from its collaborators for one file: the configuration
predicate `configuration.Get[bool](configuration.MutantTypeEnabledKey(mt))`, the
coverage and diff data, the position table `set.Position` of the file set, the result
`pkg` of `mu.pkgName(fileName, file.Name.Name)`, and the declarations identifiers
resolve to. -/
structure FileEnv where
  enabled : MutType → Bool
  codeData : CodeData
  position : Nat → Position
  pkg : String
  decls : List Node

/-- The method `Engine.findTokenMutations`; the engine state is the slice `mu.mutants`. -/
def findTokenMutations (env : FileEnv) (node : NodeToken) (mutants : List Mutator) :
    List Mutator :=
  match tokenMutantType node.tok with
  | none => mutants
  | some mutantTypes =>
    mutantTypes.foldl (fun mutants mt =>
      if !env.enabled mt then mutants
      else mutants ++ [Mutator.TokenMutant env.pkg node mt
        (mutationStatus env.codeData (env.position node.TokPos))]) mutants

/-- The loop `for i, ni := range l` of `Engine.findNodeMutations`, entered at index `i`. -/
def nodeLoop (env : FileEnv) (fuel : Nat) (node : Node) :
    List Node → Nat → List Mutator → Result (List Mutator)
  | [], _, mutants => .ret mutants
  | ni :: rest, i, mutants =>
    match checkRemoveStatement env.decls fuel ni with
    | .ret true =>
      nodeLoop env fuel node rest (i + 1)
        (mutants ++ [Mutator.StmtRemover env.pkg node i ni.Pos MutType.RemoveStatement
          (mutationStatus env.codeData (env.position ni.Pos))])
    | .ret false => nodeLoop env fuel node rest (i + 1) mutants
    | .panic => .panic
    | .fuel => .fuel

/-- The method `Engine.findNodeMutations`. -/
def findNodeMutations (env : FileEnv) (fuel : Nat) (node : Node) (mutants : List Mutator) :
    Result (List Mutator) :=
  nodeLoop env fuel node node.stmts 0 mutants

/-- The constant `detectAridNodes`. -/
def detectAridNodes : Bool := true

/-- The callback of the first `ast.Inspect` of `runOnFile`; the state is `mu.mutants`,
or the panic or exhaustion the walk has met. -/
def tokenVisit (env : FileEnv) (fuel : Nat) (node : Option Node)
    (st : Result (List Mutator)) : Bool × Result (List Mutator) :=
  match st with
  | .ret mutants =>
    match NewTokenNode node with
    | none => (true, st)
    | some n =>
      if detectAridNodes then
        match isAridNode env.decls fuel node with
        | .ret true => (false, st)
        | .ret false => (true, .ret (findTokenMutations env n mutants))
        | .panic => (false, .panic)
        | .fuel => (false, .fuel)
      else (true, .ret (findTokenMutations env n mutants))
  | _ => (false, st)

/-- The callback of the second `ast.Inspect` of `runOnFile`. -/
def nodeVisit (env : FileEnv) (fuel : Nat) (node : Option Node)
    (st : Result (List Mutator)) : Bool × Result (List Mutator) :=
  match st with
  | .ret mutants =>
    match NewNode node with
    | none => (true, st)
    | some n =>
      if detectAridNodes then
        match isAridNode env.decls fuel node with
        | .ret true => (false, st)
        | .ret false => (true, findNodeMutations env fuel n mutants)
        | .panic => (false, .panic)
        | .fuel => (false, .fuel)
      else (true, findNodeMutations env fuel n mutants)
  | _ => (false, st)

/-- The method `Engine.runOnFile` on a file that parsed: the two walks over the tree
`file`, from the mutants collected before. -/
def runOnFile (env : FileEnv) (fuel : Nat) (file : Node) (mutants : List Mutator) :
    Result (List Mutator) :=
  let pass1 := Inspect (tokenVisit env fuel) file (.ret mutants)
  Inspect (nodeVisit env fuel) file pass1

end engine

/-! ## The removability rule as the specification words it -/

/-- The removability rule of the specification: an `AssignStmt` with operator other
than `:=`, or an `ExprStmt`, or an `IncDecStmt`. -/
def removableBySpec : Node → Bool
  | .AssignStmt _ _ _ tok _ => decide (tok ≠ .DEFINE)
  | .ExprStmt _ => true
  | .IncDecStmt _ _ _ => true
  | _ => false

/-- The mutations the specification asks of `RemoveStatement` on the statement list
`l`, given for each statement whether it is removable: one per removable child, in
statement order, positioned at the start of the child, replacing the child at its
index by its no-op and putting it back on reset. -/
def removalsBySpec (noop : Node → Node) (removable : Node → Bool) (l : List Node) :
    List Mutation :=
  (l.enum.filter fun c => removable c.2).map fun c =>
    { Change := fun n => n.setStmt c.1 (noop c.2),
      Reset := fun n => n.setStmt c.1 c.2,
      Pos := c.2.Pos }

/-! ## Example files -/

namespace example1

/-- The statement `if x > 0 { }`. -/
def ifStmt : Node :=
  .IfStmt 32 none (.BinaryExpr (.Ident 35 "x" (some 1)) 37 .GTR (.BasicLit 39 .INT "0"))
    (.BlockStmt 41 []) none

/-- The declaration `func f() { if x > 0 { } }`. -/
def funcDecl : Node :=
  .FuncDecl none (.Ident 26 "f" (some 0)) (.Other "FuncType" 21 [.Other "FieldList" 27 []])
    (some (.BlockStmt 30 [ifStmt]))

/-- The specification `x int` of the declaration `var x int`. -/
def valueSpec : Node :=
  .Other "ValueSpec" 15 [.Ident 15 "x" (some 1), .Ident 17 "int" none]

/-- The file `package p; var x int; func f() { if x > 0 { } }`. -/
def file : Node :=
  .File 1 (.Ident 9 "p" none) [.Other "GenDecl" 11 [valueSpec], funcDecl]

/-- Every kind enabled, every position covered and changed, one source line. -/
def env : engine.FileEnv :=
  { enabled := fun _ => true,
    codeData := { IsCovered := fun _ => true, IsChanged := fun _ => true },
    position := fun p => ⟨"p.go", p - 1, 1, p⟩,
    pkg := "example.com/m/p",
    decls := [funcDecl, valueSpec] }

end example1

namespace example2

/-- The statement `run(func() { x = 1 })`; `run` is declared in another file of the
package, so the identifier is unresolved. -/
def callStmt : Node :=
  .ExprStmt (.CallExpr (.Ident 41 "run" none)
    [.Other "FuncLit" 45 [.Other "FuncType" 45 [.Other "FieldList" 49 []],
      .BlockStmt 52 [.AssignStmt (.Ident 54 "x" (some 1)) [] 56 .ASSIGN
        [.BasicLit 58 .INT "1"]]]])

/-- The statement `x = 2`. -/
def assignStmt : Node :=
  .AssignStmt (.Ident 32 "x" (some 1)) [] 34 .ASSIGN [.BasicLit 36 .INT "2"]

/-- The body `{ x = 2; run(func() { x = 1 }) }`. -/
def body : Node := .BlockStmt 30 [assignStmt, callStmt]

/-- The declaration `func f() { x = 2; run(func() { x = 1 }) }`. -/
def funcDecl : Node :=
  .FuncDecl none (.Ident 26 "f" (some 0)) (.Other "FuncType" 21 [.Other "FieldList" 27 []])
    (some body)

/-- The file `package p; var x int; func f() { x = 2; run(func() { x = 1 }) }`. -/
def file : Node :=
  .File 1 (.Ident 9 "p" none) [.Other "GenDecl" 11 [example1.valueSpec], funcDecl]

/-- Every kind enabled, every position covered and changed, one source line. -/
def env : engine.FileEnv :=
  { enabled := fun _ => true,
    codeData := { IsCovered := fun _ => true, IsChanged := fun _ => true },
    position := fun p => ⟨"p.go", p - 1, 1, p⟩,
    pkg := "example.com/m/p",
    decls := [funcDecl, example1.valueSpec] }

end example2

/-! ## The aggregator of executeTests -/

namespace engine

/-- The struct `Comment` of `engine/engine.go`. -/
structure Comment where
  Body : String
  Path : String
  Line : Nat
  Side : String
deriving DecidableEq, Repr

/-- A mutant as the aggregator of `executeTests` reads it from the result channel:
the values of its methods `Status()`, `Position()` and `Diff()`. -/
structure Executed where
  status : Status
  position : Position
  diff : String
deriving DecidableEq, Repr

/-- The function `getPRComment` of `engine/engine.go`. -/
def getPRComment (m : Executed) : String :=
  "[gremlins] Changing the code like shown below does not cause any tests exercising them to fail.\n"
    ++ "Consider adding tests that fail when the code is mutated.\n\n"
    ++ "```diff\n" ++ m.diff ++ "\n```"

/-- The local state of the loop `for m := range outCh` of `executeTests`: the map
`surfacedMutants` (a Go `map[string]map[int]bool`), the slice `comments` and the slice
`mutants`. -/
structure AggState where
  surfacedMutants : String → Option (Nat → Option Bool)
  comments : List Comment
  mutants : List Executed

/-- The lookup `surfacedMutants[f][l]`: whether the line `l` of the file `f` has an
entry. -/
def AggState.surfaced (st : AggState) (f : String) (l : Nat) : Bool :=
  match st.surfacedMutants f with
  | none => false
  | some fileMutants => (fileMutants l).isSome

/-- The state before the loop: an empty map and empty slices. -/
def AggState.init : AggState :=
  { surfacedMutants := fun _ => none, comments := [], mutants := [] }

/-- The body of the loop `for m := range outCh` of `executeTests` (the call of the
logger left out). -/
def aggregateStep (st : AggState) (m : Executed) : AggState :=
  let mutants := st.mutants ++ [m]
  if m.status = Status.Lived then
    let comment : Comment :=
      { Body := getPRComment m, Path := m.position.Filename, Line := m.position.Line,
        Side := "RIGHT" }
    match st.surfacedMutants m.position.Filename with
    | none =>
      let fileMutants : Nat → Option Bool :=
        fun l => if l = m.position.Line then some true else none
      { surfacedMutants :=
          fun f => if f = m.position.Filename then some fileMutants else st.surfacedMutants f,
        comments := st.comments ++ [comment],
        mutants := mutants }
    | some fileMutants =>
      match fileMutants m.position.Line with
      | none =>
        let fileMutants : Nat → Option Bool :=
          fun l => if l = m.position.Line then some true else fileMutants l
        { surfacedMutants :=
            fun f => if f = m.position.Filename then some fileMutants else st.surfacedMutants f,
          comments := st.comments ++ [comment],
          mutants := mutants }
      | some _ => { st with mutants := mutants }
  else { st with mutants := mutants }

/-- The loop `for m := range outCh` of `executeTests` over the mutants received, in
the order of arrival. -/
def aggregate (received : List Executed) : AggState :=
  received.foldl aggregateStep AggState.init

/-- The function `results` of `engine/engine.go`: the report holds the slice of mutants. -/
def results (m : List Executed) : List Executed := m

end engine

/-! ## Vocabulary of the specification -/

/-- The domain of the substitution table of a kind, read from the tables of the
operators; for `RemoveBinaryExpression` the tokens its guard lets through, and no
token for `RemoveStatement`, which has no table. -/
def tableDomain : MutType → Token → Bool
  | .ArithmeticBase, t => (arithmetic.arithmeticBaseMutations t).isSome
  | .InvertAssignments, t => (arithmetic.invertAssignmentMutations t).isSome
  | .InvertBitwise, t => (arithmetic.bitwiseMutations t).isSome
  | .InvertBitwiseAssignments, t => (arithmetic.invertBitwiseAssignmentMutations t).isSome
  | .RemoveSelfAssignments, t => (arithmetic.assignmentMutations t).isSome
  | .ConditionalsBoundary, t => (conditional.boundaryMutations t).isSome
  | .ConditionalsNegation, t => (conditional.negatedMutations t).isSome
  | .InvertLogical, t => (conditional.invertLogicalMutations t).isSome
  | .RemoveBinaryExpression, t => decide (t = .LAND ∨ t = .LOR)
  | .IncrementDecrement, t => (incrementdecrement.incDecMutations t).isSome
  | .InvertLoopCtrl, t => (loop.breakMutations t).isSome
  | .RemoveStatement, _ => false

mutual
/-- The names of the identifiers of a subtree, in the order a depth-first pre-order
walk meets them. -/
def idents : Node → List String
  | .Ident _ name _ => [name]
  | .BasicLit _ _ _ => []
  | .BinaryExpr x _ _ y => idents x ++ idents y
  | .UnaryExpr _ _ x => idents x
  | .CallExpr func args => idents func ++ identsList args
  | .SelectorExpr x sel => idents x ++ idents sel
  | .ExprStmt x => idents x
  | .AssignStmt lhs0 lhsRest _ _ rhs => idents lhs0 ++ identsList lhsRest ++ identsList rhs
  | .IncDecStmt x _ _ => idents x
  | .BranchStmt _ _ label => identsOpt label
  | .ReturnStmt _ results => identsList results
  | .DeferStmt _ call => idents call
  | .DeclStmt decl => idents decl
  | .BlockStmt _ list => identsList list
  | .IfStmt _ init cond body els => identsOpt init ++ idents cond ++ idents body ++ identsOpt els
  | .CaseClause _ list body => identsList list ++ identsList body
  | .SwitchStmt _ init tag body => identsOpt init ++ identsOpt tag ++ idents body
  | .ForStmt _ init cond post body =>
    identsOpt init ++ identsOpt cond ++ identsOpt post ++ idents body
  | .FuncDecl recv name type body => identsOpt recv ++ idents name ++ idents type ++ identsOpt body
  | .File _ name decls => idents name ++ identsList decls
  | .Other _ _ children => identsList children
/-- The identifiers of a list of subtrees, first to last. -/
def identsList : List Node → List String
  | [] => []
  | n :: rest => idents n ++ identsList rest
/-- The identifiers of an optional subtree. -/
def identsOpt : Option Node → List String
  | none => []
  | some n => idents n
end

/-- The value of the variable `firstIdent` of `isLoggerStmt` after the identifiers
`names` have been met in this order, starting from the value `st`: the first value
that is not the empty string. -/
def firstIdentFrom (st : String) (names : List String) : String :=
  if st ≠ "" then st else (names.find? fun name => decide (name ≠ "")).getD ""

/-- The site of a mutant: file name and line. -/
def site (m : engine.Executed) : String × Nat := (m.position.Filename, m.position.Line)

/-- The mutants the specification gives a finding comment: walking the arrivals with
the earlier ones in `earlier`, a mutant is kept when it is `Lived` and no earlier
`Lived` mutant has its site. -/
def firstLivedFrom : List engine.Executed → List engine.Executed → List engine.Executed
  | _, [] => []
  | earlier, m :: rest =>
    (if m.status = engine.Status.Lived
        ∧ ∀ m' ∈ earlier, ¬ (m'.status = engine.Status.Lived ∧ site m' = site m)
      then [m] else [])
      ++ firstLivedFrom (earlier ++ [m]) rest

/-- The comment the specification asks for a kept mutant. -/
def commentBySpec (m : engine.Executed) : engine.Comment :=
  { Body := engine.getPRComment m, Path := m.position.Filename, Line := m.position.Line,
    Side := "RIGHT" }

/-! ## More example files -/

namespace example3

/-- The statement `if x = 1; x > 0 { }`. -/
def ifStmt : Node :=
  .IfStmt 32 (some (.AssignStmt (.Ident 35 "x" (some 1)) [] 37 .ASSIGN [.BasicLit 39 .INT "1"]))
    (.BinaryExpr (.Ident 42 "x" (some 1)) 44 .GTR (.BasicLit 46 .INT "0"))
    (.BlockStmt 48 []) none

end example3

namespace example4

/-- The statement `serrormonitor.Report(err)`. -/
def reportStmt : Node :=
  .ExprStmt (.CallExpr
    (.SelectorExpr (.Ident 32 "serrormonitor" none) (.Ident 46 "Report" none))
    [.Ident 53 "err" (some 1)])

/-- The declaration `func f() { serrormonitor.Report(err) }`. -/
def funcDecl : Node :=
  .FuncDecl none (.Ident 26 "f" (some 0)) (.Other "FuncType" 21 [.Other "FieldList" 27 []])
    (some (.BlockStmt 30 [reportStmt]))

/-- The specification `err error` of the declaration `var err error`. -/
def valueSpec : Node :=
  .Other "ValueSpec" 15 [.Ident 15 "err" (some 1), .Ident 19 "error" none]

/-- The file `package p; var err error; func f() { serrormonitor.Report(err) }`. -/
def file : Node :=
  .File 1 (.Ident 9 "p" none) [.Other "GenDecl" 11 [valueSpec], funcDecl]

/-- Every kind enabled, every position covered and changed, one source line. -/
def env : engine.FileEnv :=
  { enabled := fun _ => true,
    codeData := { IsCovered := fun _ => true, IsChanged := fun _ => true },
    position := fun p => ⟨"p.go", p - 1, 1, p⟩,
    pkg := "example.com/m/p",
    decls := [funcDecl, valueSpec] }

end example4

namespace example5

/-- The environment of `example2` with every kind disabled. -/
def env : engine.FileEnv :=
  { example2.env with enabled := fun _ => false }

end example5

/-! ## path/filepath and strings, on a system whose path separator is `/` -/

namespace filepath

/-- The pieces of a path between its separators `/`: one more than it has separators. -/
def splitSlash : List Char → List (List Char)
  | [] => [[]]
  | c :: cs =>
    if c = '/' then [] :: splitSlash cs
    else
      match splitSlash cs with
      | [] => [[c]]
      | piece :: rest => (c :: piece) :: rest

/-- One element of the path read by `Clean`; `out` holds the elements kept so far,
last one first.  An empty element and `.` are dropped; `..` removes the last kept
element when there is one that is not `..`, is kept at the start of a path that is
not rooted, and is dropped at the start of a rooted path; any other element is kept. -/
def cleanStep (rooted : Bool) (out : List (List Char)) (c : List Char) : List (List Char) :=
  if c = [] ∨ c = ['.'] then out
  else if c = ['.', '.'] then
    match out with
    | [] => if rooted then [] else [c]
    | top :: rest => if top = ['.', '.'] then (if rooted then out else c :: out) else rest
  else c :: out

/-- The function `filepath.Clean` on the characters of a path. -/
def cleanChars (path : List Char) : List Char :=
  if path = [] then ['.']
  else
    let rooted := decide (path.head? = some '/')
    let out := ((splitSlash path).foldl (cleanStep rooted) []).reverse
    if rooted then '/' :: List.intercalate ['/'] out
    else if out = [] then ['.'] else List.intercalate ['/'] out

/-- The function `filepath.Clean`. -/
def Clean (path : String) : String := String.mk (cleanChars path.data)

/-- The slice `path[:i+1]` of `filepath.Dir`, where `i` is the index of the last
separator: the path up to and including its last `/`, empty when it has none. -/
def dirPart (path : List Char) : List Char :=
  (path.reverse.dropWhile fun c => decide (c ≠ '/')).reverse

/-- The function `filepath.Dir`. -/
def Dir (path : String) : String := String.mk (cleanChars (dirPart path.data))

/-- The function `filepath.Join` for two elements. -/
def Join (a b : String) : String :=
  if a ≠ "" then Clean (a ++ "/" ++ b)
  else if b ≠ "" then Clean b
  else ""

/-- The characters of a list of path elements when each is followed by one separator. -/
def weight (cs : List (List Char)) : Nat := (cs.map fun c => c.length + 1).sum

/-- The same count over the elements that are not empty. -/
def keptWeight (cs : List (List Char)) : Nat :=
  (cs.map fun c => if c = [] then 0 else c.length + 1).sum

/-- A measure that `Dir` decreases on every path it changes: twice the length of the
path, one more for a path without separator other than `.`, two more for the empty
path. -/
def dirRank (p : String) : Nat :=
  2 * p.length + (if '/' ∉ p.data ∧ p ≠ "." then 1 else 0) + (if p = "" then 2 else 0)

end filepath

namespace strings

/-- The function `strings.HasSuffix`. -/
def HasSuffix (s suffix : String) : Bool := suffix.data.isSuffixOf s.data

end strings

namespace engine

/-- The fields of `gomodule.GoModule` that `pkgName` reads. -/
structure GoModule where
  Name : String
  CallingDir : String
deriving DecidableEq, Repr

/-- The constant `os.PathSeparator`. -/
def PathSeparator : Char := '/'

/-- The function `normalisePkgPath` of `engine/engine.go`. -/
def normalisePkgPath (pkg : String) : String :=
  String.mk (pkg.data.map fun c => if c = PathSeparator then '/' else c)

/-- The loop `for { ... }` of `Engine.pkgName`, entered with the value `p`; `fuel` bounds
the number of iterations, and the result is the value of `pkg` after the loop. -/
def pkgNameLoop (name fPkg : String) : Nat → String → Option String
  | 0, _ => none
  | fuel + 1, p =>
    if strings.HasSuffix p fPkg then some (name ++ "/" ++ p)
    else
      let d := filepath.Dir p
      if d = p then some name
      else pkgNameLoop name fPkg fuel d

/-- The method `Engine.pkgName` of `engine/engine.go`. -/
def pkgName (fuel : Nat) (module : GoModule) (fileName fPkg : String) : Option String :=
  let fn := module.CallingDir ++ "/" ++ fileName
  let p := filepath.Dir fn
  (pkgNameLoop module.Name fPkg fuel p).map normalisePkgPath

end engine

/-- The directory `path` ends in the path elements `elems`: it is `elems`, or it ends
with `/` followed by `elems`. -/
def endsInElements (path elems : String) : Bool :=
  decide (path = elems) || strings.HasSuffix path ("/" ++ elems)

/-! ## More vocabulary of the specification -/

/-- The body of a finding comment as the specification words it: the two sentences on
one line, a blank line, and the diff text in a diff code fence. -/
def commentBodyBySpec (d : String) : String :=
  "Changing the code like shown below does not cause any tests exercising them to fail. "
    ++ "Consider adding tests that fail when the code is mutated."
    ++ "\n\n" ++ "```diff\n" ++ d ++ "\n```"

/-- The Go comparison `x op y` on integers, for the six comparison operators. -/
def compareInt (op : Token) (x y : Int) : Option Bool :=
  match op with
  | .EQL => some (decide (x = y))
  | .NEQ => some (decide (x ≠ y))
  | .LSS => some (decide (x < y))
  | .LEQ => some (decide (x ≤ y))
  | .GTR => some (decide (x > y))
  | .GEQ => some (decide (x ≥ y))
  | _ => none

/-- The tokens the Go grammar allows at a node that carries an operator token:
assignment operators on an `AssignStmt`, binary operators on a `BinaryExpr`,
`break`, `continue`, `goto`, `fallthrough` on a `BranchStmt`, `++` and `--` on an
`IncDecStmt`, and the unary operators on a `UnaryExpr`. -/
def tokenOfGrammar : Node → Bool
  | .AssignStmt _ _ _ tok _ =>
    decide (tok ∈ [Token.ASSIGN, .DEFINE, .ADD_ASSIGN, .SUB_ASSIGN, .MUL_ASSIGN, .QUO_ASSIGN,
      .REM_ASSIGN, .AND_ASSIGN, .OR_ASSIGN, .XOR_ASSIGN, .SHL_ASSIGN, .SHR_ASSIGN,
      .AND_NOT_ASSIGN])
  | .BinaryExpr _ _ op _ =>
    decide (op ∈ [Token.ADD, .SUB, .MUL, .QUO, .REM, .AND, .OR, .XOR, .SHL, .SHR, .AND_NOT,
      .LAND, .LOR, .EQL, .LSS, .GTR, .NEQ, .LEQ, .GEQ])
  | .BranchStmt _ tok _ => decide (tok ∈ [Token.BREAK, .CONTINUE, .GOTO, .FALLTHROUGH])
  | .IncDecStmt _ _ tok => decide (tok ∈ [Token.INC, .DEC])
  | .UnaryExpr _ op _ =>
    decide (op ∈ [Token.ADD, .SUB, .NOT, .XOR, .AND, .ARROW, .TILDE])
  | _ => false

namespace example6

/-- The declaration `func ext()`, a function without body (implemented outside Go). -/
def extDecl : Node :=
  .FuncDecl none (.Ident 16 "ext" (some 1)) (.Other "FuncType" 11 [.Other "FieldList" 19 []])
    none

/-- The statement `ext()`. -/
def callStmt : Node := .ExprStmt (.CallExpr (.Ident 34 "ext" (some 1)) [])

/-- The declaration `func f() { ext() }`. -/
def funcDecl : Node :=
  .FuncDecl none (.Ident 28 "f" (some 0)) (.Other "FuncType" 23 [.Other "FieldList" 29 []])
    (some (.BlockStmt 32 [callStmt]))

/-- The file `package p; func ext(); func f() { ext() }`. -/
def file : Node := .File 1 (.Ident 9 "p" none) [extDecl, funcDecl]

/-- Every kind enabled, every position covered and changed, one source line. -/
def env : engine.FileEnv :=
  { enabled := fun _ => true,
    codeData := { IsCovered := fun _ => true, IsChanged := fun _ => true },
    position := fun p => ⟨"p.go", p - 1, 1, p⟩,
    pkg := "example.com/m/p",
    decls := [funcDecl, extDecl] }

end example6

namespace example7

/-- The statement `f()`, with `f` resolved to the declaration of `f`. -/
def callStmt : Node := .ExprStmt (.CallExpr (.Ident 22 "f" (some 0)) [])

/-- The declaration `func f() { f() }`. -/
def funcDecl : Node :=
  .FuncDecl none (.Ident 16 "f" (some 0)) (.Other "FuncType" 11 [.Other "FieldList" 17 []])
    (some (.BlockStmt 20 [callStmt]))

/-- The file `package p; func f() { f() }`. -/
def file : Node := .File 1 (.Ident 9 "p" none) [funcDecl]

/-- Every kind enabled, every position covered and changed, one source line. -/
def env : engine.FileEnv :=
  { enabled := fun _ => true,
    codeData := { IsCovered := fun _ => true, IsChanged := fun _ => true },
    position := fun p => ⟨"p.go", p - 1, 1, p⟩,
    pkg := "example.com/m/p",
    decls := [funcDecl] }

/-- The statement `g()` of `func f() { g() }`. -/
def callG : Node := .ExprStmt (.CallExpr (.Ident 22 "g" (some 1)) [])

/-- The statement `f()` of `func g() { f() }`. -/
def callF : Node := .ExprStmt (.CallExpr (.Ident 42 "f" (some 0)) [])

/-- The declarations of `func f() { g() }; func g() { f() }`. -/
def mutualDecls : List Node :=
  [.FuncDecl none (.Ident 16 "f" (some 0)) (.Other "FuncType" 11 [])
      (some (.BlockStmt 20 [callG])),
   .FuncDecl none (.Ident 36 "g" (some 1)) (.Other "FuncType" 31 [])
      (some (.BlockStmt 40 [callF]))]

/-- The statement `if c { f() }` around the call of `f`. -/
def ifStmt : Node :=
  .IfStmt 30 none (.Ident 33 "c" none) (.BlockStmt 35 [callStmt]) none

end example7

/-! ## The file system, the lock registry and `StmtRemover` -/

namespace os

/-- A disk as the process sees it: the bytes of the file at each path (`none` where
there is no file), the directories that exist, and the paths the process may not open
for reading, may not open for writing, and may not remove. -/
structure Disk where
  files : String → Option String
  dirs : String → Bool
  noRead : String → Bool
  noWrite : String → Bool
  noRemove : String → Bool

/-- The function `os.ReadFile`: the bytes of the file, or the error of opening it. -/
def ReadFile (d : Disk) (name : String) : Except String String :=
  if d.noRead name then .error "permission denied"
  else
    match d.files name with
    | some data => .ok data
    | none => .error "no such file or directory"

/-- The function `os.WriteFile`: the file is truncated, or created when its directory
exists, and holds `data`; when it cannot be opened the disk is as before and the error
is returned.  An error of writing after the file is open is outside this model. -/
def WriteFile (d : Disk) (name data : String) : Disk × Option String :=
  if d.noWrite name then (d, some "permission denied")
  else if (d.files name).isNone && !d.dirs (filepath.Dir name) then
    (d, some "no such file or directory")
  else ({ d with files := fun p => if p = name then some data else d.files p }, none)

/-- The function `os.Remove`, with its error dropped as `Apply` drops it. -/
def Remove (d : Disk) (name : String) : Disk :=
  if d.noRemove name then d
  else { d with files := fun p => if p = name then none else d.files p }

end os

namespace engine

/-- Modelled from the spec: `fileLock` is declared outside the given sources; the
registry is a "process-wide mapping `filename → mutex`, lazily created, never
destroyed", and its state is the set of file names whose mutex is locked. -/
def Locks : Type := String → Bool

/-- The call `fileLock(name).Lock()`: `none` when the mutex is held, and the caller
waits; otherwise the registry with the mutex of `name` held. -/
def Lock (locks : Locks) (name : String) : Option Locks :=
  if locks name then none else some fun n => if n = name then true else locks n

/-- The call `fileLock(name).Unlock()`. -/
def Unlock (locks : Locks) (name : String) : Locks :=
  fun n => if n = name then false else locks n

/-- What `StmtRemover.Apply` and `Rollback` take from their collaborators: the position
table `m.fs.Position`, the text `printer.Fprint(w, m.fs, m.file)` prints for the file
as a function of the current value of the node the mutant points to (or its error),
the function `astutil.CreateNoopOfStatement`, and the combined output of the command
`diff --label=Original --label=New -u` on two paths of a disk, `none` when the
command cannot be run or exits with a code other than 0 and 1. -/
structure ApplyEnv where
  position : Nat → Position
  Fprint : Node → Except String String
  noop : Node → Node
  diff : os.Disk → String → String → Option String

/-- The struct `StmtRemover`, without `fs` and `file` (they are in `ApplyEnv`) and
`testExecErr`; `node` is the current value of the block or case clause that
`m.node.node` points to in the shared tree, and the nil slice `origFile` is the empty
string. -/
structure StmtRemover where
  pkgName : String
  node : Node
  workDir : String
  origFile : String
  mutantType : MutType
  status : Status
  idx : Nat
  pos : Nat
  diff : String

/-- The function `NewStmtRemover`; the other fields have their zero values. -/
def NewStmtRemover (pkgName : String) (node : Node) (stmtIdx pos : Nat) : StmtRemover :=
  { pkgName := pkgName, node := node, workDir := "", origFile := "",
    mutantType := MutType.ArithmeticBase, status := Status.NotCovered, idx := stmtIdx,
    pos := pos, diff := "" }

namespace StmtRemover

/-- The method `Position()`. -/
def Position (env : ApplyEnv) (m : StmtRemover) : engine.Position := env.position m.pos

/-- The method `SetWorkdir`. -/
def SetWorkdir (m : StmtRemover) (path : String) : StmtRemover := { m with workDir := path }

/-- The method `writeMutatedFile`: the disk after it and the error it returns. -/
def writeMutatedFile (env : ApplyEnv) (m : StmtRemover) (d : os.Disk) (filename : String) :
    os.Disk × Option String :=
  match env.Fprint m.node with
  | .error e => (d, some e)
  | .ok w => os.WriteFile d filename w

/-- How the statements of `Apply` after the deferred `Unlock` end: in a panic (of
`calcDiff`), or in a return with the error returned; each with the mutant and the
disk at that moment. -/
inductive BodyResult where
  | panicked (m : StmtRemover) (disk : os.Disk)
  | returned (m : StmtRemover) (disk : os.Disk) (err : Option String)

/-- The statements of `Apply` after the deferred `Unlock`. -/
def applyBody (env : ApplyEnv) (m : StmtRemover) (d : os.Disk) : BodyResult :=
  let filename := filepath.Join m.workDir (env.position m.node.Pos).Filename
  match os.ReadFile d filename with
  | .error e => .returned { m with origFile := "" } d (some e)
  | .ok data =>
    let m := { m with origFile := data }
    let copyOrigFileName := filepath.Join m.workDir ((m.Position env).Filename ++ ".copy.orig")
    match writeMutatedFile env m d copyOrigFileName with
    | (d, some e) => .returned m d (some e)
    | (d, none) =>
      match m.node.stmts[m.idx]? with
      | none => .returned m d none
      | some oldStmt =>
        let m := { m with pos := oldStmt.Pos, node := m.node.setStmt m.idx (env.noop oldStmt) }
        match writeMutatedFile env m d filename with
        | (d, some e) => .returned m d (some e)
        | (d, none) =>
          let m := { m with node := m.node.setStmt m.idx oldStmt }
          match env.diff d copyOrigFileName filename with
          | none => .panicked m d
          | some out => .returned { m with diff := out } (os.Remove d copyOrigFileName) none

/-- How a call of `Apply` ends: it waits for the mutex of the file, it panics, or it
returns an error value; the last two with the mutant, the disk and the registry of
locks at that moment. -/
inductive ApplyResult where
  | blocked
  | panicked (m : StmtRemover) (disk : os.Disk) (locks : Locks)
  | returned (m : StmtRemover) (disk : os.Disk) (locks : Locks) (err : Option String)

/-- The method `Apply` as one call that no other worker interrupts: the mutex of the
file of `m.Position()` is locked, the statements run, and the deferred `Unlock` runs
when they return or panic.  The steps of `engine.step` are the same three parts, one
at a time, with the mutex held between the first and the last. -/
def Apply (env : ApplyEnv) (m : StmtRemover) (d : os.Disk) (locks : Locks) : ApplyResult :=
  let name := (m.Position env).Filename
  match Lock locks name with
  | none => .blocked
  | some held =>
    match applyBody env m d with
    | .panicked m d => .panicked m d (Unlock held name)
    | .returned m d err => .returned m d (Unlock held name) err

/-- The method `Rollback`: the file is written, then the deferred `resetOrigFile`
clears the buffer; the result is the mutant, the disk and the error returned. -/
def Rollback (env : ApplyEnv) (m : StmtRemover) (d : os.Disk) :
    StmtRemover × os.Disk × Option String :=
  let filename := filepath.Join m.workDir (m.Position env).Filename
  let w := os.WriteFile d filename m.origFile
  ({ m with origFile := "" }, w.1, w.2)

end StmtRemover

end engine

/-- The call `r.Apply()` followed by `r.Rollback()`, when `Apply` returns: the mutant
and the disk after `Rollback`. -/
def applyThenRollback (env : engine.ApplyEnv) (m : engine.StmtRemover) (d : os.Disk)
    (locks : engine.Locks) : Option (engine.StmtRemover × os.Disk) :=
  match m.Apply env d locks with
  | .returned m1 d1 _ _ => some ((m1.Rollback env d1).1, (m1.Rollback env d1).2.1)
  | _ => none

/-! ## Workers -/

namespace engine

/-- Where a worker is in the cycle of its mutant: before the call of `Apply` or waiting
in its `Lock`; in `Apply` after `Lock` has returned and `Unlock` is deferred on the
mutex of `name`; in `Apply` after its statements have returned or panicked, before the
deferred `Unlock`; after `Apply` has returned, while the tests run; after a panic of
`Apply`; after `Rollback` has returned. -/
inductive Phase where
  | idle
  | locked (name : String)
  | leaving (name : String) (panicked : Bool)
  | applied
  | crashed
  | done
deriving DecidableEq, Repr

/-- Modelled from the spec: the worker pool is outside the given sources; "for each
mutant: acquire the file mutex (via `Apply`), run the test runner, then `Rollback`".
A worker is its mutant and the place it has reached. -/
structure Worker where
  mutant : StmtRemover
  phase : Phase

/-- What the workers share: the disk and the registry of locks. -/
structure World where
  workers : List Worker
  disk : os.Disk
  locks : Locks

/-- One step of worker `i`: the two calls `fileLock(...).Lock()` and
`defer fileLock(...).Unlock()` that open `Apply`, the statements of `Apply` after
them, the deferred `Unlock`, and the call of `Rollback`. -/
inductive Step where
  | lock (i : Nat)
  | body (i : Nat)
  | unlock (i : Nat)
  | rollback (i : Nat)
deriving DecidableEq, Repr

/-- The world after one step.  A step a worker cannot take leaves the world as it is:
so does `lock` while the mutex is held, the worker waits. -/
def step (env : ApplyEnv) (w : World) : Step → World
  | .lock i =>
    match w.workers[i]? with
    | some ⟨m, .idle⟩ =>
      match Lock w.locks (m.Position env).Filename with
      | none => w
      | some held =>
        { w with locks := held,
                 workers := w.workers.set i ⟨m, .locked (m.Position env).Filename⟩ }
    | _ => w
  | .body i =>
    match w.workers[i]? with
    | some ⟨m, .locked name⟩ =>
      match m.applyBody env w.disk with
      | .panicked m1 d1 =>
        { w with disk := d1, workers := w.workers.set i ⟨m1, .leaving name true⟩ }
      | .returned m1 d1 _ =>
        { w with disk := d1, workers := w.workers.set i ⟨m1, .leaving name false⟩ }
    | _ => w
  | .unlock i =>
    match w.workers[i]? with
    | some ⟨m, .leaving name panicked⟩ =>
      { w with locks := Unlock w.locks name,
               workers := w.workers.set i ⟨m, if panicked then .crashed else .applied⟩ }
    | _ => w
  | .rollback i =>
    match w.workers[i]? with
    | some ⟨m, .applied⟩ =>
      { w with disk := (m.Rollback env w.disk).2.1,
               workers := w.workers.set i ⟨(m.Rollback env w.disk).1, .done⟩ }
    | _ => w

/-- The world after the steps of a schedule, in order. -/
def run (env : ApplyEnv) (w : World) (schedule : List Step) : World :=
  schedule.foldl (step env) w

/-- The world before any worker has started: no mutex is held. -/
def World.start (mutants : List StmtRemover) (disk : os.Disk) : World :=
  { workers := mutants.map fun m => ⟨m, .idle⟩, disk := disk, locks := fun _ => false }

/-- The worker is inside `Apply`, between `Lock` and the deferred `Unlock`, on the
mutex of the file `name`. -/
def Worker.inApply (name : String) (x : Worker) : Bool :=
  match x.phase with
  | .locked n => decide (n = name)
  | .leaving n _ => decide (n = name)
  | _ => false

/-- The worker is between the start of `Apply` and the end of `Rollback` on the file
`name`. -/
def Worker.inCycle (env : ApplyEnv) (name : String) (x : Worker) : Bool :=
  match x.phase with
  | .locked n => decide (n = name)
  | .leaving n _ => decide (n = name)
  | .applied => decide ((x.mutant.Position env).Filename = name)
  | _ => false

end engine

/-- The mutex of a file is held exactly when one worker is inside `Apply` on it, and
no second worker is. -/
def lockInvariant (w : engine.World) : Prop :=
  ∀ name, w.workers.countP (engine.Worker.inApply name) = if w.locks name = true then 1 else 0

namespace example8

/-- The statement `x++` at offset 12. -/
def stmt : Node := .IncDecStmt (.Ident 12 "x" none) 13 .INC

/-- The block `{ x++ }` at offset 10. -/
def block : Node := .BlockStmt 10 [stmt]

/-- A file set and printer for the file `a.go`; the printed text shows whether the
statement is in the block, the no-op statement is an empty statement, and the output of
`diff` is a line telling whether the two files differ. -/
def env : engine.ApplyEnv :=
  { position := fun p => ⟨"a.go", p, 1, p⟩,
    Fprint := fun n =>
      match n.stmts with
      | [.IncDecStmt _ _ _] => .ok "package a\nfunc f() { x++ }\n"
      | _ => .ok "package a\nfunc f() { }\n",
    noop := fun s => .Other "EmptyStmt" s.Pos [],
    diff := fun d a b => some (if d.files a = d.files b then "" else "differ") }

/-- The statement remover of `x++` in the block, as pass 2 builds it, in the working
directory `w`. -/
def remover : engine.StmtRemover :=
  (engine.NewStmtRemover "m/a" block 0 12).SetWorkdir "w"

/-- The same statement remover in the working directory `v` of another worker. -/
def remover2 : engine.StmtRemover :=
  (engine.NewStmtRemover "m/a" block 0 12).SetWorkdir "v"

/-- The same file set when the comment `//line gen.y:1` stands between the brace of
the block and the statement: the positions from the statement on are in `gen.y`. -/
def envLine : engine.ApplyEnv :=
  { env with position := fun p => ⟨if p < 12 then "a.go" else "gen.y", p, 1, p⟩ }

/-- A disk with the file `a.go` in the working directories `w` and `v`, every path
readable and writable. -/
def disk : os.Disk :=
  { files := fun p =>
      if p = "w/a.go" ∨ p = "v/a.go" then some "package a\nfunc f() { x++ }\n" else none,
    dirs := fun p => decide (p = "w" ∨ p = "v"),
    noRead := fun _ => false, noWrite := fun _ => false, noRemove := fun _ => false }

/-- The same disk with `w/a.go` write-only. -/
def writeOnly : os.Disk := { disk with noRead := fun p => decide (p = "w/a.go") }

/-- The same disk with `w/a.go` read-only. -/
def readOnly : os.Disk := { disk with noWrite := fun p => decide (p = "w/a.go") }

/-- The same disk without the file `w/a.go`; the directory `w` exists. -/
def missing : os.Disk :=
  { disk with
    files := fun p => if p = "v/a.go" then some "package a\nfunc f() { x++ }\n" else none }

/-- The registry with no mutex held. -/
def free : engine.Locks := fun _ => false

end example8

/-! ## The catalogue tables -/

/-- C1: on a binary expression `GetArithmeticBaseMutations` returns exactly one
mutation, at the operator position, setting the operator to `s` for `(t, s)` among
`(+,-) (-,+) (*,/) (/,*) (%,*)`; it returns nothing for any other operator and for any
node that is not a binary expression.  `tokenMutantType[+]` is `[ArithmeticBase]`, and
on `a + b` the only operator of the catalogue that returns a mutation is
`ArithmeticBase`, whose single mutation replaces `+` by `-`. -/
theorem C1_arithmetic_base_table (x y : Node) (p : Nat) :
    (∀ t s, (t, s) ∈ [(Token.ADD, Token.SUB), (.SUB, .ADD), (.MUL, .QUO), (.QUO, .MUL),
        (.REM, .MUL)] →
      arithmetic.GetArithmeticBaseMutations (.BinaryExpr x p t y)
          = [⟨fun n => n.setOp s, fun n => n.setOp t, p⟩]
        ∧ (Node.BinaryExpr x p t y).setOp s = .BinaryExpr x p s y)
    ∧ (∀ t, t ∉ [Token.ADD, .SUB, .MUL, .QUO, .REM] →
      arithmetic.GetArithmeticBaseMutations (.BinaryExpr x p t y) = [])
    ∧ (∀ n : Node, n.isBinaryExpr = false → arithmetic.GetArithmeticBaseMutations n = [])
    ∧ engine.tokenMutantType .ADD = some [.ArithmeticBase]
    ∧ (∀ noop decls fuel k, catalogue noop decls fuel k (.BinaryExpr x p .ADD y)
        = .ret (if k = .ArithmeticBase
            then [⟨fun n => n.setOp .SUB, fun n => n.setOp .ADD, p⟩] else [])) := by
  refine ⟨?_, ?_, ?_, rfl, ?_⟩
  · intro t s h
    simp only [List.mem_cons, Prod.mk.injEq, List.mem_singleton, List.not_mem_nil,
      or_false] at h
    rcases h with ⟨rfl, rfl⟩ | ⟨rfl, rfl⟩ | ⟨rfl, rfl⟩ | ⟨rfl, rfl⟩ | ⟨rfl, rfl⟩ <;>
      exact ⟨rfl, rfl⟩
  · intro t h
    cases t <;> first | rfl | (exfalso; revert h; decide)
  · intro n h
    cases n <;> first | rfl | (exfalso; revert h; simp [Node.isBinaryExpr])
  · intro noop decls fuel k
    cases k <;> rfl

/-- C1, at `a + b`, `a && b` and the identifier `a`. -/
theorem C1_arithmetic_base_table_witness :
    arithmetic.GetArithmeticBaseMutations
        (.BinaryExpr (.Ident 1 "a" none) 3 .ADD (.Ident 5 "b" none))
      = [⟨fun n => n.setOp .SUB, fun n => n.setOp .ADD, 3⟩]
    ∧ arithmetic.GetArithmeticBaseMutations
        (.BinaryExpr (.Ident 1 "a" none) 3 .LAND (.Ident 5 "b" none)) = []
    ∧ arithmetic.GetArithmeticBaseMutations (.Ident 1 "a" none) = [] :=
  ⟨((C1_arithmetic_base_table (.Ident 1 "a" none) (.Ident 5 "b" none) 3).1
      .ADD .SUB (by decide)).1,
   (C1_arithmetic_base_table (.Ident 1 "a" none) (.Ident 5 "b" none) 3).2.1 .LAND (by decide),
   (C1_arithmetic_base_table (.Ident 1 "a" none) (.Ident 5 "b" none) 3).2.2.1
      (.Ident 1 "a" none) rfl⟩

/-- C2: on a binary expression `GetConditionalBoundaryMutations` returns exactly one
mutation replacing `t` by `s` for `(t, s)` among `(>=,>) (>,>=) (<=,<) (<,<=)` and
nothing for any other operator, `==` and `!=` included;
`GetConditionalNegationMutations` returns exactly one mutation replacing `t` by `s` for
`(t, s)` among `(>,<=) (<=,>) (<,>=) (>=,<) (==,!=) (!=,==)` and nothing otherwise; both
return nothing for a node that is not a binary expression. -/
theorem C2_comparison_tables (x y : Node) (p : Nat) :
    (∀ t s, (t, s) ∈ [(Token.GEQ, Token.GTR), (.GTR, .GEQ), (.LEQ, .LSS), (.LSS, .LEQ)] →
      conditional.GetConditionalBoundaryMutations (.BinaryExpr x p t y)
          = [⟨fun n => n.setOp s, fun n => n.setOp t, p⟩]
        ∧ (Node.BinaryExpr x p t y).setOp s = .BinaryExpr x p s y)
    ∧ (∀ t, t ∉ [Token.GEQ, .GTR, .LEQ, .LSS] →
      conditional.GetConditionalBoundaryMutations (.BinaryExpr x p t y) = [])
    ∧ conditional.GetConditionalBoundaryMutations (.BinaryExpr x p .EQL y) = []
    ∧ conditional.GetConditionalBoundaryMutations (.BinaryExpr x p .NEQ y) = []
    ∧ (∀ t s, (t, s) ∈ [(Token.GTR, Token.LEQ), (.LEQ, .GTR), (.LSS, .GEQ), (.GEQ, .LSS),
        (.EQL, .NEQ), (.NEQ, .EQL)] →
      conditional.GetConditionalNegationMutations (.BinaryExpr x p t y)
          = [⟨fun n => n.setOp s, fun n => n.setOp t, p⟩]
        ∧ (Node.BinaryExpr x p t y).setOp s = .BinaryExpr x p s y)
    ∧ (∀ t, t ∉ [Token.GTR, .LEQ, .LSS, .GEQ, .EQL, .NEQ] →
      conditional.GetConditionalNegationMutations (.BinaryExpr x p t y) = [])
    ∧ (∀ n : Node, n.isBinaryExpr = false →
      conditional.GetConditionalBoundaryMutations n = []
        ∧ conditional.GetConditionalNegationMutations n = []) := by
  refine ⟨?_, ?_, rfl, rfl, ?_, ?_, ?_⟩
  · intro t s h
    simp only [List.mem_cons, Prod.mk.injEq, List.mem_singleton, List.not_mem_nil,
      or_false] at h
    rcases h with ⟨rfl, rfl⟩ | ⟨rfl, rfl⟩ | ⟨rfl, rfl⟩ | ⟨rfl, rfl⟩ <;> exact ⟨rfl, rfl⟩
  · intro t h
    cases t <;> first | rfl | (exfalso; revert h; decide)
  · intro t s h
    simp only [List.mem_cons, Prod.mk.injEq, List.mem_singleton, List.not_mem_nil,
      or_false] at h
    rcases h with ⟨rfl, rfl⟩ | ⟨rfl, rfl⟩ | ⟨rfl, rfl⟩ | ⟨rfl, rfl⟩ | ⟨rfl, rfl⟩ | ⟨rfl, rfl⟩ <;>
      exact ⟨rfl, rfl⟩
  · intro t h
    cases t <;> first | rfl | (exfalso; revert h; decide)
  · intro n h
    cases n <;> first | exact ⟨rfl, rfl⟩ | (exfalso; revert h; simp [Node.isBinaryExpr])

/-- C2, at `x > 0`, `x + 0` and the literal `0`. -/
theorem C2_comparison_tables_witness :
    conditional.GetConditionalBoundaryMutations
        (.BinaryExpr (.Ident 1 "x" none) 3 .GTR (.BasicLit 5 .INT "0"))
      = [⟨fun n => n.setOp .GEQ, fun n => n.setOp .GTR, 3⟩]
    ∧ conditional.GetConditionalNegationMutations
        (.BinaryExpr (.Ident 1 "x" none) 3 .GTR (.BasicLit 5 .INT "0"))
      = [⟨fun n => n.setOp .LEQ, fun n => n.setOp .GTR, 3⟩]
    ∧ conditional.GetConditionalBoundaryMutations
        (.BinaryExpr (.Ident 1 "x" none) 3 .ADD (.BasicLit 5 .INT "0")) = []
    ∧ conditional.GetConditionalNegationMutations
        (.BinaryExpr (.Ident 1 "x" none) 3 .ADD (.BasicLit 5 .INT "0")) = []
    ∧ conditional.GetConditionalNegationMutations (.BasicLit 5 .INT "0") = [] :=
  ⟨((C2_comparison_tables (.Ident 1 "x" none) (.BasicLit 5 .INT "0") 3).1
      .GTR .GEQ (by decide)).1,
   ((C2_comparison_tables (.Ident 1 "x" none) (.BasicLit 5 .INT "0") 3).2.2.2.2.1
      .GTR .LEQ (by decide)).1,
   (C2_comparison_tables (.Ident 1 "x" none) (.BasicLit 5 .INT "0") 3).2.1 .ADD (by decide),
   (C2_comparison_tables (.Ident 1 "x" none) (.BasicLit 5 .INT "0") 3).2.2.2.2.2.1
      .ADD (by decide),
   ((C2_comparison_tables (.Ident 1 "x" none) (.BasicLit 5 .INT "0") 3).2.2.2.2.2.2
      (.BasicLit 5 .INT "0") rfl).2⟩

/-- C3: on `a && b` `GetInvertLogicalMutations` returns the single mutation replacing
`&&` by `||`, and `MutatorRemoveTerm` returns exactly two mutations, first the one that
replaces the left operand by the identifier `true` and leaves the right operand, then
the one that replaces the right operand by `true` and leaves the left operand; no other
operator of the catalogue returns a mutation, so the catalogue yields three.  On
`a || b` the same holds with `&&` and the identifier `false`.  On a binary expression
with another operator and on any other node both operators return the empty list. -/
theorem C3_logical_operators (a b : Node) (p : Nat) :
    conditional.GetInvertLogicalMutations (.BinaryExpr a p .LAND b)
      = [⟨fun n => n.setOp .LOR, fun n => n.setOp .LAND, p⟩]
    ∧ conditional.MutatorRemoveTerm (.BinaryExpr a p .LAND b)
      = [⟨fun n => n.setX (.Ident 0 "true" none), fun n => n.setX a, p⟩,
         ⟨fun n => n.setY (.Ident 0 "true" none), fun n => n.setY b, p⟩]
    ∧ (Node.BinaryExpr a p .LAND b).setX (.Ident 0 "true" none)
      = .BinaryExpr (.Ident 0 "true" none) p .LAND b
    ∧ (Node.BinaryExpr a p .LAND b).setY (.Ident 0 "true" none)
      = .BinaryExpr a p .LAND (.Ident 0 "true" none)
    ∧ (∀ noop decls fuel k, catalogue noop decls fuel k (.BinaryExpr a p .LAND b)
        = .ret (if k = .InvertLogical then conditional.GetInvertLogicalMutations (.BinaryExpr a p .LAND b)
            else if k = .RemoveBinaryExpression then
              conditional.MutatorRemoveTerm (.BinaryExpr a p .LAND b)
            else []))
    ∧ conditional.GetInvertLogicalMutations (.BinaryExpr a p .LOR b)
      = [⟨fun n => n.setOp .LAND, fun n => n.setOp .LOR, p⟩]
    ∧ conditional.MutatorRemoveTerm (.BinaryExpr a p .LOR b)
      = [⟨fun n => n.setX (.Ident 0 "false" none), fun n => n.setX a, p⟩,
         ⟨fun n => n.setY (.Ident 0 "false" none), fun n => n.setY b, p⟩]
    ∧ (Node.BinaryExpr a p .LOR b).setX (.Ident 0 "false" none)
      = .BinaryExpr (.Ident 0 "false" none) p .LOR b
    ∧ (Node.BinaryExpr a p .LOR b).setY (.Ident 0 "false" none)
      = .BinaryExpr a p .LOR (.Ident 0 "false" none)
    ∧ (∀ noop decls fuel k, catalogue noop decls fuel k (.BinaryExpr a p .LOR b)
        = .ret (if k = .InvertLogical then conditional.GetInvertLogicalMutations (.BinaryExpr a p .LOR b)
            else if k = .RemoveBinaryExpression then
              conditional.MutatorRemoveTerm (.BinaryExpr a p .LOR b)
            else []))
    ∧ (∀ t, t ∉ [Token.LAND, .LOR] →
      conditional.GetInvertLogicalMutations (.BinaryExpr a p t b) = []
        ∧ conditional.MutatorRemoveTerm (.BinaryExpr a p t b) = [])
    ∧ (∀ n : Node, n.isBinaryExpr = false →
      conditional.GetInvertLogicalMutations n = [] ∧ conditional.MutatorRemoveTerm n = []) := by
  refine ⟨rfl, rfl, rfl, rfl, ?_, rfl, rfl, rfl, rfl, ?_, ?_, ?_⟩
  · intro noop decls fuel k
    cases k <;> rfl
  · intro noop decls fuel k
    cases k <;> rfl
  · intro t h
    cases t <;> first | exact ⟨rfl, rfl⟩ | (exfalso; revert h; decide)
  · intro n h
    cases n <;> first | exact ⟨rfl, rfl⟩ | (exfalso; revert h; simp [Node.isBinaryExpr])

/-- C3, at `a + b` and the identifier `a`. -/
theorem C3_logical_operators_witness :
    conditional.MutatorRemoveTerm
        (.BinaryExpr (.Ident 1 "a" none) 3 .ADD (.Ident 5 "b" none)) = []
    ∧ conditional.GetInvertLogicalMutations (.Ident 1 "a" none) = [] :=
  ⟨((C3_logical_operators (.Ident 1 "a" none) (.Ident 5 "b" none) 3).2.2.2.2.2.2.2.2.2.2.1
      .ADD (by decide)).2,
   ((C3_logical_operators (.Ident 1 "a" none) (.Ident 5 "b" none) 3).2.2.2.2.2.2.2.2.2.2.2
      (.Ident 1 "a" none) rfl).1⟩

/-- C4: on an assignment `GetInvertAssignmentsMutations` returns exactly one mutation
replacing `t` by `s` for `(t, s)` among `(+=,-=) (-=,+=) (*=,/=) (/=,*=) (%=,%=)` and
nothing for any other token; the `%=` entry is the identity, so its mutation leaves the
statement as it was.  `GetRemoveSelfAssignmentMutations` returns exactly one mutation
replacing `t` by `=` for each of the eleven compound assignment tokens and nothing for
any other token, `=` and `:=` included.  Both return nothing for a node that is not an
assignment. -/
theorem C4_assignment_tables (l0 : Node) (ls r : List Node) (p : Nat) :
    (∀ t s, (t, s) ∈ [(Token.ADD_ASSIGN, Token.SUB_ASSIGN), (.SUB_ASSIGN, .ADD_ASSIGN),
        (.MUL_ASSIGN, .QUO_ASSIGN), (.QUO_ASSIGN, .MUL_ASSIGN), (.REM_ASSIGN, .REM_ASSIGN)] →
      arithmetic.GetInvertAssignmentsMutations (.AssignStmt l0 ls p t r)
          = [⟨fun n => n.setTok s, fun n => n.setTok t, p⟩]
        ∧ (Node.AssignStmt l0 ls p t r).setTok s = .AssignStmt l0 ls p s r)
    ∧ (∀ m ∈ arithmetic.GetInvertAssignmentsMutations (.AssignStmt l0 ls p .REM_ASSIGN r),
      m.Change (.AssignStmt l0 ls p .REM_ASSIGN r) = .AssignStmt l0 ls p .REM_ASSIGN r)
    ∧ (∀ t, t ∉ [Token.ADD_ASSIGN, .SUB_ASSIGN, .MUL_ASSIGN, .QUO_ASSIGN, .REM_ASSIGN] →
      arithmetic.GetInvertAssignmentsMutations (.AssignStmt l0 ls p t r) = [])
    ∧ (∀ t, t ∈ [Token.ADD_ASSIGN, .SUB_ASSIGN, .MUL_ASSIGN, .QUO_ASSIGN, .REM_ASSIGN,
        .AND_ASSIGN, .OR_ASSIGN, .XOR_ASSIGN, .SHL_ASSIGN, .SHR_ASSIGN, .AND_NOT_ASSIGN] →
      arithmetic.GetRemoveSelfAssignmentMutations (.AssignStmt l0 ls p t r)
          = [⟨fun n => n.setTok .ASSIGN, fun n => n.setTok t, p⟩]
        ∧ (Node.AssignStmt l0 ls p t r).setTok .ASSIGN = .AssignStmt l0 ls p .ASSIGN r)
    ∧ (∀ t, t ∉ [Token.ADD_ASSIGN, .SUB_ASSIGN, .MUL_ASSIGN, .QUO_ASSIGN, .REM_ASSIGN,
        .AND_ASSIGN, .OR_ASSIGN, .XOR_ASSIGN, .SHL_ASSIGN, .SHR_ASSIGN, .AND_NOT_ASSIGN] →
      arithmetic.GetRemoveSelfAssignmentMutations (.AssignStmt l0 ls p t r) = [])
    ∧ arithmetic.GetRemoveSelfAssignmentMutations (.AssignStmt l0 ls p .ASSIGN r) = []
    ∧ arithmetic.GetRemoveSelfAssignmentMutations (.AssignStmt l0 ls p .DEFINE r) = []
    ∧ (∀ n : Node, n.isAssignStmt = false →
      arithmetic.GetInvertAssignmentsMutations n = []
        ∧ arithmetic.GetRemoveSelfAssignmentMutations n = []) := by
  refine ⟨?_, ?_, ?_, ?_, ?_, rfl, rfl, ?_⟩
  · intro t s h
    simp only [List.mem_cons, Prod.mk.injEq, List.mem_singleton, List.not_mem_nil,
      or_false] at h
    rcases h with ⟨rfl, rfl⟩ | ⟨rfl, rfl⟩ | ⟨rfl, rfl⟩ | ⟨rfl, rfl⟩ | ⟨rfl, rfl⟩ <;>
      exact ⟨rfl, rfl⟩
  · intro m hm
    have h : m = ⟨fun n => n.setTok .REM_ASSIGN, fun n => n.setTok .REM_ASSIGN, p⟩ := by
      simpa [arithmetic.GetInvertAssignmentsMutations,
        arithmetic.invertAssignmentMutations] using hm
    subst h
    rfl
  · intro t h
    cases t <;> first | rfl | (exfalso; revert h; decide)
  · intro t h
    cases t <;> first | exact ⟨rfl, rfl⟩ | (exfalso; revert h; decide)
  · intro t h
    cases t <;> first | rfl | (exfalso; revert h; decide)
  · intro n h
    cases n <;> first | exact ⟨rfl, rfl⟩ | (exfalso; revert h; simp [Node.isAssignStmt])

/-- C4, at `x += 1`, `x = 1` and the identifier `x`. -/
theorem C4_assignment_tables_witness :
    arithmetic.GetInvertAssignmentsMutations
        (.AssignStmt (.Ident 1 "x" none) [] 3 .ADD_ASSIGN [.BasicLit 6 .INT "1"])
      = [⟨fun n => n.setTok .SUB_ASSIGN, fun n => n.setTok .ADD_ASSIGN, 3⟩]
    ∧ arithmetic.GetRemoveSelfAssignmentMutations
        (.AssignStmt (.Ident 1 "x" none) [] 3 .ADD_ASSIGN [.BasicLit 6 .INT "1"])
      = [⟨fun n => n.setTok .ASSIGN, fun n => n.setTok .ADD_ASSIGN, 3⟩]
    ∧ arithmetic.GetInvertAssignmentsMutations
        (.AssignStmt (.Ident 1 "x" none) [] 3 .ASSIGN [.BasicLit 6 .INT "1"]) = []
    ∧ arithmetic.GetRemoveSelfAssignmentMutations (.Ident 1 "x" none) = [] :=
  ⟨((C4_assignment_tables (.Ident 1 "x" none) [] [.BasicLit 6 .INT "1"] 3).1
      .ADD_ASSIGN .SUB_ASSIGN (by decide)).1,
   ((C4_assignment_tables (.Ident 1 "x" none) [] [.BasicLit 6 .INT "1"] 3).2.2.2.1
      .ADD_ASSIGN (by decide)).1,
   (C4_assignment_tables (.Ident 1 "x" none) [] [.BasicLit 6 .INT "1"] 3).2.2.1
      .ASSIGN (by decide),
   ((C4_assignment_tables (.Ident 1 "x" none) [] [.BasicLit 6 .INT "1"] 3).2.2.2.2.2.2.2
      (.Ident 1 "x" none) rfl).2⟩

/-- C5: on a binary expression `GetInvertBitwiseMutations` returns exactly one mutation
replacing `t` by `s` for `(t, s)` among `(&,|) (|,&) (^,&) (&^,&) (<<,>>) (>>,<<)` and
nothing for any other operator; on an assignment `GetInvertBitwiseAssignmentsMutations`
returns exactly one mutation replacing `t` by `s` for `(t, s)` among
`(&=,|=) (|=,&=) (^=,&=) (&^=,&=) (<<=,>>=) (>>=,<<=)` and nothing for any other token.
The assignment table is the binary table with `=` appended to every token: `t ↦ s` is
an entry of the binary table exactly when `t= ↦ s=` is an entry of the assignment
table. -/
theorem C5_bitwise_tables (x y l0 : Node) (ls r : List Node) (p : Nat) :
    (∀ t s, (t, s) ∈ [(Token.AND, Token.OR), (.OR, .AND), (.XOR, .AND), (.AND_NOT, .AND),
        (.SHL, .SHR), (.SHR, .SHL)] →
      arithmetic.GetInvertBitwiseMutations (.BinaryExpr x p t y)
          = [⟨fun n => n.setOp s, fun n => n.setOp t, p⟩]
        ∧ (Node.BinaryExpr x p t y).setOp s = .BinaryExpr x p s y)
    ∧ (∀ t, t ∉ [Token.AND, .OR, .XOR, .AND_NOT, .SHL, .SHR] →
      arithmetic.GetInvertBitwiseMutations (.BinaryExpr x p t y) = [])
    ∧ (∀ t s, (t, s) ∈ [(Token.AND_ASSIGN, Token.OR_ASSIGN), (.OR_ASSIGN, .AND_ASSIGN),
        (.XOR_ASSIGN, .AND_ASSIGN), (.AND_NOT_ASSIGN, .AND_ASSIGN),
        (.SHL_ASSIGN, .SHR_ASSIGN), (.SHR_ASSIGN, .SHL_ASSIGN)] →
      arithmetic.GetInvertBitwiseAssignmentsMutations (.AssignStmt l0 ls p t r)
          = [⟨fun n => n.setTok s, fun n => n.setTok t, p⟩]
        ∧ (Node.AssignStmt l0 ls p t r).setTok s = .AssignStmt l0 ls p s r)
    ∧ (∀ t, t ∉ [Token.AND_ASSIGN, .OR_ASSIGN, .XOR_ASSIGN, .AND_NOT_ASSIGN, .SHL_ASSIGN,
        .SHR_ASSIGN] →
      arithmetic.GetInvertBitwiseAssignmentsMutations (.AssignStmt l0 ls p t r) = [])
    ∧ (∀ t s, arithmetic.bitwiseMutations t = some s →
      ∃ t' s', t.withAssign = some t' ∧ s.withAssign = some s'
        ∧ arithmetic.invertBitwiseAssignmentMutations t' = some s')
    ∧ (∀ t' s', arithmetic.invertBitwiseAssignmentMutations t' = some s' →
      ∃ t s, t.withAssign = some t' ∧ s.withAssign = some s'
        ∧ arithmetic.bitwiseMutations t = some s) := by
  refine ⟨?_, ?_, ?_, ?_, ?_, ?_⟩
  · intro t s h
    simp only [List.mem_cons, Prod.mk.injEq, List.mem_singleton, List.not_mem_nil,
      or_false] at h
    rcases h with ⟨rfl, rfl⟩ | ⟨rfl, rfl⟩ | ⟨rfl, rfl⟩ | ⟨rfl, rfl⟩ | ⟨rfl, rfl⟩ | ⟨rfl, rfl⟩ <;>
      exact ⟨rfl, rfl⟩
  · intro t h
    cases t <;> first | rfl | (exfalso; revert h; decide)
  · intro t s h
    simp only [List.mem_cons, Prod.mk.injEq, List.mem_singleton, List.not_mem_nil,
      or_false] at h
    rcases h with ⟨rfl, rfl⟩ | ⟨rfl, rfl⟩ | ⟨rfl, rfl⟩ | ⟨rfl, rfl⟩ | ⟨rfl, rfl⟩ | ⟨rfl, rfl⟩ <;>
      exact ⟨rfl, rfl⟩
  · intro t h
    cases t <;> first | rfl | (exfalso; revert h; decide)
  · intro t s h
    cases t <;> simp [arithmetic.bitwiseMutations] at h <;> subst h <;>
      exact ⟨_, _, rfl, rfl, rfl⟩
  · intro t' s' h
    cases t' <;> simp [arithmetic.invertBitwiseAssignmentMutations] at h <;> subst h
    · exact ⟨.AND, .OR, rfl, rfl, rfl⟩
    · exact ⟨.OR, .AND, rfl, rfl, rfl⟩
    · exact ⟨.XOR, .AND, rfl, rfl, rfl⟩
    · exact ⟨.SHL, .SHR, rfl, rfl, rfl⟩
    · exact ⟨.SHR, .SHL, rfl, rfl, rfl⟩
    · exact ⟨.AND_NOT, .AND, rfl, rfl, rfl⟩

/-- C5, at `x ^ y`, `x + y`, `x ^= 1` and `x += 1`, and at the entry `^ ↦ &`. -/
theorem C5_bitwise_tables_witness :
    arithmetic.GetInvertBitwiseMutations
        (.BinaryExpr (.Ident 1 "x" none) 3 .XOR (.Ident 5 "y" none))
      = [⟨fun n => n.setOp .AND, fun n => n.setOp .XOR, 3⟩]
    ∧ arithmetic.GetInvertBitwiseMutations
        (.BinaryExpr (.Ident 1 "x" none) 3 .ADD (.Ident 5 "y" none)) = []
    ∧ arithmetic.GetInvertBitwiseAssignmentsMutations
        (.AssignStmt (.Ident 1 "x" none) [] 3 .XOR_ASSIGN [.BasicLit 6 .INT "1"])
      = [⟨fun n => n.setTok .AND_ASSIGN, fun n => n.setTok .XOR_ASSIGN, 3⟩]
    ∧ arithmetic.GetInvertBitwiseAssignmentsMutations
        (.AssignStmt (.Ident 1 "x" none) [] 3 .ADD_ASSIGN [.BasicLit 6 .INT "1"]) = []
    ∧ (∃ t' s', Token.XOR.withAssign = some t' ∧ Token.AND.withAssign = some s'
        ∧ arithmetic.invertBitwiseAssignmentMutations t' = some s')
    ∧ (∃ t s, t.withAssign = some Token.XOR_ASSIGN ∧ s.withAssign = some Token.AND_ASSIGN
        ∧ arithmetic.bitwiseMutations t = some s) :=
  ⟨((C5_bitwise_tables (.Ident 1 "x" none) (.Ident 5 "y" none) (.Ident 1 "x" none) []
      [.BasicLit 6 .INT "1"] 3).1 .XOR .AND (by decide)).1,
   (C5_bitwise_tables (.Ident 1 "x" none) (.Ident 5 "y" none) (.Ident 1 "x" none) []
      [.BasicLit 6 .INT "1"] 3).2.1 .ADD (by decide),
   ((C5_bitwise_tables (.Ident 1 "x" none) (.Ident 5 "y" none) (.Ident 1 "x" none) []
      [.BasicLit 6 .INT "1"] 3).2.2.1 .XOR_ASSIGN .AND_ASSIGN (by decide)).1,
   (C5_bitwise_tables (.Ident 1 "x" none) (.Ident 5 "y" none) (.Ident 1 "x" none) []
      [.BasicLit 6 .INT "1"] 3).2.2.2.1 .ADD_ASSIGN (by decide),
   (C5_bitwise_tables (.Ident 1 "x" none) (.Ident 5 "y" none) (.Ident 1 "x" none) []
      [.BasicLit 6 .INT "1"] 3).2.2.2.2.1 .XOR .AND rfl,
   (C5_bitwise_tables (.Ident 1 "x" none) (.Ident 5 "y" none) (.Ident 1 "x" none) []
      [.BasicLit 6 .INT "1"] 3).2.2.2.2.2 .XOR_ASSIGN .AND_ASSIGN rfl⟩

/-- C6: on an increment or decrement statement `GetIncDecMutations` returns exactly one
mutation, at the token position, replacing `++` by `--` and `--` by `++` (the Go field
`Tok` of an `IncDecStmt` is `INC` or `DEC`; for any other value nothing is returned);
on a branch statement `MutatorLoopBreak` returns exactly one mutation replacing `break`
by `continue` and `continue` by `break`, and nothing for `goto`, `fallthrough` or any
other token.  Both return nothing for any other kind of node. -/
theorem C6_statement_token_operators (x : Node) (label : Option Node) (p : Nat) :
    incrementdecrement.GetIncDecMutations (.IncDecStmt x p .INC)
      = [⟨fun n => n.setTok .DEC, fun n => n.setTok .INC, p⟩]
    ∧ (Node.IncDecStmt x p .INC).setTok .DEC = .IncDecStmt x p .DEC
    ∧ incrementdecrement.GetIncDecMutations (.IncDecStmt x p .DEC)
      = [⟨fun n => n.setTok .INC, fun n => n.setTok .DEC, p⟩]
    ∧ (Node.IncDecStmt x p .DEC).setTok .INC = .IncDecStmt x p .INC
    ∧ (∀ t, t ∉ [Token.INC, .DEC] →
      incrementdecrement.GetIncDecMutations (.IncDecStmt x p t) = [])
    ∧ (∀ n : Node, n.isIncDecStmt = false → incrementdecrement.GetIncDecMutations n = [])
    ∧ loop.MutatorLoopBreak (.BranchStmt p .BREAK label)
      = [⟨fun n => n.setTok .CONTINUE, fun n => n.setTok .BREAK, p⟩]
    ∧ (Node.BranchStmt p .BREAK label).setTok .CONTINUE = .BranchStmt p .CONTINUE label
    ∧ loop.MutatorLoopBreak (.BranchStmt p .CONTINUE label)
      = [⟨fun n => n.setTok .BREAK, fun n => n.setTok .CONTINUE, p⟩]
    ∧ (Node.BranchStmt p .CONTINUE label).setTok .BREAK = .BranchStmt p .BREAK label
    ∧ loop.MutatorLoopBreak (.BranchStmt p .GOTO label) = []
    ∧ loop.MutatorLoopBreak (.BranchStmt p .FALLTHROUGH label) = []
    ∧ (∀ t, t ∉ [Token.BREAK, .CONTINUE] → loop.MutatorLoopBreak (.BranchStmt p t label) = [])
    ∧ (∀ n : Node, n.isBranchStmt = false → loop.MutatorLoopBreak n = [])
    ∧ (∀ noop decls fuel k, catalogue noop decls fuel k (.BranchStmt p .BREAK label)
        = .ret (if k = .InvertLoopCtrl
            then [⟨fun n => n.setTok .CONTINUE, fun n => n.setTok .BREAK, p⟩] else [])) := by
  refine ⟨rfl, rfl, rfl, rfl, ?_, ?_, rfl, rfl, rfl, rfl, rfl, rfl, ?_, ?_, ?_⟩
  · intro t h
    cases t <;> first | rfl | (exfalso; revert h; decide)
  · intro n h
    cases n <;> first | rfl | (exfalso; revert h; simp [Node.isIncDecStmt])
  · intro t h
    cases t <;> first | rfl | (exfalso; revert h; decide)
  · intro n h
    cases n <;> first | rfl | (exfalso; revert h; simp [Node.isBranchStmt])
  · intro noop decls fuel k
    cases k <;> rfl

/-- C6, at `i++` with an out-of-range token, at `return` and at `i++`. -/
theorem C6_statement_token_operators_witness :
    incrementdecrement.GetIncDecMutations (.IncDecStmt (.Ident 1 "i" none) 2 .ADD) = []
    ∧ incrementdecrement.GetIncDecMutations (.ReturnStmt 1 []) = []
    ∧ loop.MutatorLoopBreak (.BranchStmt 2 .RETURN none) = []
    ∧ loop.MutatorLoopBreak (.IncDecStmt (.Ident 1 "i" none) 2 .INC) = [] :=
  ⟨(C6_statement_token_operators (.Ident 1 "i" none) none 2).2.2.2.2.1 .ADD (by decide),
   (C6_statement_token_operators (.Ident 1 "i" none) none 2).2.2.2.2.2.1
      (.ReturnStmt 1 []) rfl,
   (C6_statement_token_operators (.Ident 1 "i" none) none 2).2.2.2.2.2.2.2.2.2.2.2.2.1
      .RETURN (by decide),
   (C6_statement_token_operators (.Ident 1 "i" none) none 2).2.2.2.2.2.2.2.2.2.2.2.2.2.1
      (.IncDecStmt (.Ident 1 "i" none) 2 .INC) rfl⟩

/-! ## Change followed by Reset -/

theorem list_set_of_getElem? {α : Type} :
    ∀ (l : List α) (i : Nat) (a : α), l[i]? = some a → l.set i a = l
  | [], _, _, h => by simp at h
  | _ :: _, 0, a, h => by
    simp at h
    simp [h]
  | _ :: xs, i + 1, a, h => by
    simp at h
    simp [list_set_of_getElem? xs i a h]

theorem setStmt_roundtrip (n : Node) (i : Nat) (old x : Node)
    (h : n.stmts[i]? = some old) : (n.setStmt i x).setStmt i old = n := by
  cases n <;> simp [Node.stmts] at h <;>
    simp [Node.setStmt, List.set_set, list_set_of_getElem? _ _ _ h]

theorem removeLoop_roundtrip (noop : Node → Node) (decls : List Node) (fuel : Nat) (n : Node) :
    ∀ (rest : List Node) (i : Nat) (acc ms : List Mutation),
      (∀ j s, rest[j]? = some s → n.stmts[i + j]? = some s) →
      statement.removeLoop noop decls fuel rest i acc = .ret ms →
      (∀ m ∈ acc, m.Reset (m.Change n) = n) → ∀ m ∈ ms, m.Reset (m.Change n) = n := by
  intro rest
  induction rest with
  | nil =>
    intro i acc ms _ h hacc
    simp [statement.removeLoop] at h
    subst h
    exact hacc
  | cons ni rest ih =>
    intro i acc ms hidx h hacc
    have hrest : ∀ j s, rest[j]? = some s → n.stmts[i + 1 + j]? = some s := by
      intro j s hj
      have := hidx (j + 1) s (by simpa using hj)
      rwa [show i + 1 + j = i + (j + 1) by omega]
    have hni : n.stmts[i]? = some ni := by simpa using hidx 0 ni (by simp)
    rw [statement.removeLoop] at h
    split at h
    · refine ih (i + 1) _ ms hrest h ?_
      intro m hm
      rcases List.mem_append.1 hm with hm | hm
      · exact hacc m hm
      · simp at hm
        subst hm
        exact setStmt_roundtrip n i ni _ hni
    · exact ih (i + 1) acc ms hrest h hacc
    · cases h
    · cases h

/-- C7: for every node `n`, every kind `k` and every mutation `m` that the operator
registered for `k` returns on `n`, running `m.Change` and then `m.Reset` on `n` gives
back `n`: the token, the operand or the statement at the captured index is the
original one and no other part of `n` differs. -/
theorem C7_change_reset_roundtrip (noop : Node → Node) (decls : List Node) (fuel : Nat)
    (k : MutType) (n : Node) (ms : List Mutation)
    (h : catalogue noop decls fuel k n = .ret ms) (m : Mutation) (hm : m ∈ ms) :
    m.Reset (m.Change n) = n := by
  cases k
  case RemoveStatement =>
    exact removeLoop_roundtrip noop decls fuel n n.stmts 0 [] ms
      (fun j s hj => by simpa using hj) h (by simp) m hm
  case RemoveBinaryExpression =>
    simp only [catalogue, Result.ret.injEq] at h
    subst h
    cases n <;> simp [conditional.MutatorRemoveTerm] at hm
    rcases hm with ⟨_, rfl | rfl⟩ <;> rfl
  all_goals
    simp only [catalogue, Result.ret.injEq] at h
    subst h
    cases n <;>
      simp [arithmetic.GetArithmeticBaseMutations, arithmetic.GetInvertAssignmentsMutations,
        arithmetic.GetInvertBitwiseMutations, arithmetic.GetInvertBitwiseAssignmentsMutations,
        arithmetic.GetRemoveSelfAssignmentMutations, conditional.GetConditionalBoundaryMutations,
        conditional.GetConditionalNegationMutations, conditional.GetInvertLogicalMutations,
        incrementdecrement.GetIncDecMutations, loop.MutatorLoopBreak] at hm
    split at hm <;> simp at hm
    subst hm
    rfl

/-- C7, at the block `{ x = 1 }`: the statement removal of `x = 1` is the mutation the
catalogue returns, and `Change` followed by `Reset` gives the block back. -/
theorem C7_change_reset_roundtrip_witness :
    catalogue (fun s => .Other "EmptyStmt" s.Pos []) [] 0 .RemoveStatement
        (.BlockStmt 1 [.AssignStmt (.Ident 3 "x" none) [] 5 .ASSIGN [.BasicLit 7 .INT "1"]])
      = .ret [⟨fun n => n.setStmt 0 (.Other "EmptyStmt" 3 []),
              fun n => n.setStmt 0
                (.AssignStmt (.Ident 3 "x" none) [] 5 .ASSIGN [.BasicLit 7 .INT "1"]), 3⟩]
    ∧ (Node.BlockStmt 1 [.Other "EmptyStmt" 3 []]).setStmt 0
          (.AssignStmt (.Ident 3 "x" none) [] 5 .ASSIGN [.BasicLit 7 .INT "1"])
      = .BlockStmt 1 [.AssignStmt (.Ident 3 "x" none) [] 5 .ASSIGN [.BasicLit 7 .INT "1"]] :=
  ⟨rfl,
   C7_change_reset_roundtrip (fun s => .Other "EmptyStmt" s.Pos []) [] 0 .RemoveStatement
    (.BlockStmt 1 [.AssignStmt (.Ident 3 "x" none) [] 5 .ASSIGN [.BasicLit 7 .INT "1"]])
    [⟨fun n => n.setStmt 0 (.Other "EmptyStmt" 3 []),
      fun n => n.setStmt 0
        (.AssignStmt (.Ident 3 "x" none) [] 5 .ASSIGN [.BasicLit 7 .INT "1"]), 3⟩]
    rfl _ (List.mem_singleton.2 rfl)⟩

/-! ## The eligibility gate -/

/-- C8: `mutationStatus` is `Skipped` when the diff provider reports the position as
not changed, whatever the coverage provider says; otherwise it is `Runnable` when the
position is covered and `NotCovered`, the zero status, when it is not.  So it is
`Runnable` exactly when the position is covered and changed, and it is always one of
`NotCovered`, `Skipped`, `Runnable`. -/
theorem C8_eligibility_gate (codeData : engine.CodeData) (pos : engine.Position) :
    engine.mutationStatus codeData pos
      = (if codeData.IsChanged pos = false then engine.Status.Skipped
          else if codeData.IsCovered pos = true then engine.Status.Runnable
          else engine.Status.NotCovered)
    ∧ (default : engine.Status) = engine.Status.NotCovered
    ∧ (engine.mutationStatus codeData pos = engine.Status.Runnable
        ↔ codeData.IsCovered pos = true ∧ codeData.IsChanged pos = true)
    ∧ (engine.mutationStatus codeData pos = engine.Status.NotCovered
        ∨ engine.mutationStatus codeData pos = engine.Status.Skipped
        ∨ engine.mutationStatus codeData pos = engine.Status.Runnable) := by
  unfold engine.mutationStatus
  cases hc : codeData.IsChanged pos <;> cases hv : codeData.IsCovered pos <;>
    simp [default]

/-! ## Discovery -/

/-- A node on which `NewTokenNode` succeeds is never arid: the arid test of the first
walk of `runOnFile` cannot prune. -/
theorem tokenNode_not_arid (decls : List Node) (fuel : Nat) (n : Node) :
    engine.NewTokenNode (some n) = none ∨ engine.isAridNode decls fuel (some n) = .ret false := by
  cases n <;> first
    | (left; rfl)
    | (right; cases fuel <;> rfl)

/-- C9, the code at `if x > 0 { }` and at `x = 2; run(func() { x = 1 })`: the `if`
statement is arid, and `runOnFile` emits the two token mutants of `>` inside it; the
call statement is arid, and `runOnFile` emits a statement removal for `x = 1` inside
it (after the one for `x = 2`). -/
theorem C9_mutants_inside_arid_nodes :
    engine.isAridNode example1.env.decls 0 (some example1.ifStmt) = .ret true
    ∧ engine.runOnFile example1.env 0 example1.file []
      = .ret [.TokenMutant "example.com/m/p" ⟨.GTR, 37⟩ .ConditionalsBoundary .Runnable,
              .TokenMutant "example.com/m/p" ⟨.GTR, 37⟩ .ConditionalsNegation .Runnable]
    ∧ engine.isAridNode example2.env.decls 0 (some example2.callStmt) = .ret true
    ∧ engine.runOnFile example2.env 0 example2.file []
      = .ret [.StmtRemover "example.com/m/p" example2.body 0 32 .RemoveStatement .Runnable,
              .StmtRemover "example.com/m/p"
                (.BlockStmt 52 [.AssignStmt (.Ident 54 "x" (some 1)) [] 56 .ASSIGN
                  [.BasicLit 58 .INT "1"]])
                0 54 .RemoveStatement .Runnable] :=
  ⟨rfl, rfl, rfl, rfl⟩

/-! ## The removability rule -/

theorem statement_check_eq (decls : List Node) (fuel : Nat) (s : Node) :
    statement.checkRemoveStatement decls fuel s
      = (astutil.IsAridNode decls fuel (some s)).map fun arid => !arid && removableBySpec s := by
  unfold statement.checkRemoveStatement
  cases h : astutil.IsAridNode decls fuel (some s) with
  | ret b =>
    cases b
    · cases s <;> simp [Result.map, removableBySpec]
      split <;> simp_all
    · simp [Result.map]
  | panic => rfl
  | fuel => rfl

theorem engine_check_eq (decls : List Node) (fuel : Nat) (s : Node) :
    engine.checkRemoveStatement decls fuel s
      = (engine.isAridNode decls fuel (some s)).map fun arid => !arid && removableBySpec s := by
  unfold engine.checkRemoveStatement
  cases h : engine.isAridNode decls fuel (some s) with
  | ret b =>
    cases b
    · cases s <;> simp [Result.map, removableBySpec]
    · simp [Result.map]
  | panic => rfl
  | fuel => rfl

theorem removeLoop_eq (noop : Node → Node) (decls : List Node) (fuel : Nat) :
    ∀ (rest : List Node) (i : Nat) (acc : List Mutation),
      (∀ s ∈ rest, ∃ b, statement.checkRemoveStatement decls fuel s = .ret b) →
      statement.removeLoop noop decls fuel rest i acc
        = .ret (acc ++ ((rest.enumFrom i).filter fun c =>
            decide (statement.checkRemoveStatement decls fuel c.2 = .ret true)).map fun c =>
              { Change := fun n => n.setStmt c.1 (noop c.2),
                Reset := fun n => n.setStmt c.1 c.2,
                Pos := c.2.Pos }) := by
  intro rest
  induction rest with
  | nil => intro i acc _; simp [statement.removeLoop]
  | cons ni rest ih =>
    intro i acc h
    obtain ⟨b, hb⟩ := h ni (by simp)
    have hrest : ∀ s ∈ rest, ∃ b, statement.checkRemoveStatement decls fuel s = .ret b :=
      fun s hs => h s (by simp [hs])
    rw [statement.removeLoop, hb]
    cases b
    · simp [ih (i + 1) acc hrest, List.enumFrom, hb]
    · simp [ih (i + 1) _ hrest, List.enumFrom, hb]

/-- The removability rule where the arid analysis returns: `checkRemoveStatement`, in
`statement/remove.go` and in `engine/engine.go`, returns what the arid analysis of the statement returns mapped through
`not arid and (AssignStmt with operator other than := , or ExprStmt, or IncDecStmt)`:
it is true exactly when the statement is not arid and has one of these shapes.  It is
false for declaration, return, defer, branch, for and switch statements, and never true
for an if statement or a block.  When the check returns for every statement of a block
or case clause, `GetRemoveStatementMutations` returns one mutation per removable child,
in statement order, each positioned at the start of its child.  For a `:=` assignment
the check is false and no operator of the catalogue returns a mutation. -/
theorem removability_rule_of_returning_checks (noop : Node → Node) (decls : List Node) (fuel : Nat) :
    (∀ s, statement.checkRemoveStatement decls fuel s
        = (astutil.IsAridNode decls fuel (some s)).map fun arid =>
            !arid && removableBySpec s)
    ∧ (∀ s, engine.checkRemoveStatement decls fuel s
        = (engine.isAridNode decls fuel (some s)).map fun arid =>
            !arid && removableBySpec s)
    ∧ (∀ s, (∃ d, s = .DeclStmt d) ∨ (∃ p r, s = .ReturnStmt p r) ∨ (∃ p c, s = .DeferStmt p c)
        ∨ (∃ p t l, s = .BranchStmt p t l) ∨ (∃ p i c o b, s = .ForStmt p i c o b)
        ∨ (∃ p i t b, s = .SwitchStmt p i t b) →
      statement.checkRemoveStatement decls fuel s = .ret false
        ∧ engine.checkRemoveStatement decls fuel s = .ret false)
    ∧ (∀ s, (∃ p i c b e, s = .IfStmt p i c b e) ∨ (∃ p l, s = .BlockStmt p l) →
      statement.checkRemoveStatement decls fuel s
          = (astutil.IsAridNode decls fuel (some s)).map (fun _ => false)
        ∧ engine.checkRemoveStatement decls fuel s
          = (engine.isAridNode decls fuel (some s)).map (fun _ => false))
    ∧ (∀ l, (∀ s ∈ l, ∃ b, statement.checkRemoveStatement decls fuel s = .ret b) →
      (∀ p, statement.GetRemoveStatementMutations noop decls fuel (.BlockStmt p l)
        = .ret (removalsBySpec noop
            (fun s => decide (statement.checkRemoveStatement decls fuel s = .ret true)) l))
      ∧ (∀ p e, statement.GetRemoveStatementMutations noop decls fuel (.CaseClause p e l)
        = .ret (removalsBySpec noop
            (fun s => decide (statement.checkRemoveStatement decls fuel s = .ret true)) l)))
    ∧ (∀ l0 ls p r,
      statement.checkRemoveStatement decls fuel (.AssignStmt l0 ls p .DEFINE r) = .ret false
        ∧ engine.checkRemoveStatement decls fuel (.AssignStmt l0 ls p .DEFINE r) = .ret false
        ∧ ∀ k, catalogue noop decls fuel k (.AssignStmt l0 ls p .DEFINE r) = .ret []) := by
  refine ⟨statement_check_eq decls fuel, engine_check_eq decls fuel, ?_, ?_, ?_, ?_⟩
  · intro s hs
    rcases hs with ⟨d, rfl⟩ | ⟨p, r, rfl⟩ | ⟨p, c, rfl⟩ | ⟨p, t, l, rfl⟩ | ⟨p, i, c, o, b, rfl⟩
      | ⟨p, i, t, b, rfl⟩ <;> cases fuel <;> exact ⟨rfl, rfl⟩
  · intro s hs
    rw [statement_check_eq, engine_check_eq]
    rcases hs with ⟨p, i, c, b, e, rfl⟩ | ⟨p, l, rfl⟩ <;> simp [removableBySpec]
  · intro l h
    constructor
    · intro p
      simpa [statement.GetRemoveStatementMutations, Node.stmts, removalsBySpec, List.enum]
        using removeLoop_eq noop decls fuel l 0 [] h
    · intro p e
      simpa [statement.GetRemoveStatementMutations, Node.stmts, removalsBySpec, List.enum]
        using removeLoop_eq noop decls fuel l 0 [] h
  · intro l0 ls p r
    refine ⟨?_, ?_, ?_⟩
    · cases fuel <;> rfl
    · cases fuel <;> rfl
    · intro k
      cases k <;> rfl

/-- The removability rule at the block `{ x = 2; x := 1; i++ }`: the check returns on its three
statements, and `GetRemoveStatementMutations` returns the removals of `x = 2` (index 0,
position 3) and of `i++` (index 2, position 17), in that order. -/
theorem removability_rule_of_returning_checks_example :
    (∀ s ∈ [Node.AssignStmt (.Ident 3 "x" none) [] 5 .ASSIGN [.BasicLit 7 .INT "2"],
            .AssignStmt (.Ident 10 "x" none) [] 12 .DEFINE [.BasicLit 15 .INT "1"],
            .IncDecStmt (.Ident 17 "i" none) 18 .INC],
        ∃ b, statement.checkRemoveStatement [] 0 s = .ret b)
    ∧ statement.GetRemoveStatementMutations (fun s => .Other "EmptyStmt" s.Pos []) [] 0
        (.BlockStmt 1
          [.AssignStmt (.Ident 3 "x" none) [] 5 .ASSIGN [.BasicLit 7 .INT "2"],
           .AssignStmt (.Ident 10 "x" none) [] 12 .DEFINE [.BasicLit 15 .INT "1"],
           .IncDecStmt (.Ident 17 "i" none) 18 .INC])
      = .ret (removalsBySpec (fun s => .Other "EmptyStmt" s.Pos [])
          (fun s => decide (statement.checkRemoveStatement [] 0 s = .ret true))
          [.AssignStmt (.Ident 3 "x" none) [] 5 .ASSIGN [.BasicLit 7 .INT "2"],
           .AssignStmt (.Ident 10 "x" none) [] 12 .DEFINE [.BasicLit 15 .INT "1"],
           .IncDecStmt (.Ident 17 "i" none) 18 .INC])
    ∧ (removalsBySpec (fun s => .Other "EmptyStmt" s.Pos [])
          (fun s => decide (statement.checkRemoveStatement [] 0 s = .ret true))
          [.AssignStmt (.Ident 3 "x" none) [] 5 .ASSIGN [.BasicLit 7 .INT "2"],
           .AssignStmt (.Ident 10 "x" none) [] 12 .DEFINE [.BasicLit 15 .INT "1"],
           .IncDecStmt (.Ident 17 "i" none) 18 .INC]).map (fun m => m.Pos) = [3, 17] :=
  have h : ∀ s ∈ [Node.AssignStmt (.Ident 3 "x" none) [] 5 .ASSIGN [.BasicLit 7 .INT "2"],
            .AssignStmt (.Ident 10 "x" none) [] 12 .DEFINE [.BasicLit 15 .INT "1"],
            .IncDecStmt (.Ident 17 "i" none) 18 .INC],
        ∃ b, statement.checkRemoveStatement [] 0 s = .ret b := by
    intro s hs
    simp only [List.mem_cons, List.mem_singleton, List.not_mem_nil, or_false] at hs
    rcases hs with rfl | rfl | rfl <;> exact ⟨_, rfl⟩
  ⟨h, ((removability_rule_of_returning_checks (fun s => .Other "EmptyStmt" s.Pos []) [] 0).2.2.2.2.1 _ h).1 1,
    by decide⟩

/-! ## The arid analysis -/

theorem astutil_IsAridNode_some (decls : List Node) (fuel : Nat) :
    ∃ resolve, ∀ m, astutil.IsAridNode decls fuel (some m)
      = astutil.IsAridNodeAux decls resolve m := by
  cases fuel with
  | zero => exact ⟨_, fun _ => rfl⟩
  | succ f => exact ⟨_, fun _ => rfl⟩

theorem engine_isAridNode_some (decls : List Node) (fuel : Nat) :
    ∃ resolve, ∀ m, engine.isAridNode decls fuel (some m)
      = engine.isAridNodeAux decls resolve m := by
  cases fuel with
  | zero => exact ⟨_, fun _ => rfl⟩
  | succ f => exact ⟨_, fun _ => rfl⟩

theorem astutil_IsAridList_true (decls : List Node) (resolve : Node → Result Bool) :
    ∀ l : List Node, astutil.IsAridList decls resolve l = .ret true
      ↔ ∀ s ∈ l, astutil.IsAridNodeAux decls resolve s = .ret true := by
  intro l
  induction l with
  | nil => simp [astutil.IsAridList]
  | cons s rest ih =>
    rw [astutil.IsAridList]
    cases h : astutil.IsAridNodeAux decls resolve s with
    | ret b => cases b <;> simp [ih, h]
    | panic => simp [h]
    | fuel => simp [h]

theorem engine_isAridList_true (decls : List Node) (resolve : Node → Result Bool) :
    ∀ l : List Node, engine.isAridList decls resolve l = .ret true
      ↔ ∀ s ∈ l, engine.isAridNodeAux decls resolve s = .ret true := by
  intro l
  induction l with
  | nil => simp [engine.isAridList]
  | cons s rest ih =>
    rw [engine.isAridList]
    cases h : engine.isAridNodeAux decls resolve s with
    | ret b => cases b <;> simp [ih, h]
    | panic => simp [h]
    | fuel => simp [h]

theorem astutil_IsAridList_returns (decls : List Node) (resolve : Node → Result Bool) :
    ∀ l : List Node, (∀ s ∈ l, ∃ b, astutil.IsAridNodeAux decls resolve s = .ret b) →
      ∃ b, astutil.IsAridList decls resolve l = .ret b := by
  intro l
  induction l with
  | nil => intro _; exact ⟨true, rfl⟩
  | cons s rest ih =>
    intro h
    obtain ⟨b, hb⟩ := h s (by simp)
    rw [astutil.IsAridList, hb]
    cases b
    · exact ⟨false, rfl⟩
    · exact ih fun s hs => h s (by simp [hs])

theorem engine_isAridList_returns (decls : List Node) (resolve : Node → Result Bool) :
    ∀ l : List Node, (∀ s ∈ l, ∃ b, engine.isAridNodeAux decls resolve s = .ret b) →
      ∃ b, engine.isAridList decls resolve l = .ret b := by
  intro l
  induction l with
  | nil => intro _; exact ⟨true, rfl⟩
  | cons s rest ih =>
    intro h
    obtain ⟨b, hb⟩ := h s (by simp)
    rw [engine.isAridList, hb]
    cases b
    · exact ⟨false, rfl⟩
    · exact ih fun s hs => h s (by simp [hs])

/-- C11: for a block, `IsAridNode` returns true exactly when it returns true for every
statement of the list, so it is true for the empty block; the same holds for a case
clause and the statements of its body, and for `isAridNode` of the engine.  When the
analysis returns for every statement of the list, it returns for the block and for the
case clause. -/
theorem C11_arid_statement_lists (decls : List Node) (fuel : Nat) (p : Nat)
    (e l : List Node) :
    (astutil.IsAridNode decls fuel (some (.BlockStmt p l)) = .ret true
      ↔ ∀ s ∈ l, astutil.IsAridNode decls fuel (some s) = .ret true)
    ∧ astutil.IsAridNode decls fuel (some (.BlockStmt p [])) = .ret true
    ∧ (astutil.IsAridNode decls fuel (some (.CaseClause p e l)) = .ret true
      ↔ ∀ s ∈ l, astutil.IsAridNode decls fuel (some s) = .ret true)
    ∧ (engine.isAridNode decls fuel (some (.BlockStmt p l)) = .ret true
      ↔ ∀ s ∈ l, engine.isAridNode decls fuel (some s) = .ret true)
    ∧ engine.isAridNode decls fuel (some (.BlockStmt p [])) = .ret true
    ∧ (engine.isAridNode decls fuel (some (.CaseClause p e l)) = .ret true
      ↔ ∀ s ∈ l, engine.isAridNode decls fuel (some s) = .ret true)
    ∧ ((∀ s ∈ l, ∃ b, astutil.IsAridNode decls fuel (some s) = .ret b) →
      (∃ b, astutil.IsAridNode decls fuel (some (.BlockStmt p l)) = .ret b)
        ∧ ∃ b, astutil.IsAridNode decls fuel (some (.CaseClause p e l)) = .ret b)
    ∧ ((∀ s ∈ l, ∃ b, engine.isAridNode decls fuel (some s) = .ret b) →
      (∃ b, engine.isAridNode decls fuel (some (.BlockStmt p l)) = .ret b)
        ∧ ∃ b, engine.isAridNode decls fuel (some (.CaseClause p e l)) = .ret b) := by
  obtain ⟨ra, ha⟩ := astutil_IsAridNode_some decls fuel
  obtain ⟨re, he⟩ := engine_isAridNode_some decls fuel
  simp only [ha, he]
  refine ⟨?_, ?_, ?_, ?_, ?_, ?_, ?_, ?_⟩
  · rw [astutil.IsAridNodeAux]; exact astutil_IsAridList_true decls ra l
  · rw [astutil.IsAridNodeAux]; rfl
  · rw [astutil.IsAridNodeAux]; exact astutil_IsAridList_true decls ra l
  · rw [engine.isAridNodeAux]; exact engine_isAridList_true decls re l
  · rw [engine.isAridNodeAux]; rfl
  · rw [engine.isAridNodeAux]; exact engine_isAridList_true decls re l
  · intro h
    constructor
    · rw [astutil.IsAridNodeAux]; exact astutil_IsAridList_returns decls ra l h
    · rw [astutil.IsAridNodeAux]; exact astutil_IsAridList_returns decls ra l h
  · intro h
    constructor
    · rw [engine.isAridNodeAux]; exact engine_isAridList_returns decls re l h
    · rw [engine.isAridNodeAux]; exact engine_isAridList_returns decls re l h

/-- C11, at the block `{ log.Print(x); x = 1 }`: the analysis returns for both
statements, so it returns for the block. -/
theorem C11_arid_statement_lists_witness :
    (∀ s ∈ [Node.ExprStmt (.CallExpr (.SelectorExpr (.Ident 3 "log" none)
              (.Ident 7 "Print" none)) [.Ident 13 "x" none]),
            .AssignStmt (.Ident 17 "x" none) [] 19 .ASSIGN [.BasicLit 21 .INT "1"]],
        ∃ b, astutil.IsAridNode [] 0 (some s) = .ret b)
    ∧ (∃ b, astutil.IsAridNode [] 0 (some (.BlockStmt 1
        [.ExprStmt (.CallExpr (.SelectorExpr (.Ident 3 "log" none)
            (.Ident 7 "Print" none)) [.Ident 13 "x" none]),
         .AssignStmt (.Ident 17 "x" none) [] 19 .ASSIGN [.BasicLit 21 .INT "1"]]))
        = .ret b) :=
  have h : ∀ s ∈ [Node.ExprStmt (.CallExpr (.SelectorExpr (.Ident 3 "log" none)
              (.Ident 7 "Print" none)) [.Ident 13 "x" none]),
            .AssignStmt (.Ident 17 "x" none) [] 19 .ASSIGN [.BasicLit 21 .INT "1"]],
        ∃ b, astutil.IsAridNode [] 0 (some s) = .ret b := by
    intro s hs
    simp only [List.mem_cons, List.mem_singleton, List.not_mem_nil, or_false] at hs
    rcases hs with rfl | rfl <;> exact ⟨_, rfl⟩
  ⟨h, ((C11_arid_statement_lists [] 0 1 [] _).2.2.2.2.2.2.1 h).1⟩

theorem engine_isAridNode_if (decls : List Node) (fuel : Nat) (p : Nat)
    (i : Option Node) (c b : Node) (e : Option Node) :
    engine.isAridNode decls fuel (some (.IfStmt p i c b e)) = .ret true
      ↔ engine.isAridNode decls fuel i = .ret true
        ∧ engine.isAridNode decls fuel (some b) = .ret true
        ∧ engine.isAridNode decls fuel e = .ret true := by
  have hopt : ∀ (r : Node → Result Bool) (o : Option Node),
      (∀ m, engine.isAridNode decls fuel (some m) = engine.isAridNodeAux decls r m) →
      engine.isAridNode decls fuel o = engine.isAridOpt decls r o := by
    intro r o h
    cases o with
    | none => cases fuel <;> rfl
    | some m => rw [h]; rfl
  obtain ⟨r, h⟩ := engine_isAridNode_some decls fuel
  rw [hopt r i h, hopt r e h, h, h, engine.isAridNodeAux]
  cases hi : engine.isAridOpt decls r i with
  | ret x =>
    cases x
    · simp
    · cases hb : engine.isAridNodeAux decls r b with
      | ret y => cases y <;> simp
      | panic => simp
      | fuel => simp
  | panic => simp
  | fuel => simp

theorem astutil_IsAridNode_if (decls : List Node) (fuel : Nat) (p : Nat)
    (i : Option Node) (c b : Node) (e : Option Node) :
    astutil.IsAridNode decls fuel (some (.IfStmt p i c b e)) = .ret true
      ↔ astutil.IsAridNode decls fuel (some b) = .ret true
        ∧ astutil.IsAridNode decls fuel e = .ret true := by
  have hopt : ∀ (r : Node → Result Bool) (o : Option Node),
      (∀ m, astutil.IsAridNode decls fuel (some m) = astutil.IsAridNodeAux decls r m) →
      astutil.IsAridNode decls fuel o = astutil.IsAridOpt decls r o := by
    intro r o h
    cases o with
    | none => cases fuel <;> rfl
    | some m => rw [h]; rfl
  obtain ⟨r, h⟩ := astutil_IsAridNode_some decls fuel
  rw [hopt r e h, h, h, astutil.IsAridNodeAux]
  cases hb : astutil.IsAridNodeAux decls r b with
  | ret y => cases y <;> simp
  | panic => simp
  | fuel => simp

/-- C12, the code at `if x = 1; x > 0 { }`: the init statement `x = 1` is not arid, the
body is empty and there is no else; `IsAridNode` of `astutil` never looks at the init
statement and answers true, while `isAridNode` of the engine answers false. -/
theorem C12_astutil_if_ignores_init :
    astutil.IsAridNode example1.env.decls 0
        (some (.AssignStmt (.Ident 35 "x" (some 1)) [] 37 .ASSIGN [.BasicLit 39 .INT "1"]))
      = .ret false
    ∧ astutil.IsAridNode example1.env.decls 0 (some example3.ifStmt) = .ret true
    ∧ engine.isAridNode example1.env.decls 0 (some example3.ifStmt) = .ret false :=
  ⟨rfl, rfl, rfl⟩

/-- C13 as stated fails at `f()()`: the callee `f()` is neither an unresolved
identifier nor an identifier resolved to a `FuncDecl`, and the call is arid. -/
theorem C13_callee_call_is_arid :
    astutil.IsAridNode [] 0
      (some (.CallExpr (.CallExpr (.Ident 1 "f" none) []) [])) = .ret true :=
  rfl

/-- C13, amended: for an expression statement that is not a logger statement
`IsAridNode` returns what it returns for the expression; for a call it returns what it
returns for the callee, whatever the arguments.  An unresolved identifier is arid; an
identifier resolved to a `FuncDecl` gets the result of that declaration, which is the
result of its body when it has one; an identifier resolved to another declaration is
not arid.  A callee that is itself a call gets the result of the inner callee; a
callee of any other shape (selector, literal, binary or unary expression, or another
kind of expression) is not arid. -/
theorem C13_arid_expression_statements_and_calls (decls : List Node) (fuel : Nat) :
    (∀ x, astutil.isLoggerStmt (.ExprStmt x) = false →
      astutil.IsAridNode decls fuel (some (.ExprStmt x))
        = astutil.IsAridNode decls fuel (some x))
    ∧ (∀ f args, astutil.IsAridNode decls fuel (some (.CallExpr f args))
        = astutil.IsAridNode decls fuel (some f))
    ∧ (∀ f args args', astutil.IsAridNode decls fuel (some (.CallExpr f args))
        = astutil.IsAridNode decls fuel (some (.CallExpr f args')))
    ∧ (∀ p name, astutil.IsAridNode decls fuel (some (.Ident p name none)) = .ret true)
    ∧ (∀ p name args,
      astutil.IsAridNode decls fuel (some (.CallExpr (.Ident p name none) args)) = .ret true)
    ∧ (∀ p name d r n t b, decls[d]? = some (.FuncDecl r n t b) →
      astutil.IsAridNode decls (fuel + 1) (some (.Ident p name (some d)))
        = astutil.IsAridNode decls fuel (some (.FuncDecl r n t b)))
    ∧ (∀ r n t b, astutil.IsAridNode decls fuel (some (.FuncDecl r n t (some b)))
        = astutil.IsAridNode decls fuel (some b))
    ∧ (∀ p name d, (∀ r n t b, decls[d]? ≠ some (.FuncDecl r n t b)) →
      astutil.IsAridNode decls fuel (some (.Ident p name (some d))) = .ret false)
    ∧ (∀ f a args, astutil.IsAridNode decls fuel (some (.CallExpr (.CallExpr f a) args))
        = astutil.IsAridNode decls fuel (some f))
    ∧ (∀ args x sel, astutil.IsAridNode decls fuel
        (some (.CallExpr (.SelectorExpr x sel) args)) = .ret false)
    ∧ (∀ args p k v, astutil.IsAridNode decls fuel
        (some (.CallExpr (.BasicLit p k v) args)) = .ret false)
    ∧ (∀ args x p op y, astutil.IsAridNode decls fuel
        (some (.CallExpr (.BinaryExpr x p op y) args)) = .ret false)
    ∧ (∀ args p op x, astutil.IsAridNode decls fuel
        (some (.CallExpr (.UnaryExpr p op x) args)) = .ret false)
    ∧ (∀ args k p c, astutil.IsAridNode decls fuel
        (some (.CallExpr (.Other k p c) args)) = .ret false) := by
  refine ⟨?_, ?_, ?_, ?_, ?_, ?_, ?_, ?_, ?_, ?_, ?_, ?_, ?_, ?_⟩
  · intro x hx
    cases fuel <;> simp [astutil.IsAridNode, astutil.IsAridNodeAux, hx]
  · intro f args
    cases fuel <;> simp [astutil.IsAridNode, astutil.IsAridNodeAux]
  · intro f args args'
    cases fuel <;> simp [astutil.IsAridNode, astutil.IsAridNodeAux]
  · intro p name
    cases fuel <;> rfl
  · intro p name args
    cases fuel <;> rfl
  · intro p name d r n t b h
    simp [astutil.IsAridNode, astutil.IsAridNodeAux, h]
  · intro r n t b
    cases fuel <;> simp [astutil.IsAridNode, astutil.IsAridNodeAux]
  · intro p name d h
    cases hd : decls[d]? with
    | none => cases fuel <;> simp [astutil.IsAridNode, astutil.IsAridNodeAux, hd]
    | some m =>
      cases m <;> first
        | (exfalso; exact h _ _ _ _ hd)
        | (cases fuel <;> simp [astutil.IsAridNode, astutil.IsAridNodeAux, hd])
  · intro f a args
    cases fuel <;> simp [astutil.IsAridNode, astutil.IsAridNodeAux]
  · intro args x sel
    cases fuel <;> rfl
  · intro args p k v
    cases fuel <;> rfl
  · intro args x p op y
    cases fuel <;> rfl
  · intro args p op x
    cases fuel <;> rfl
  · intro args k p c
    cases fuel <;> rfl

/-- C13, amended, at `helper()` with `helper` resolved to `func helper() { }`, at
`x.Do()` with a non-logger receiver, and at `v()` with `v` resolved to a variable. -/
theorem C13_arid_expression_statements_and_calls_witness :
    astutil.IsAridNode
        [.FuncDecl none (.Ident 6 "helper" (some 0)) (.Other "FuncType" 1 [])
          (some (.BlockStmt 15 []))] 0
        (some (.ExprStmt (.CallExpr (.SelectorExpr (.Ident 20 "x" none) (.Ident 22 "Do" none)) [])))
      = astutil.IsAridNode
        [.FuncDecl none (.Ident 6 "helper" (some 0)) (.Other "FuncType" 1 [])
          (some (.BlockStmt 15 []))] 0
        (some (.CallExpr (.SelectorExpr (.Ident 20 "x" none) (.Ident 22 "Do" none)) []))
    ∧ astutil.IsAridNode
        [.FuncDecl none (.Ident 6 "helper" (some 0)) (.Other "FuncType" 1 [])
          (some (.BlockStmt 15 []))] 1
        (some (.Ident 20 "helper" (some 0)))
      = astutil.IsAridNode
        [.FuncDecl none (.Ident 6 "helper" (some 0)) (.Other "FuncType" 1 [])
          (some (.BlockStmt 15 []))] 0
        (some (.FuncDecl none (.Ident 6 "helper" (some 0)) (.Other "FuncType" 1 [])
          (some (.BlockStmt 15 []))))
    ∧ astutil.IsAridNode [.Other "ValueSpec" 5 []] 0 (some (.Ident 20 "v" (some 0)))
      = .ret false :=
  ⟨(C13_arid_expression_statements_and_calls _ 0).1 _ (by decide),
   (C13_arid_expression_statements_and_calls _ 0).2.2.2.2.2.1 20 "helper" 0 _ _ _ _ rfl,
   (C13_arid_expression_statements_and_calls [.Other "ValueSpec" 5 []] 0).2.2.2.2.2.2.2.1
      20 "v" 0 (by intro r n t b h; simp at h)⟩

/-! ## Logger statements -/

theorem firstIdentFrom_of_ne (st : String) (names : List String) (h : st ≠ "") :
    firstIdentFrom st names = st := by
  simp [firstIdentFrom, h]

theorem firstIdentFrom_nil (st : String) : firstIdentFrom st [] = st := by
  by_cases h : st = "" <;> simp [firstIdentFrom, h]

theorem firstIdentFrom_append (st : String) (a b : List String) :
    firstIdentFrom (firstIdentFrom st a) b = firstIdentFrom st (a ++ b) := by
  by_cases h : st = ""
  · subst h
    simp only [firstIdentFrom, ne_eq, not_true_eq_false, if_false, List.find?_append]
    cases ha : a.find? fun x => decide (x ≠ "") with
    | none => simp
    | some v =>
      have := List.find?_some ha
      simp at this
      simp [this]
  · simp [firstIdentFrom, h]

theorem ite_firstIdentFrom (st : String) (names : List String) :
    (if st ≠ "" then st else firstIdentFrom "" names) = firstIdentFrom st names := by
  by_cases h : st = "" <;> simp [firstIdentFrom, h]

theorem astutil_visit_loggerVisit (n : Node) (st : String) (children : String → String)
    (hn : ∀ p name o, n ≠ .Ident p name o) :
    visit astutil.loggerVisit n st children = if st ≠ "" then st else children "" := by
  unfold visit
  have h1 : astutil.loggerVisit (some n) st
      = if st ≠ "" then (false, st) else (true, st) := by
    cases n <;> first | rfl | exact absurd rfl (hn _ _ _)
  rw [h1]
  have h2 : ∀ s, (astutil.loggerVisit none s).2 = s := by
    intro s
    by_cases hs : s = "" <;> simp [astutil.loggerVisit, hs]
  by_cases h : st = ""
  · subst h
    simp only [ne_eq, not_true_eq_false, if_false]
    exact h2 _
  · simp [h]

mutual
theorem astutil_inspect_loggerVisit : ∀ (n : Node) (st : String),
    Inspect astutil.loggerVisit n st = firstIdentFrom st (idents n)
  | .Ident p name o, st => by
    by_cases h : st = "" <;> by_cases h' : name = "" <;>
      simp [Inspect, visit, astutil.loggerVisit, idents, firstIdentFrom, h, h']
  | .BasicLit _ _ _, st => by
    rw [Inspect, astutil_visit_loggerVisit _ _ _ (by intros; simp), idents]
    by_cases h : st = "" <;> simp [firstIdentFrom, h]
  | .BinaryExpr x _ _ y, st => by
    rw [Inspect, astutil_visit_loggerVisit _ _ _ (by intros; simp), idents]
    simp only [astutil_inspect_loggerVisit x, astutil_inspect_loggerVisit y,
      firstIdentFrom_append, ite_firstIdentFrom]
  | .UnaryExpr _ _ x, st => by
    rw [Inspect, astutil_visit_loggerVisit _ _ _ (by intros; simp), idents]
    simp only [astutil_inspect_loggerVisit x, firstIdentFrom_append, ite_firstIdentFrom]
  | .CallExpr func args, st => by
    rw [Inspect, astutil_visit_loggerVisit _ _ _ (by intros; simp), idents]
    simp only [astutil_inspect_loggerVisit func, astutil_inspectList_loggerVisit args,
      firstIdentFrom_append, ite_firstIdentFrom]
  | .SelectorExpr x sel, st => by
    rw [Inspect, astutil_visit_loggerVisit _ _ _ (by intros; simp), idents]
    simp only [astutil_inspect_loggerVisit x, astutil_inspect_loggerVisit sel,
      firstIdentFrom_append, ite_firstIdentFrom]
  | .ExprStmt x, st => by
    rw [Inspect, astutil_visit_loggerVisit _ _ _ (by intros; simp), idents]
    simp only [astutil_inspect_loggerVisit x, firstIdentFrom_append, ite_firstIdentFrom]
  | .AssignStmt lhs0 lhsRest _ _ rhs, st => by
    rw [Inspect, astutil_visit_loggerVisit _ _ _ (by intros; simp), idents]
    simp only [astutil_inspect_loggerVisit lhs0, astutil_inspectList_loggerVisit lhsRest,
      astutil_inspectList_loggerVisit rhs, firstIdentFrom_append, ite_firstIdentFrom]
  | .IncDecStmt x _ _, st => by
    rw [Inspect, astutil_visit_loggerVisit _ _ _ (by intros; simp), idents]
    simp only [astutil_inspect_loggerVisit x, firstIdentFrom_append, ite_firstIdentFrom]
  | .BranchStmt _ _ label, st => by
    rw [Inspect, astutil_visit_loggerVisit _ _ _ (by intros; simp), idents]
    simp only [astutil_inspectOpt_loggerVisit label, firstIdentFrom_append,
      ite_firstIdentFrom]
  | .ReturnStmt _ results, st => by
    rw [Inspect, astutil_visit_loggerVisit _ _ _ (by intros; simp), idents]
    simp only [astutil_inspectList_loggerVisit results, firstIdentFrom_append,
      ite_firstIdentFrom]
  | .DeferStmt _ call, st => by
    rw [Inspect, astutil_visit_loggerVisit _ _ _ (by intros; simp), idents]
    simp only [astutil_inspect_loggerVisit call, firstIdentFrom_append, ite_firstIdentFrom]
  | .DeclStmt decl, st => by
    rw [Inspect, astutil_visit_loggerVisit _ _ _ (by intros; simp), idents]
    simp only [astutil_inspect_loggerVisit decl, firstIdentFrom_append, ite_firstIdentFrom]
  | .BlockStmt _ list, st => by
    rw [Inspect, astutil_visit_loggerVisit _ _ _ (by intros; simp), idents]
    simp only [astutil_inspectList_loggerVisit list, firstIdentFrom_append,
      ite_firstIdentFrom]
  | .IfStmt _ init cond body els, st => by
    rw [Inspect, astutil_visit_loggerVisit _ _ _ (by intros; simp), idents]
    simp only [astutil_inspectOpt_loggerVisit init, astutil_inspect_loggerVisit cond,
      astutil_inspect_loggerVisit body, astutil_inspectOpt_loggerVisit els,
      firstIdentFrom_append, ite_firstIdentFrom]
  | .CaseClause _ list body, st => by
    rw [Inspect, astutil_visit_loggerVisit _ _ _ (by intros; simp), idents]
    simp only [astutil_inspectList_loggerVisit list, astutil_inspectList_loggerVisit body,
      firstIdentFrom_append, ite_firstIdentFrom]
  | .SwitchStmt _ init tag body, st => by
    rw [Inspect, astutil_visit_loggerVisit _ _ _ (by intros; simp), idents]
    simp only [astutil_inspectOpt_loggerVisit init, astutil_inspectOpt_loggerVisit tag,
      astutil_inspect_loggerVisit body, firstIdentFrom_append, ite_firstIdentFrom]
  | .ForStmt _ init cond post body, st => by
    rw [Inspect, astutil_visit_loggerVisit _ _ _ (by intros; simp), idents]
    simp only [astutil_inspectOpt_loggerVisit init, astutil_inspectOpt_loggerVisit cond,
      astutil_inspectOpt_loggerVisit post, astutil_inspect_loggerVisit body,
      firstIdentFrom_append, ite_firstIdentFrom]
  | .FuncDecl recv name type body, st => by
    rw [Inspect, astutil_visit_loggerVisit _ _ _ (by intros; simp), idents]
    simp only [astutil_inspectOpt_loggerVisit recv, astutil_inspect_loggerVisit name,
      astutil_inspect_loggerVisit type, astutil_inspectOpt_loggerVisit body,
      firstIdentFrom_append, ite_firstIdentFrom]
  | .File _ name decls, st => by
    rw [Inspect, astutil_visit_loggerVisit _ _ _ (by intros; simp), idents]
    simp only [astutil_inspect_loggerVisit name, astutil_inspectList_loggerVisit decls,
      firstIdentFrom_append, ite_firstIdentFrom]
  | .Other _ _ children, st => by
    rw [Inspect, astutil_visit_loggerVisit _ _ _ (by intros; simp), idents]
    simp only [astutil_inspectList_loggerVisit children, firstIdentFrom_append,
      ite_firstIdentFrom]
theorem astutil_inspectList_loggerVisit : ∀ (l : List Node) (st : String),
    InspectList astutil.loggerVisit l st = firstIdentFrom st (identsList l)
  | [], st => by rw [InspectList, identsList, firstIdentFrom_nil]
  | n :: rest, st => by
    rw [InspectList, astutil_inspect_loggerVisit n, astutil_inspectList_loggerVisit rest,
      identsList, firstIdentFrom_append]
theorem astutil_inspectOpt_loggerVisit : ∀ (o : Option Node) (st : String),
    InspectOpt astutil.loggerVisit o st = firstIdentFrom st (identsOpt o)
  | none, st => by rw [InspectOpt, identsOpt, firstIdentFrom_nil]
  | some n, st => by rw [InspectOpt, astutil_inspect_loggerVisit n, identsOpt]
end

theorem astutil_loggerIdentifiers_isSome (name : String) :
    (astutil.loggerIdentifiers name).isSome = true
      ↔ name ∈ ["log", "fmt", "slogger", "logger", "serrormonitor"] := by
  unfold astutil.loggerIdentifiers
  split <;> simp_all

theorem engine_loggerIdentifiers_isSome (name : String) :
    (engine.loggerIdentifiers name).isSome = true
      ↔ name ∈ ["log", "fmt", "slogger", "logger"] := by
  unfold engine.loggerIdentifiers
  split <;> simp_all

theorem engine_loggerVisit_eq : engine.loggerVisit = astutil.loggerVisit := rfl

theorem find_eq_head_of_ne (names : List String) (h : ∀ name ∈ names, name ≠ "") :
    (names.find? fun name => decide (name ≠ "")) = names.head? := by
  cases names with
  | nil => rfl
  | cons a rest =>
    have := h a (by simp)
    simp [List.find?, this]

theorem firstIdentFrom_empty_mem (names : List String) (set : List String)
    (hset : "" ∉ set) :
    firstIdentFrom "" names ∈ set
      ↔ ∃ name, (names.find? fun name => decide (name ≠ "")) = some name ∧ name ∈ set := by
  unfold firstIdentFrom
  cases h : names.find? fun name => decide (name ≠ "") with
  | none => simpa using hset
  | some v => simp

/-- C14: `isLoggerStmt` answers true exactly when the first identifier with a
non-empty name met by the depth-first pre-order walk of the statement has its name
among `log`, `fmt`, `slogger`, `logger`, `serrormonitor`.  Identifiers of a parsed
statement have non-empty names, and then this is the first identifier of the
statement: a statement with no identifier is not a logger statement, and two
statements with the same first identifier get the same answer, whatever identifiers
follow.  `foo(log.X())` is not a logger statement and `log.Printf(foo())` is one. -/
theorem C14_logger_statement_detection (s s' : Node) :
    (astutil.isLoggerStmt s = true
      ↔ ∃ name, ((idents s).find? fun name => decide (name ≠ "")) = some name
          ∧ name ∈ ["log", "fmt", "slogger", "logger", "serrormonitor"])
    ∧ ((∀ name ∈ idents s, name ≠ "") →
      (astutil.isLoggerStmt s = true
        ↔ ∃ name, (idents s).head? = some name
            ∧ name ∈ ["log", "fmt", "slogger", "logger", "serrormonitor"]))
    ∧ (idents s = [] → astutil.isLoggerStmt s = false)
    ∧ ((∀ name ∈ idents s, name ≠ "") → (∀ name ∈ idents s', name ≠ "") →
      (idents s).head? = (idents s').head? →
      astutil.isLoggerStmt s = astutil.isLoggerStmt s')
    ∧ astutil.isLoggerStmt (.ExprStmt (.CallExpr (.Ident 1 "foo" none)
        [.CallExpr (.SelectorExpr (.Ident 5 "log" none) (.Ident 9 "X" none)) []])) = false
    ∧ astutil.isLoggerStmt (.ExprStmt (.CallExpr
        (.SelectorExpr (.Ident 1 "log" none) (.Ident 5 "Printf" none))
        [.CallExpr (.Ident 12 "foo" none) []])) = true := by
  have key : ∀ n : Node, astutil.isLoggerStmt n = true
      ↔ ∃ name, ((idents n).find? fun name => decide (name ≠ "")) = some name
          ∧ name ∈ ["log", "fmt", "slogger", "logger", "serrormonitor"] := by
    intro n
    unfold astutil.isLoggerStmt
    simp only [astutil_inspect_loggerVisit, astutil_loggerIdentifiers_isSome]
    exact firstIdentFrom_empty_mem _ _ (by decide)
  refine ⟨key s, ?_, ?_, ?_, by decide, by decide⟩
  · intro h
    rw [key s, find_eq_head_of_ne _ h]
  · intro h
    have := key s
    rw [h] at this
    cases hb : astutil.isLoggerStmt s with
    | false => rfl
    | true => simp [hb] at this
  · intro h h' hh
    have k := key s
    have k' := key s'
    rw [find_eq_head_of_ne _ h, hh] at k
    rw [find_eq_head_of_ne _ h'] at k'
    exact Bool.eq_iff_iff.2 (k.trans k'.symm)

/-- C14, at `log.Printf(foo())` and `log.Print(bar)`: both have non-empty identifier
names and the first identifier `log`. -/
theorem C14_logger_statement_detection_witness :
    (∀ name ∈ idents (.ExprStmt (.CallExpr
        (.SelectorExpr (.Ident 1 "log" none) (.Ident 5 "Printf" none))
        [.CallExpr (.Ident 12 "foo" none) []])), name ≠ "")
    ∧ (astutil.isLoggerStmt (.ExprStmt (.CallExpr
        (.SelectorExpr (.Ident 1 "log" none) (.Ident 5 "Printf" none))
        [.CallExpr (.Ident 12 "foo" none) []])) = true
      ↔ ∃ name, (idents (.ExprStmt (.CallExpr
            (.SelectorExpr (.Ident 1 "log" none) (.Ident 5 "Printf" none))
            [.CallExpr (.Ident 12 "foo" none) []]))).head? = some name
          ∧ name ∈ ["log", "fmt", "slogger", "logger", "serrormonitor"])
    ∧ astutil.isLoggerStmt (.ExprStmt (.CallExpr
        (.SelectorExpr (.Ident 1 "log" none) (.Ident 5 "Printf" none))
        [.CallExpr (.Ident 12 "foo" none) []]))
      = astutil.isLoggerStmt (.ExprStmt (.CallExpr
        (.SelectorExpr (.Ident 1 "log" none) (.Ident 5 "Print" none))
        [.Ident 11 "bar" none])) :=
  ⟨by decide,
   (C14_logger_statement_detection
      (.ExprStmt (.CallExpr (.SelectorExpr (.Ident 1 "log" none) (.Ident 5 "Printf" none))
        [.CallExpr (.Ident 12 "foo" none) []]))
      (.ExprStmt (.CallExpr (.SelectorExpr (.Ident 1 "log" none) (.Ident 5 "Print" none))
        [.Ident 11 "bar" none]))).2.1 (by decide),
   (C14_logger_statement_detection
      (.ExprStmt (.CallExpr (.SelectorExpr (.Ident 1 "log" none) (.Ident 5 "Printf" none))
        [.CallExpr (.Ident 12 "foo" none) []]))
      (.ExprStmt (.CallExpr (.SelectorExpr (.Ident 1 "log" none) (.Ident 5 "Print" none))
        [.Ident 11 "bar" none]))).2.2.2.1 (by decide) (by decide) (by decide)⟩

theorem engine_logger_stmt_arid (decls : List Node) (fuel : Nat) (x : Node) (name : String)
    (h : ((idents (.ExprStmt x)).find? fun name => decide (name ≠ "")) = some name)
    (hname : name ∈ ["log", "fmt", "slogger", "logger"]) :
    engine.isLoggerStmt (.ExprStmt x) = true
    ∧ engine.isAridNode decls fuel (some (.ExprStmt x)) = .ret true
    ∧ engine.checkRemoveStatement decls fuel (.ExprStmt x) = .ret false := by
  have hl : engine.isLoggerStmt (.ExprStmt x) = true := by
    unfold engine.isLoggerStmt
    simp only [engine_loggerVisit_eq, astutil_inspect_loggerVisit,
      engine_loggerIdentifiers_isSome]
    exact (firstIdentFrom_empty_mem _ _ (by decide)).2 ⟨name, h, hname⟩
  have ha : engine.isAridNode decls fuel (some (.ExprStmt x)) = .ret true := by
    cases fuel <;> simp [engine.isAridNode, engine.isAridNodeAux, hl]
  exact ⟨hl, ha, by simp [engine.checkRemoveStatement, ha]⟩

/-- C15, the code at `serrormonitor.Report(err)`: `isLoggerStmt` of `astutil` takes it
for a logger statement, `isLoggerStmt` of the engine does not, because the engine's
copy of `loggerIdentifiers` has no entry `serrormonitor`; the walker's arid check
answers false, `checkRemoveStatement` answers true, and `runOnFile` emits a statement
removal for it.  The four names the engine's map holds are taken for loggers. -/
theorem C15_engine_misses_serrormonitor :
    astutil.isLoggerStmt example4.reportStmt = true
    ∧ engine.isLoggerStmt example4.reportStmt = false
    ∧ engine.loggerIdentifiers "serrormonitor" = none
    ∧ engine.isAridNode example4.env.decls 0 (some example4.reportStmt) = .ret false
    ∧ engine.checkRemoveStatement example4.env.decls 0 example4.reportStmt = .ret true
    ∧ engine.runOnFile example4.env 0 example4.file []
      = .ret [.StmtRemover "example.com/m/p" (.BlockStmt 30 [example4.reportStmt]) 0 32
          .RemoveStatement .Runnable]
    ∧ (∀ name ∈ ["log", "fmt", "slogger", "logger"],
      engine.checkRemoveStatement example4.env.decls 0
        (.ExprStmt (.CallExpr (.SelectorExpr (.Ident 32 name none) (.Ident 46 "Report" none))
          [.Ident 53 "err" (some 1)])) = .ret false) := by
  refine ⟨by decide, by decide, rfl, rfl, rfl, rfl, by decide⟩

theorem findTokenMutations_enabled (env : engine.FileEnv) (node : engine.NodeToken)
    (mutants : List engine.Mutator) (m : engine.Mutator)
    (h : m ∈ engine.findTokenMutations env node mutants) :
    m ∈ mutants ∨ env.enabled m.Type_ = true := by
  have hs : ∀ (l : List MutType) (acc : List engine.Mutator),
      m ∈ l.foldl (fun mutants mt =>
        if !env.enabled mt then mutants
        else mutants ++ [engine.Mutator.TokenMutant env.pkg node mt
          (engine.mutationStatus env.codeData (env.position node.TokPos))]) acc →
      m ∈ acc ∨ env.enabled m.Type_ = true := by
    intro l
    induction l with
    | nil => intro acc h; exact Or.inl h
    | cons mt rest ih =>
      intro acc h
      rw [List.foldl_cons] at h
      rcases ih _ h with h1 | h1
      · by_cases he : env.enabled mt = true
        · simp only [he, Bool.not_true, Bool.false_eq_true, if_false, List.mem_append,
            List.mem_singleton] at h1
          rcases h1 with h1 | rfl
          · exact Or.inl h1
          · exact Or.inr he
        · simp only [Bool.not_eq_true] at he
          simp only [he, Bool.not_false, if_true] at h1
          exact Or.inl h1
      · exact Or.inr h1
  unfold engine.findTokenMutations at h
  cases ht : engine.tokenMutantType node.tok with
  | none => rw [ht] at h; exact Or.inl h
  | some mts => rw [ht] at h; exact hs mts mutants h

/-- C16, the code on `func f() { x = 2; run(func() { x = 1 }) }` with every kind
disabled, `RemoveStatement` included: `findNodeMutations` does not read the
configuration, and `runOnFile` still emits the two statement removals. -/
theorem C16_remove_statement_ignores_configuration :
    example5.env.enabled .RemoveStatement = false
    ∧ engine.runOnFile example5.env 0 example2.file []
      = .ret [.StmtRemover "example.com/m/p" example2.body 0 32 .RemoveStatement .Runnable,
              .StmtRemover "example.com/m/p"
                (.BlockStmt 52 [.AssignStmt (.Ident 54 "x" (some 1)) [] 56 .ASSIGN
                  [.BasicLit 58 .INT "1"]])
                0 54 .RemoveStatement .Runnable] :=
  ⟨rfl, rfl⟩

/-! ## The reverse map -/

/-- C17: a kind is listed in `tokenMutantType[t]` exactly when `t` is in the domain of
the substitution table of that kind (`&&` and `||` for `RemoveBinaryExpression`; no
token for `RemoveStatement`, which is not a token-level kind); a token has no entry
exactly when it is in the domain of no table; and no entry lists a kind twice. -/
theorem C17_reverse_map_is_transpose :
    (∀ t k, k ∈ engine.tokenMutantTypes t ↔ tableDomain k t = true)
    ∧ (∀ t, engine.tokenMutantType t = none ↔ ∀ k, tableDomain k t = false)
    ∧ (∀ t, (engine.tokenMutantTypes t).Nodup) := by
  refine ⟨?_, ?_, ?_⟩
  · intro t k
    cases t <;> cases k <;> decide
  · intro t
    constructor
    · intro h k
      cases t <;> first
        | (cases k <;> rfl)
        | exact absurd h (by decide)
    · intro h
      cases t <;> first
        | rfl
        | exact absurd
            (show tableDomain .ArithmeticBase _ = false ∧ tableDomain .InvertAssignments _ = false
                ∧ tableDomain .InvertBitwise _ = false
                ∧ tableDomain .InvertBitwiseAssignments _ = false
                ∧ tableDomain .ConditionalsNegation _ = false
                ∧ tableDomain .InvertLogical _ = false
                ∧ tableDomain .IncrementDecrement _ = false
                ∧ tableDomain .InvertLoopCtrl _ = false from
              ⟨h _, h _, h _, h _, h _, h _, h _, h _⟩)
            (by decide)
  · intro t
    cases t <;> decide

/-- C18: when the operator registered for a kind returns at least one mutation on a
node, the kind is in `GetMutantTypes` of that node; so on a kind that is absent from
`GetMutantTypes` of the node the operator returns the empty list. -/
theorem C18_reverse_lookup_hides_nothing (noop : Node → Node) (decls : List Node)
    (fuel : Nat) (k : MutType) (n : Node) (ms : List Mutation)
    (h : catalogue noop decls fuel k n = .ret ms) (hne : ms ≠ []) :
    k ∈ engine.GetMutantTypes n := by
  cases k
  case RemoveStatement =>
    cases n <;> first
      | (simp [engine.GetMutantTypes]; done)
      | (exfalso
         simp only [catalogue, statement.GetRemoveStatementMutations, Node.stmts,
           statement.removeLoop, Result.ret.injEq] at h
         exact hne h.symm)
  all_goals
    simp only [catalogue, Result.ret.injEq] at h
    subst h
    cases n with
    | BinaryExpr x p op y =>
      cases op <;> first
        | (exfalso; exact hne rfl)
        | simp [engine.GetMutantTypes, engine.tokenMutantTypes, engine.tokenMutantType]
    | AssignStmt l0 ls p tok r =>
      cases tok <;> first
        | (exfalso; exact hne rfl)
        | simp [engine.GetMutantTypes, engine.tokenMutantTypes, engine.tokenMutantType]
    | IncDecStmt x p tok =>
      cases tok <;> first
        | (exfalso; exact hne rfl)
        | simp [engine.GetMutantTypes, engine.tokenMutantTypes, engine.tokenMutantType]
    | BranchStmt p tok label =>
      cases tok <;> first
        | (exfalso; exact hne rfl)
        | simp [engine.GetMutantTypes, engine.tokenMutantTypes, engine.tokenMutantType]
    | _ => exact absurd rfl hne

/-- C18, at `a + b` and `ArithmeticBase`. -/
theorem C18_reverse_lookup_hides_nothing_witness :
    catalogue id [] 0 .ArithmeticBase
        (.BinaryExpr (.Ident 1 "a" none) 3 .ADD (.Ident 5 "b" none))
      = .ret [⟨fun n => n.setOp .SUB, fun n => n.setOp .ADD, 3⟩]
    ∧ MutType.ArithmeticBase
      ∈ engine.GetMutantTypes (.BinaryExpr (.Ident 1 "a" none) 3 .ADD (.Ident 5 "b" none)) :=
  ⟨rfl, C18_reverse_lookup_hides_nothing id [] 0 .ArithmeticBase
    (.BinaryExpr (.Ident 1 "a" none) 3 .ADD (.Ident 5 "b" none))
    [⟨fun n => n.setOp .SUB, fun n => n.setOp .ADD, 3⟩] rfl (List.cons_ne_nil _ _)⟩

/-- C19: in every substitution table, a token of a two-way pair is mapped to a token
of the domain that is mapped back to it: this holds for every entry of the tables of
`ConditionalsBoundary`, `ConditionalsNegation`, `InvertLogical`, `IncrementDecrement`
and `InvertLoopCtrl`, for `+ - * /` in `ArithmeticBase`, for `+= -= *= /=` in
`InvertAssignments`, for `& | << >>` in `InvertBitwise` and for `&= |= <<= >>=` in
`InvertBitwiseAssignments`. -/
theorem C19_involution_on_pairs :
    (∀ t s, conditional.boundaryMutations t = some s →
      conditional.boundaryMutations s = some t)
    ∧ (∀ t s, conditional.negatedMutations t = some s →
      conditional.negatedMutations s = some t)
    ∧ (∀ t s, conditional.invertLogicalMutations t = some s →
      conditional.invertLogicalMutations s = some t)
    ∧ (∀ t s, incrementdecrement.incDecMutations t = some s →
      incrementdecrement.incDecMutations s = some t)
    ∧ (∀ t s, loop.breakMutations t = some s → loop.breakMutations s = some t)
    ∧ (∀ t ∈ [Token.ADD, .SUB, .MUL, .QUO],
      (arithmetic.arithmeticBaseMutations t).bind arithmetic.arithmeticBaseMutations = some t)
    ∧ (∀ t ∈ [Token.ADD_ASSIGN, .SUB_ASSIGN, .MUL_ASSIGN, .QUO_ASSIGN],
      (arithmetic.invertAssignmentMutations t).bind arithmetic.invertAssignmentMutations
        = some t)
    ∧ (∀ t ∈ [Token.AND, .OR, .SHL, .SHR],
      (arithmetic.bitwiseMutations t).bind arithmetic.bitwiseMutations = some t)
    ∧ (∀ t ∈ [Token.AND_ASSIGN, .OR_ASSIGN, .SHL_ASSIGN, .SHR_ASSIGN],
      (arithmetic.invertBitwiseAssignmentMutations t).bind
        arithmetic.invertBitwiseAssignmentMutations = some t) := by
  refine ⟨?_, ?_, ?_, ?_, ?_, by decide, by decide, by decide, by decide⟩
  · intro t s h
    cases t <;> simp [conditional.boundaryMutations] at h <;> subst h <;> rfl
  · intro t s h
    cases t <;> simp [conditional.negatedMutations] at h <;> subst h <;> rfl
  · intro t s h
    cases t <;> simp [conditional.invertLogicalMutations] at h <;> subst h <;> rfl
  · intro t s h
    cases t <;> simp [incrementdecrement.incDecMutations] at h <;> subst h <;> rfl
  · intro t s h
    cases t <;> simp [loop.breakMutations] at h <;> subst h <;> rfl

/-- C19, at the entries `> ↦ <=` and `+ ↦ -`. -/
theorem C19_involution_on_pairs_witness :
    conditional.negatedMutations .LEQ = some .GTR
    ∧ (arithmetic.arithmeticBaseMutations .ADD).bind arithmetic.arithmeticBaseMutations
      = some .ADD :=
  ⟨C19_involution_on_pairs.2.1 .GTR .LEQ rfl,
   C19_involution_on_pairs.2.2.2.2.2.1 .ADD (by decide)⟩

/-! ## The aggregator -/

theorem aggregateStep_spec (earlier : List engine.Executed) (st : engine.AggState)
    (m : engine.Executed) (hm : st.mutants = earlier)
    (hs : ∀ f l, st.surfaced f l = true
      ↔ ∃ m' ∈ earlier, m'.status = engine.Status.Lived ∧ site m' = (f, l)) :
    (engine.aggregateStep st m).mutants = earlier ++ [m]
    ∧ (∀ f l, (engine.aggregateStep st m).surfaced f l = true
      ↔ ∃ m' ∈ earlier ++ [m], m'.status = engine.Status.Lived ∧ site m' = (f, l))
    ∧ (engine.aggregateStep st m).comments
      = st.comments ++ (if m.status = engine.Status.Lived
          ∧ ∀ m' ∈ earlier, ¬ (m'.status = engine.Status.Lived ∧ site m' = site m)
        then [commentBySpec m] else []) := by
  have hsite := hs m.position.Filename m.position.Line
  by_cases hL : m.status = engine.Status.Lived
  · cases h1 : st.surfacedMutants m.position.Filename with
    | none =>
      have hno : ∀ m' ∈ earlier,
          ¬ (m'.status = engine.Status.Lived ∧ site m' = site m) := by
        intro m' hm' hc
        have := hsite.2 ⟨m', hm', hc.1, hc.2⟩
        simp [engine.AggState.surfaced, h1] at this
      refine ⟨?_, ?_, ?_⟩
      · simp [engine.aggregateStep, hL, h1, hm]
      · intro f l
        have hfl := hs f l
        simp only [engine.aggregateStep, hL, h1, if_true, engine.AggState.surfaced] at hfl ⊢
        by_cases hf : f = m.position.Filename
        · subst hf
          simp only [if_true, h1] at hfl ⊢
          by_cases hl : l = m.position.Line
          · subst hl
            simp only [if_true, Option.isSome_some, true_iff]
            exact ⟨m, by simp, hL, rfl⟩
          · simp only [hl, if_false, Option.isSome_none, Bool.false_eq_true, false_iff]
            rintro ⟨m', hm', hl', hs'⟩
            rcases List.mem_append.1 hm' with h | h
            · exact Bool.noConfusion (hfl.2 ⟨m', h, hl', hs'⟩)
            · simp only [List.mem_singleton] at h
              subst h
              simp [site] at hs'
              exact hl hs'.symm
        · simp only [hf, if_false]
          rw [hfl]
          constructor
          · rintro ⟨m', hm', h⟩
            exact ⟨m', by simp [hm'], h⟩
          · rintro ⟨m', hm', hl', hs'⟩
            rcases List.mem_append.1 hm' with h | h
            · exact ⟨m', h, hl', hs'⟩
            · simp only [List.mem_singleton] at h
              subst h
              simp [site] at hs'
              exact absurd hs'.1.symm hf
      · simp only [engine.aggregateStep, hL, h1, if_true]
        rw [if_pos ⟨trivial, hno⟩]
        rfl
    | some fm =>
      cases h2 : fm m.position.Line with
      | none =>
        have hno : ∀ m' ∈ earlier,
            ¬ (m'.status = engine.Status.Lived ∧ site m' = site m) := by
          intro m' hm' hc
          have := hsite.2 ⟨m', hm', hc.1, hc.2⟩
          simp [engine.AggState.surfaced, h1, h2] at this
        refine ⟨?_, ?_, ?_⟩
        · simp [engine.aggregateStep, hL, h1, h2, hm]
        · intro f l
          have hfl := hs f l
          simp only [engine.aggregateStep, hL, h1, h2, if_true,
            engine.AggState.surfaced] at hfl ⊢
          by_cases hf : f = m.position.Filename
          · subst hf
            simp only [if_true, h1] at hfl ⊢
            by_cases hl : l = m.position.Line
            · subst hl
              simp only [if_true, Option.isSome_some, true_iff]
              exact ⟨m, by simp, hL, rfl⟩
            · simp only [hl, if_false]
              rw [hfl]
              constructor
              · rintro ⟨m', hm', h⟩
                exact ⟨m', by simp [hm'], h⟩
              · rintro ⟨m', hm', hl', hs'⟩
                rcases List.mem_append.1 hm' with h | h
                · exact ⟨m', h, hl', hs'⟩
                · simp only [List.mem_singleton] at h
                  subst h
                  simp [site] at hs'
                  exact absurd hs'.symm hl
          · simp only [hf, if_false]
            rw [hfl]
            constructor
            · rintro ⟨m', hm', h⟩
              exact ⟨m', by simp [hm'], h⟩
            · rintro ⟨m', hm', hl', hs'⟩
              rcases List.mem_append.1 hm' with h | h
              · exact ⟨m', h, hl', hs'⟩
              · simp only [List.mem_singleton] at h
                subst h
                simp [site] at hs'
                exact absurd hs'.1.symm hf
        · simp only [engine.aggregateStep, hL, h1, h2, if_true]
          rw [if_pos ⟨trivial, hno⟩]
          rfl
      | some b =>
        have hseen : ∃ m' ∈ earlier, m'.status = engine.Status.Lived ∧ site m' = site m := by
          apply hsite.1
          simp [engine.AggState.surfaced, h1, h2]
        refine ⟨?_, ?_, ?_⟩
        · simp [engine.aggregateStep, hL, h1, h2, hm]
        · intro f l
          have hfl := hs f l
          have hst : (engine.aggregateStep st m).surfaced f l = st.surfaced f l := by
            simp [engine.aggregateStep, hL, h1, h2, engine.AggState.surfaced]
          rw [hst, hfl]
          constructor
          · rintro ⟨m', hm', h⟩
            exact ⟨m', by simp [hm'], h⟩
          · rintro ⟨m', hm', hl', hs'⟩
            rcases List.mem_append.1 hm' with h | h
            · exact ⟨m', h, hl', hs'⟩
            · simp only [List.mem_singleton] at h
              subst h
              obtain ⟨m'', hm'', hl'', hs''⟩ := hseen
              exact ⟨m'', hm'', hl'', hs''.trans hs'⟩
        · simp only [engine.aggregateStep, hL, h1, h2, if_true]
          rw [if_neg]
          · simp
          · rintro ⟨_, hno⟩
            obtain ⟨m', hm', hc⟩ := hseen
            exact hno m' hm' hc
  · refine ⟨?_, ?_, ?_⟩
    · simp [engine.aggregateStep, hL, hm]
    · intro f l
      have hst : (engine.aggregateStep st m).surfaced f l = st.surfaced f l := by
        simp [engine.aggregateStep, hL, engine.AggState.surfaced]
      rw [hst, hs f l]
      constructor
      · rintro ⟨m', hm', h⟩
        exact ⟨m', by simp [hm'], h⟩
      · rintro ⟨m', hm', hl', hs'⟩
        rcases List.mem_append.1 hm' with h | h
        · exact ⟨m', h, hl', hs'⟩
        · simp only [List.mem_singleton] at h
          subst h
          exact absurd hl' hL
    · simp [engine.aggregateStep, hL]

theorem aggregate_foldl : ∀ (rest earlier : List engine.Executed) (st : engine.AggState),
    st.mutants = earlier →
    (∀ f l, st.surfaced f l = true
      ↔ ∃ m' ∈ earlier, m'.status = engine.Status.Lived ∧ site m' = (f, l)) →
    (rest.foldl engine.aggregateStep st).mutants = earlier ++ rest
    ∧ (rest.foldl engine.aggregateStep st).comments
      = st.comments ++ (firstLivedFrom earlier rest).map commentBySpec := by
  intro rest
  induction rest with
  | nil =>
    intro earlier st hm _
    simp [firstLivedFrom, hm]
  | cons m rest ih =>
    intro earlier st hm hs
    obtain ⟨h1, h2, h3⟩ := aggregateStep_spec earlier st m hm hs
    obtain ⟨i1, i2⟩ := ih (earlier ++ [m]) (engine.aggregateStep st m) h1 h2
    rw [List.foldl_cons, i1, i2, h3, firstLivedFrom]
    refine ⟨by simp, ?_⟩
    split <;> simp

theorem firstLivedFrom_sublist : ∀ (l earlier : List engine.Executed),
    (firstLivedFrom earlier l).Sublist l := by
  intro l
  induction l with
  | nil => intro earlier; simp [firstLivedFrom]
  | cons m rest ih =>
    intro earlier
    rw [firstLivedFrom]
    split
    · exact (ih _).cons₂ m
    · exact (ih _).cons m

theorem firstLivedFrom_mem : ∀ (l earlier : List engine.Executed) (m : engine.Executed),
    m ∈ firstLivedFrom earlier l →
    m.status = engine.Status.Lived
      ∧ ∀ m' ∈ earlier, ¬ (m'.status = engine.Status.Lived ∧ site m' = site m) := by
  intro l
  induction l with
  | nil => intro earlier m h; simp [firstLivedFrom] at h
  | cons a rest ih =>
    intro earlier m h
    rw [firstLivedFrom] at h
    rcases List.mem_append.1 h with h | h
    · split at h
      · rename_i hc
        simp only [List.mem_singleton] at h
        subst h
        exact hc
      · simp at h
    · obtain ⟨h1, h2⟩ := ih _ m h
      exact ⟨h1, fun m' hm' => h2 m' (by simp [hm'])⟩

theorem firstLivedFrom_nodup : ∀ (l earlier : List engine.Executed),
    ((firstLivedFrom earlier l).map site).Nodup := by
  intro l
  induction l with
  | nil => intro earlier; simp [firstLivedFrom]
  | cons a rest ih =>
    intro earlier
    rw [firstLivedFrom]
    split
    · rename_i hc
      simp only [List.singleton_append, List.map_cons, List.nodup_cons, List.mem_map,
        not_exists, not_and]
      refine ⟨?_, ih _⟩
      intro m hm hs
      exact (firstLivedFrom_mem rest _ m hm).2 a (by simp) ⟨hc.1, hs.symm⟩
    · simpa using ih _

theorem firstLivedFrom_covers : ∀ (l earlier : List engine.Executed) (m : engine.Executed),
    m ∈ l → m.status = engine.Status.Lived →
    site m ∈ (firstLivedFrom earlier l).map site
      ∨ ∃ m' ∈ earlier, m'.status = engine.Status.Lived ∧ site m' = site m := by
  intro l
  induction l with
  | nil => intro earlier m h; simp at h
  | cons a rest ih =>
    intro earlier m hm hL
    rw [firstLivedFrom]
    rcases List.mem_cons.1 hm with rfl | hm
    · split
      · left; simp
      · rename_i hc
        right
        by_contra hno
        exact hc ⟨hL, fun m' hm' hcc => hno ⟨m', hm', hcc⟩⟩
    · rcases ih (earlier ++ [a]) m hm hL with h | ⟨m', hm', hl', hs'⟩
      · left
        simp only [List.map_append, List.mem_append]
        exact Or.inr h
      · rcases List.mem_append.1 hm' with h | h
        · exact Or.inr ⟨m', h, hl', hs'⟩
        · simp only [List.mem_singleton] at h
          subst h
          split
          · left; simp [hs']
          · rename_i hc
            right
            by_contra hno
            exact hc ⟨hl', fun m'' hm'' hcc => hno ⟨m'', hm'', hcc.1, hcc.2.trans hs'⟩⟩

/-- C20: after the aggregator loop of `executeTests` has consumed the mutants
`received`, the comments are those of the mutants that are `Lived` and have no earlier
`Lived` mutant at their `(filename, line)`, in the order of arrival, each with the path
and line of its mutant, side `RIGHT` and the body built from it; so there is exactly
one comment for each site of a `Lived` mutant, a mutant of another status gives no
comment, and the report holds every consumed mutant in the order of arrival. -/
theorem C20_finding_comment_deduplication (received : List engine.Executed) :
    (engine.aggregate received).comments
      = (firstLivedFrom [] received).map commentBySpec
    ∧ engine.results (engine.aggregate received).mutants = received
    ∧ (∀ m : engine.Executed, (commentBySpec m).Path = m.position.Filename
        ∧ (commentBySpec m).Line = m.position.Line ∧ (commentBySpec m).Side = "RIGHT"
        ∧ (commentBySpec m).Body = engine.getPRComment m)
    ∧ (firstLivedFrom [] received).Sublist received
    ∧ (∀ m ∈ firstLivedFrom [] received, m.status = engine.Status.Lived)
    ∧ ((firstLivedFrom [] received).map site).Nodup
    ∧ (∀ m ∈ received, m.status = engine.Status.Lived →
        site m ∈ (firstLivedFrom [] received).map site)
    ∧ (∀ earlier m later, received = earlier ++ m :: later →
        firstLivedFrom [] received
          = firstLivedFrom [] earlier
            ++ (if m.status = engine.Status.Lived
                  ∧ ∀ m' ∈ earlier, ¬ (m'.status = engine.Status.Lived ∧ site m' = site m)
                then [m] else [])
            ++ firstLivedFrom (earlier ++ [m]) later) := by
  have hagg := aggregate_foldl received [] engine.AggState.init rfl
    (by intro f l; simp [engine.AggState.surfaced, engine.AggState.init])
  refine ⟨?_, ?_, fun m => ⟨rfl, rfl, rfl, rfl⟩, firstLivedFrom_sublist _ _, ?_,
    firstLivedFrom_nodup _ _, ?_, ?_⟩
  · simpa [engine.aggregate, engine.AggState.init] using hagg.2
  · simpa [engine.aggregate, engine.results] using hagg.1
  · intro m hm
    exact (firstLivedFrom_mem _ _ m hm).1
  · intro m hm hL
    rcases firstLivedFrom_covers received [] m hm hL with h | ⟨m', hm', _⟩
    · exact h
    · simp at hm'
  · intro earlier m later h
    subst h
    have happ : ∀ (a e b : List engine.Executed),
        firstLivedFrom e (a ++ b) = firstLivedFrom e a ++ firstLivedFrom (e ++ a) b := by
      intro a
      induction a with
      | nil => intro e b; simp [firstLivedFrom]
      | cons x a ih =>
        intro e b
        rw [List.cons_append, firstLivedFrom, firstLivedFrom, ih]
        simp [List.append_assoc]
    rw [happ earlier [] (m :: later), firstLivedFrom]
    simp [List.append_assoc]

/-- C20, at three arrivals: a `Lived` mutant at `a.go:3`, a `Killed` one at `a.go:4`
and a second `Lived` one at `a.go:3`: one comment, three mutants in the report. -/
theorem C20_finding_comment_deduplication_witness :
    (engine.aggregate
        [⟨.Lived, ⟨"a.go", 10, 3, 2⟩, "d1"⟩, ⟨.Killed, ⟨"a.go", 20, 4, 2⟩, "d2"⟩,
         ⟨.Lived, ⟨"a.go", 14, 3, 6⟩, "d3"⟩]).comments
      = [⟨engine.getPRComment ⟨.Lived, ⟨"a.go", 10, 3, 2⟩, "d1"⟩, "a.go", 3, "RIGHT"⟩]
    ∧ (engine.aggregate
        [⟨.Lived, ⟨"a.go", 10, 3, 2⟩, "d1"⟩, ⟨.Killed, ⟨"a.go", 20, 4, 2⟩, "d2"⟩,
         ⟨.Lived, ⟨"a.go", 14, 3, 6⟩, "d3"⟩]).mutants
      = [⟨.Lived, ⟨"a.go", 10, 3, 2⟩, "d1"⟩, ⟨.Killed, ⟨"a.go", 20, 4, 2⟩, "d2"⟩,
         ⟨.Lived, ⟨"a.go", 14, 3, 6⟩, "d3"⟩] :=
  ⟨(C20_finding_comment_deduplication _).1.trans
    (by simp [firstLivedFrom, commentBySpec, site]),
   (C20_finding_comment_deduplication _).2.1⟩

/-! ## The body of a finding comment -/

/-- C23 as stated fails: for a `Lived` mutant with diff text `d` the body that
`getPRComment` builds is not the body of the specification. -/
theorem C23_body_differs_from_spec :
    engine.getPRComment ⟨.Lived, ⟨"a.go", 10, 3, 2⟩, "d"⟩ ≠ commentBodyBySpec "d" := by
  intro h
  have h2 := congrArg (fun s : String => s.data.head?) h
  revert h2
  decide

/-- C23, amended: the body of the comment of a mutant with diff text `d` is the text
`[gremlins] ` followed by the first sentence, a newline, the second sentence, a blank
line (two newlines), and `d` in a diff code fence; the body of the specification is the
same text without `[gremlins] ` and with a space in place of the newline between the
sentences.  The aggregator gives this body to the comment of a `Lived` mutant. -/
theorem C23_finding_comment_body (m : engine.Executed) :
    engine.getPRComment m
      = "[gremlins] "
        ++ "Changing the code like shown below does not cause any tests exercising them to fail."
        ++ "\n" ++ "Consider adding tests that fail when the code is mutated."
        ++ "\n\n" ++ "```diff\n" ++ m.diff ++ "\n```"
    ∧ commentBodyBySpec m.diff
      = "Changing the code like shown below does not cause any tests exercising them to fail."
        ++ " " ++ "Consider adding tests that fail when the code is mutated."
        ++ "\n\n" ++ "```diff\n" ++ m.diff ++ "\n```"
    ∧ (commentBySpec m).Body = engine.getPRComment m
    ∧ (engine.aggregate [⟨.Lived, m.position, m.diff⟩]).comments.map (fun c => c.Body)
      = [engine.getPRComment m] := by
  refine ⟨?_, ?_, rfl, ?_⟩
  · simp only [engine.getPRComment, String.append_assoc]
    rfl
  · simp only [commentBodyBySpec, String.append_assoc]
    rfl
  · simp [engine.aggregate, engine.aggregateStep, engine.AggState.init, engine.getPRComment]

/-! ## Absent children and recursion in the arid analysis -/

theorem astutil_IsAridNode_bodyless (decls : List Node) (fuel : Nat) (r : Option Node)
    (n t : Node) : astutil.IsAridNode decls fuel (some (.FuncDecl r n t none)) = .panic := by
  cases fuel <;> rfl

theorem engine_isAridNode_bodyless (decls : List Node) (fuel : Nat) (r : Option Node)
    (n t : Node) : engine.isAridNode decls fuel (some (.FuncDecl r n t none)) = .panic := by
  cases fuel <;> rfl

/-- C25, the code at the declaration `func ext()`, which has no body: `FuncDecl.Body`
is a nil `*ast.BlockStmt`, the call `IsAridNode(n.Body)` wraps it in a non-nil
`ast.Node`, the `BlockStmt` case reads `n.List` and panics, in `astutil` and in the
engine; so do `checkRemoveStatement` on the statement `ext()` and `runOnFile` on the
file that holds it.  A nil node is arid, and an `if` without init and without else is
analysed without error. -/
theorem C25_bodyless_function_panics :
    astutil.IsAridNode example6.env.decls 0 none = .ret true
    ∧ engine.isAridNode example6.env.decls 0 none = .ret true
    ∧ astutil.IsAridNode example6.env.decls 0 (some example6.extDecl) = .panic
    ∧ engine.isAridNode example6.env.decls 0 (some example6.extDecl) = .panic
    ∧ statement.checkRemoveStatement example6.env.decls 1 example6.callStmt = .panic
    ∧ engine.checkRemoveStatement example6.env.decls 1 example6.callStmt = .panic
    ∧ engine.runOnFile example6.env 1 example6.file [] = .panic
    ∧ astutil.IsAridNode example1.env.decls 0 (some example1.ifStmt) = .ret true
    ∧ engine.isAridNode example1.env.decls 0 (some example1.ifStmt) = .ret true :=
  ⟨rfl, rfl, rfl, rfl, rfl, rfl, rfl, rfl, rfl⟩

theorem astutil_selfcall_fuel : ∀ fuel : Nat,
    astutil.IsAridNode example7.env.decls fuel (some example7.callStmt) = .fuel := by
  intro fuel
  induction fuel with
  | zero => rfl
  | succ f ih =>
    have h1 : astutil.IsAridNode example7.env.decls (f + 1) (some example7.callStmt)
        = astutil.IsAridNode example7.env.decls f (some example7.funcDecl) := rfl
    have h2 : astutil.IsAridNode example7.env.decls f (some example7.funcDecl)
        = (match astutil.IsAridNode example7.env.decls f (some example7.callStmt) with
            | .ret true => .ret true
            | r => r) := by
      cases f <;> rfl
    rw [h1, h2, ih]

theorem engine_selfcall_fuel : ∀ fuel : Nat,
    engine.isAridNode example7.env.decls fuel (some example7.callStmt) = .fuel := by
  intro fuel
  induction fuel with
  | zero => rfl
  | succ f ih =>
    have h1 : engine.isAridNode example7.env.decls (f + 1) (some example7.callStmt)
        = engine.isAridNode example7.env.decls f (some example7.funcDecl) := rfl
    have h2 : engine.isAridNode example7.env.decls f (some example7.funcDecl)
        = (match engine.isAridNode example7.env.decls f (some example7.callStmt) with
            | .ret true => .ret true
            | r => r) := by
      cases f <;> rfl
    rw [h1, h2, ih]

theorem astutil_mutual_fuel : ∀ fuel : Nat,
    astutil.IsAridNode example7.mutualDecls fuel (some example7.callG) = .fuel
    ∧ astutil.IsAridNode example7.mutualDecls fuel (some example7.callF) = .fuel := by
  intro fuel
  induction fuel with
  | zero => exact ⟨rfl, rfl⟩
  | succ f ih =>
    have hg : astutil.IsAridNode example7.mutualDecls (f + 1) (some example7.callG)
        = (match astutil.IsAridNode example7.mutualDecls f (some example7.callF) with
            | .ret true => .ret true
            | r => r) := by
      cases f <;> rfl
    have hf : astutil.IsAridNode example7.mutualDecls (f + 1) (some example7.callF)
        = (match astutil.IsAridNode example7.mutualDecls f (some example7.callG) with
            | .ret true => .ret true
            | r => r) := by
      cases f <;> rfl
    rw [hg, hf, ih.1, ih.2]
    exact ⟨rfl, rfl⟩

/-- C27, the code at `func f() { f() }`: whatever the number of identifier
resolutions allowed, the analysis of the statement `f()` does not return: it goes from
the identifier to the declaration of `f`, to its body, to the statement `f()` again.
The same holds in the engine, where `runOnFile` on the file never returns, and for the
mutual recursion of `func f() { g() }` and `func g() { f() }`. -/
theorem C27_recursive_function_never_returns (fuel : Nat) :
    astutil.IsAridNode example7.env.decls fuel (some example7.callStmt) = .fuel
    ∧ engine.isAridNode example7.env.decls fuel (some example7.callStmt) = .fuel
    ∧ statement.checkRemoveStatement example7.env.decls fuel example7.callStmt = .fuel
    ∧ engine.runOnFile example7.env fuel example7.file [] = .fuel
    ∧ astutil.IsAridNode example7.mutualDecls fuel (some example7.callG) = .fuel := by
  have hb : engine.isAridNode example7.env.decls fuel
      (some (.BlockStmt 20 [example7.callStmt])) = .fuel := by
    have h : engine.isAridNode example7.env.decls fuel
        (some (.BlockStmt 20 [example7.callStmt]))
        = (match engine.isAridNode example7.env.decls fuel (some example7.callStmt) with
            | .ret true => .ret true
            | r => r) := by
      cases fuel <;> rfl
    rw [h, engine_selfcall_fuel]
  refine ⟨astutil_selfcall_fuel fuel, engine_selfcall_fuel fuel, ?_, ?_,
    (astutil_mutual_fuel fuel).1⟩
  · simp [statement.checkRemoveStatement, astutil_selfcall_fuel]
  · simp only [example7.callStmt] at hb
    simp [engine.runOnFile, example7.file, example7.funcDecl, Inspect, visit, InspectList,
      InspectOpt, engine.tokenVisit, engine.nodeVisit, engine.NewTokenNode, engine.NewNode,
      engine.detectAridNodes, example7.callStmt, hb]

/-! ## filepath.Dir shortens a path -/

namespace filepath

theorem splitSlash_ne_nil (s : List Char) : splitSlash s ≠ [] := by
  cases s with
  | nil => simp [splitSlash]
  | cons c cs =>
    rw [splitSlash]
    split
    · simp
    · split <;> simp

theorem weight_splitSlash (s : List Char) : weight (splitSlash s) = s.length + 1 := by
  induction s with
  | nil => simp [splitSlash, weight]
  | cons c cs ih =>
    rw [splitSlash]
    split
    · simp [weight] at ih ⊢
      omega
    · cases h : splitSlash cs with
      | nil => exact absurd h (splitSlash_ne_nil cs)
      | cons piece rest =>
        rw [h] at ih
        simp [weight] at ih ⊢
        omega

theorem keptWeight_le_weight (cs : List (List Char)) : keptWeight cs ≤ weight cs := by
  induction cs with
  | nil => simp [keptWeight, weight]
  | cons c cs ih =>
    simp only [keptWeight, weight, List.map_cons, List.sum_cons] at ih ⊢
    split <;> omega

theorem weight_cleanStep (rooted : Bool) (out : List (List Char)) (c : List Char) :
    weight (cleanStep rooted out c) ≤ weight out + (if c = [] then 0 else c.length + 1) := by
  unfold cleanStep
  split
  · omega
  · rename_i h1
    have hc : c ≠ [] := fun h => h1 (Or.inl h)
    simp only [hc, if_false]
    split
    · cases out with
      | nil => cases rooted <;> simp [weight]
      | cons top rest =>
        simp only
        split
        · cases rooted
          · simp [weight]
            omega
          · simp [weight]
        · simp [weight]
          omega
    · simp [weight]
      omega

theorem weight_foldl_cleanStep (rooted : Bool) (cs : List (List Char)) :
    ∀ out, weight (cs.foldl (cleanStep rooted) out) ≤ weight out + keptWeight cs := by
  induction cs with
  | nil => intro out; simp [keptWeight]
  | cons c cs ih =>
    intro out
    rw [List.foldl_cons]
    have h1 := ih (cleanStep rooted out c)
    have h2 := weight_cleanStep rooted out c
    simp only [keptWeight, List.map_cons, List.sum_cons] at h1 ⊢
    omega

theorem weight_reverse (cs : List (List Char)) : weight cs.reverse = weight cs := by
  simp [weight, List.sum_reverse]

theorem length_intercalate_slash (cs : List (List Char)) (h : cs ≠ []) :
    (List.intercalate ['/'] cs).length + 1 = weight cs := by
  induction cs with
  | nil => exact absurd rfl h
  | cons c cs ih =>
    cases cs with
    | nil => simp [List.intercalate, weight, List.intersperse]
    | cons d ds =>
      have := ih (by simp)
      simp [List.intercalate, weight, List.intersperse] at this ⊢
      omega


theorem splitSlash_append_slash (t : List Char) :
    splitSlash (t ++ ['/']) = splitSlash t ++ [[]] := by
  induction t with
  | nil => simp [splitSlash]
  | cons c cs ih =>
    rw [List.cons_append, splitSlash, splitSlash, ih]
    split
    · simp
    · cases h : splitSlash cs with
      | nil => exact absurd h (splitSlash_ne_nil cs)
      | cons piece rest => simp

theorem dropWhile_head_not {α : Type} (q : α → Bool) :
    ∀ (l : List α) (a : α) (u : List α), l.dropWhile q = a :: u → q a = false := by
  intro l
  induction l with
  | nil => intro a u h; simp at h
  | cons x xs ih =>
    intro a u h
    rw [List.dropWhile_cons] at h
    split at h
    · exact ih a u h
    · rename_i hx
      simp only [List.cons.injEq] at h
      rw [← h.1]
      simpa using hx

theorem cleanChars_shrinks (t : List Char) (ht : t ≠ []) :
    (cleanChars (t ++ ['/'])).length < t.length + 1 := by
  have hlen : 1 ≤ t.length := by
    cases t with
    | nil => exact absurd rfl ht
    | cons a b => simp
  have hne : t ++ ['/'] ≠ [] := by simp
  have hhead : (t ++ ['/']).head? = t.head? := by
    cases t with
    | nil => exact absurd rfl ht
    | cons a b => rfl
  unfold cleanChars
  simp only [hne, if_false, splitSlash_append_slash, List.foldl_append, List.foldl_cons,
    List.foldl_nil, hhead]
  have hstep : ∀ r out, cleanStep r out [] = out := by
    intro r out
    simp [cleanStep]
  rw [hstep]
  by_cases hr : t.head? = some '/'
  · simp only [hr, decide_True, if_true]
    obtain ⟨t', rfl⟩ : ∃ t', t = '/' :: t' := by
      cases t with
      | nil => exact absurd rfl ht
      | cons a b =>
        simp at hr
        exact ⟨b, by rw [hr]⟩
    have hw := weight_foldl_cleanStep true (splitSlash ('/' :: t')) []
    have hk : keptWeight (splitSlash ('/' :: t')) ≤ t'.length + 1 := by
      have := keptWeight_le_weight (splitSlash t')
      rw [weight_splitSlash] at this
      simpa [splitSlash, keptWeight] using this
    cases hout : ((splitSlash ('/' :: t')).foldl (cleanStep true) []).reverse with
    | nil => simp [List.intercalate]
    | cons a b =>
      have h1 := length_intercalate_slash (a :: b) (by simp)
      rw [← hout, weight_reverse] at h1
      rw [← hout]
      have hw0 : weight ([] : List (List Char)) = 0 := rfl
      rw [hw0] at hw
      simp only [List.length_cons]
      omega
  · simp only [hr, decide_False, Bool.false_eq_true, if_false]
    have hw := weight_foldl_cleanStep false (splitSlash t) []
    have hk := keptWeight_le_weight (splitSlash t)
    rw [weight_splitSlash] at hk
    split
    · simp
      omega
    · rename_i hout
      have h1 := length_intercalate_slash _ hout
      rw [weight_reverse] at h1
      have hw0 : weight ([] : List (List Char)) = 0 := rfl
      rw [hw0] at hw
      omega

theorem dirPart_of_not_mem (p : List Char) (h : '/' ∉ p) : dirPart p = [] := by
  unfold dirPart
  have : p.reverse.dropWhile (fun c => decide (c ≠ '/')) = [] := by
    rw [List.dropWhile_eq_nil_iff]
    intro c hc
    have hc' : c ∈ p := List.mem_reverse.1 hc
    have : c ≠ '/' := fun e => h (e ▸ hc')
    simpa using this
  rw [this]
  rfl

theorem dirPart_of_mem (p : List Char) (h : '/' ∈ p) :
    ∃ t, dirPart p = t ++ ['/'] ∧ t.length + 1 ≤ p.length := by
  unfold dirPart
  cases hd : p.reverse.dropWhile (fun c => decide (c ≠ '/')) with
  | nil =>
    rw [List.dropWhile_eq_nil_iff] at hd
    have := hd '/' (List.mem_reverse.2 h)
    simp at this
  | cons a u =>
    have ha : a = '/' := by
      have := dropWhile_head_not _ _ a u hd
      simpa using this
    have hlen : (a :: u).length ≤ p.reverse.length := by
      rw [← hd]
      exact (List.dropWhile_sublist _).length_le
    refine ⟨u.reverse, by simp [ha], ?_⟩
    simpa using hlen


theorem Dir_of_not_mem (p : String) (h : '/' ∉ p.data) : Dir p = "." := by
  unfold Dir
  rw [dirPart_of_not_mem _ h]
  rfl

theorem Dir_of_mem (p : String) (h : '/' ∈ p.data) :
    Dir p = p ∨ (Dir p).length < p.length := by
  obtain ⟨t, ht, hlen⟩ := dirPart_of_mem p.data h
  unfold Dir
  rw [ht]
  by_cases h0 : t = []
  · subst h0
    have hc : cleanChars ([] ++ ['/']) = ['/'] := by decide
    rw [hc]
    by_cases h1 : p.data.length = 1
    · left
      have : p.data = ['/'] := by
        match hp : p.data, h, h1 with
        | [c], h, _ =>
          simp at h
          rw [h]
      cases p
      simp_all
    · right
      show 1 < p.data.length
      have : 1 ≤ p.data.length := by simpa using hlen
      omega
  · right
    show (cleanChars (t ++ ['/'])).length < p.data.length
    have := cleanChars_shrinks t h0
    omega

theorem dirRank_Dir_lt (p : String) (h : Dir p ≠ p) : dirRank (Dir p) < dirRank p := by
  have hdot : dirRank "." = 2 := by decide
  by_cases hs : '/' ∈ p.data
  · rcases Dir_of_mem p hs with h1 | h1
    · exact absurd h1 h
    · have hp : p ≠ "" := by
        intro e
        subst e
        simp at hs
      have hpl : 2 ≤ p.length := by
        by_contra hlt
        have h0 : (Dir p).length = 0 := by omega
        have hd : (Dir p).data = [] := List.length_eq_zero.1 h0
        have hp1 : p.data.length = 1 := by
          have : 1 ≤ p.data.length := List.length_pos_of_mem hs
          have : p.length = p.data.length := rfl
          omega
        obtain ⟨t, ht, hlen⟩ := dirPart_of_mem p.data hs
        have ht0 : t = [] := by
          apply List.length_eq_zero.1
          omega
        subst ht0
        have hc : cleanChars ([] ++ ['/']) = ['/'] := by decide
        have : (Dir p).data = ['/'] := by
          unfold Dir
          rw [ht, hc]
        rw [this] at hd
        cases hd
      unfold dirRank
      by_cases hd : Dir p = ""
      · rw [hd]
        simp only [hp, if_false]
        have : ("" : String).length = 0 := rfl
        split <;> split <;> omega
      · simp only [hd, hp, if_false]
        split <;> split <;> omega
  · have hd := Dir_of_not_mem p hs
    rw [hd, hdot]
    have hpd : p ≠ "." := fun e => h (e ▸ hd)
    unfold dirRank
    simp only [hs, not_false_eq_true, hpd, ne_eq, and_self, if_true]
    by_cases hp : p = ""
    · simp [hp]
    · have : p.length ≠ 0 := by
        intro h0
        apply hp
        have : p.data = [] := List.length_eq_zero.1 h0
        cases p
        simp_all
      simp only [hp, if_false]
      omega

end filepath

/-! ## Engine.pkgName -/

theorem pkgNameLoop_returns (name fPkg : String) :
    ∀ (fuel : Nat) (p : String), filepath.dirRank p < fuel →
      ∃ r, engine.pkgNameLoop name fPkg fuel p = some r := by
  intro fuel
  induction fuel with
  | zero => intro p h; omega
  | succ f ih =>
    intro p h
    rw [engine.pkgNameLoop]
    split
    · exact ⟨_, rfl⟩
    · simp only
      split
      · exact ⟨_, rfl⟩
      · rename_i hne
        have := filepath.dirRank_Dir_lt p hne
        exact ih _ (by omega)

theorem pkgNameLoop_mono (name fPkg : String) :
    ∀ (fuel : Nat) (p r : String), engine.pkgNameLoop name fPkg fuel p = some r →
      ∀ fuel', fuel ≤ fuel' → engine.pkgNameLoop name fPkg fuel' p = some r := by
  intro fuel
  induction fuel with
  | zero => intro p r h; simp [engine.pkgNameLoop] at h
  | succ f ih =>
    intro p r h fuel' hle
    obtain ⟨g, rfl⟩ : ∃ g, fuel' = g + 1 := ⟨fuel' - 1, by omega⟩
    rw [engine.pkgNameLoop] at h ⊢
    split
    · rename_i hs
      simpa [hs] using h
    · rename_i hs
      simp only [hs, Bool.false_eq_true, if_false] at h
      simp only
      split
      · rename_i hd
        simpa [hd] using h
      · rename_i hd
        simp only [hd, if_false] at h
        exact ih _ _ h g (by omega)

theorem pkgNameLoop_spec (name fPkg : String) :
    ∀ (fuel : Nat) (p r : String), engine.pkgNameLoop name fPkg fuel p = some r →
      ∃ k, (∀ j, j < k → strings.HasSuffix (filepath.Dir^[j] p) fPkg = false
              ∧ filepath.Dir^[j + 1] p ≠ filepath.Dir^[j] p)
        ∧ ((strings.HasSuffix (filepath.Dir^[k] p) fPkg = true
              ∧ r = name ++ "/" ++ filepath.Dir^[k] p)
          ∨ (strings.HasSuffix (filepath.Dir^[k] p) fPkg = false
              ∧ filepath.Dir^[k + 1] p = filepath.Dir^[k] p ∧ r = name)) := by
  intro fuel
  induction fuel with
  | zero => intro p r h; simp [engine.pkgNameLoop] at h
  | succ f ih =>
    intro p r h
    rw [engine.pkgNameLoop] at h
    by_cases hs : strings.HasSuffix p fPkg = true
    · simp only [hs, if_true, Option.some.injEq] at h
      exact ⟨0, by simp, Or.inl ⟨by simpa using hs, by simpa using h.symm⟩⟩
    · have hs' : strings.HasSuffix p fPkg = false := by simpa using hs
      rw [hs'] at h
      simp only [Bool.false_eq_true, if_false] at h
      by_cases hd : filepath.Dir p = p
      · simp only [hd, if_true, Option.some.injEq] at h
        exact ⟨0, by simp, Or.inr ⟨by simpa using hs', by simpa using hd, h.symm⟩⟩
      · simp only [hd, if_false] at h
        obtain ⟨k, hk1, hk2⟩ := ih _ _ h
        refine ⟨k + 1, ?_, ?_⟩
        · intro j hj
          cases j with
          | zero => exact ⟨by simpa using hs', by simpa using hd⟩
          | succ j =>
            have := hk1 j (by omega)
            simpa [Function.iterate_succ_apply] using this
        · simpa [Function.iterate_succ_apply] using hk2

theorem normalisePkgPath_id (s : String) : engine.normalisePkgPath s = s := by
  unfold engine.normalisePkgPath
  have : (fun c : Char => if c = engine.PathSeparator then '/' else c) = id := by
    funext c
    by_cases h : c = engine.PathSeparator
    · simp [h, engine.PathSeparator]
    · simp [h]
  rw [this, List.map_id]

/-- C24 as stated fails for the calling directory `internal`, the file
`myengine/x.go` and the package `engine`: the walk visits `internal/myengine`,
`internal` and `.`, none of which ends in the path element `engine`, and `pkgName`
returns the module name followed by `/internal/myengine`, not the module name. -/
theorem C24_suffix_is_not_a_path_element :
    engine.pkgName 10 ⟨"m", "internal"⟩ "myengine/x.go" "engine"
      = some "m/internal/myengine"
    ∧ filepath.Dir "internal/myengine/x.go" = "internal/myengine"
    ∧ filepath.Dir "internal/myengine" = "internal"
    ∧ filepath.Dir "internal" = "."
    ∧ filepath.Dir "." = "."
    ∧ endsInElements "internal/myengine" "engine" = false
    ∧ endsInElements "internal" "engine" = false
    ∧ endsInElements "." "engine" = false := by
  decide

/-- C24, amended: `pkgName` returns (with any bound on the iterations of its loop of at
least twice the length of the calling directory and the file name plus six), and its
result is the module name followed by `/` and the first directory, walking `Dir` upward
from the directory of `D/F`, whose path has the package name as a suffix of its
characters (`strings.HasSuffix`, on a boundary of path elements or not); when no
directory of the walk has that suffix before `Dir` stops changing it, the result is the
module name.  With `/` as path separator the normalisation changes nothing. -/
theorem C24_package_naming (module : engine.GoModule) (fileName fPkg : String) :
    ∃ k r,
      (∀ fuel, 2 * (module.CallingDir.length + fileName.length) + 6 ≤ fuel →
        engine.pkgName fuel module fileName fPkg = some r)
      ∧ (∀ j, j < k →
          strings.HasSuffix (filepath.Dir^[j + 1] (module.CallingDir ++ "/" ++ fileName)) fPkg
            = false
          ∧ filepath.Dir^[j + 2] (module.CallingDir ++ "/" ++ fileName)
            ≠ filepath.Dir^[j + 1] (module.CallingDir ++ "/" ++ fileName))
      ∧ ((strings.HasSuffix (filepath.Dir^[k + 1] (module.CallingDir ++ "/" ++ fileName))
              fPkg = true
            ∧ r = module.Name ++ "/"
                ++ filepath.Dir^[k + 1] (module.CallingDir ++ "/" ++ fileName))
          ∨ (strings.HasSuffix (filepath.Dir^[k + 1] (module.CallingDir ++ "/" ++ fileName))
              fPkg = false
            ∧ filepath.Dir^[k + 2] (module.CallingDir ++ "/" ++ fileName)
              = filepath.Dir^[k + 1] (module.CallingDir ++ "/" ++ fileName)
            ∧ r = module.Name))
      ∧ engine.normalisePkgPath r = r := by
  have hmem : '/' ∈ (module.CallingDir ++ "/" ++ fileName).data := by
    simp [String.data_append]
  have hlen : (module.CallingDir ++ "/" ++ fileName).length
      = module.CallingDir.length + 1 + fileName.length := by
    have h1 : ("/" : String).length = 1 := rfl
    simp [String.length_append, h1]
  have hdl : (filepath.Dir (module.CallingDir ++ "/" ++ fileName)).length
      ≤ module.CallingDir.length + 1 + fileName.length := by
    rcases filepath.Dir_of_mem _ hmem with h | h
    · rw [h, hlen]
    · omega
  have hrank : filepath.dirRank (filepath.Dir (module.CallingDir ++ "/" ++ fileName))
      < 2 * (module.CallingDir.length + fileName.length) + 6 := by
    unfold filepath.dirRank
    by_cases he : filepath.Dir (module.CallingDir ++ "/" ++ fileName) = ""
    · rw [he]
      split <;> simp
    · simp only [he, if_false]
      split <;> omega
  obtain ⟨r, hr⟩ := pkgNameLoop_returns module.Name fPkg _ _ hrank
  obtain ⟨k, hk1, hk2⟩ := pkgNameLoop_spec module.Name fPkg _ _ r hr
  refine ⟨k, r, ?_, ?_, ?_, normalisePkgPath_id r⟩
  · intro fuel hf
    unfold engine.pkgName
    simp only
    rw [pkgNameLoop_mono module.Name fPkg _ _ r hr fuel hf]
    simp [normalisePkgPath_id]
  · intro j hj
    have := hk1 j hj
    simpa [Function.iterate_succ_apply] using this
  · simpa [Function.iterate_succ_apply] using hk2

/-! ## Kinds proposed by the reverse lookup -/

/-- C28 as stated fails at `-x`: `GetMutantTypes` proposes `ArithmeticBase` for the
unary expression, and the operator registered for `ArithmeticBase` returns no mutation
on it. -/
theorem C28_unary_minus_has_no_mutation :
    engine.GetMutantTypes (.UnaryExpr 1 .SUB (.Ident 2 "x" none)) = [.ArithmeticBase]
    ∧ catalogue id [] 0 .ArithmeticBase (.UnaryExpr 1 .SUB (.Ident 2 "x" none)) = .ret [] :=
  ⟨rfl, rfl⟩

/-- C28, amended: for an `AssignStmt`, `BinaryExpr`, `BranchStmt` or `IncDecStmt` whose
token is one the Go grammar allows at that node, the operator registered for each kind
of `GetMutantTypes` returns at least one mutation; on a `UnaryExpr` no operator of the
catalogue returns a mutation, whatever `GetMutantTypes` proposes. -/
theorem C28_proposed_kinds_apply (noop : Node → Node) (decls : List Node) (fuel : Nat)
    (n : Node) (k : MutType) (hn : (engine.NewTokenNode (some n)).isSome = true)
    (hu : ∀ p op x, n ≠ .UnaryExpr p op x) (hg : tokenOfGrammar n = true)
    (hk : k ∈ engine.GetMutantTypes n) :
    (∃ ms, catalogue noop decls fuel k n = .ret ms ∧ ms ≠ [])
    ∧ ∀ p op x k', catalogue noop decls fuel k' (.UnaryExpr p op x) = .ret [] := by
  refine ⟨?_, fun p op x k' => by cases k' <;> rfl⟩
  cases n with
  | UnaryExpr p op x => exact absurd rfl (hu p op x)
  | BinaryExpr x p op y =>
    cases op <;> first
      | (simp [tokenOfGrammar] at hg; done)
      | (simp [engine.GetMutantTypes, engine.tokenMutantTypes, engine.tokenMutantType] at hk
         rcases hk with rfl | rfl <;> exact ⟨_, rfl, List.cons_ne_nil _ _⟩)
  | AssignStmt l0 ls p tok r =>
    cases tok <;> first
      | (simp [tokenOfGrammar] at hg; done)
      | (simp [engine.GetMutantTypes, engine.tokenMutantTypes, engine.tokenMutantType] at hk
         done)
      | (simp [engine.GetMutantTypes, engine.tokenMutantTypes, engine.tokenMutantType] at hk
         rcases hk with rfl | rfl <;> exact ⟨_, rfl, List.cons_ne_nil _ _⟩)
  | IncDecStmt x p tok =>
    cases tok <;> first
      | (simp [tokenOfGrammar] at hg; done)
      | (simp [engine.GetMutantTypes, engine.tokenMutantTypes, engine.tokenMutantType] at hk
         subst hk
         exact ⟨_, rfl, List.cons_ne_nil _ _⟩)
  | BranchStmt p tok label =>
    cases tok <;> first
      | (simp [tokenOfGrammar] at hg; done)
      | (simp [engine.GetMutantTypes, engine.tokenMutantTypes, engine.tokenMutantType] at hk
         done)
      | (simp [engine.GetMutantTypes, engine.tokenMutantTypes, engine.tokenMutantType] at hk
         subst hk
         exact ⟨_, rfl, List.cons_ne_nil _ _⟩)
  | _ => simp [engine.NewTokenNode] at hn

/-- C28, amended, at `a && b` and `RemoveBinaryExpression`. -/
theorem C28_proposed_kinds_apply_witness :
    MutType.RemoveBinaryExpression
      ∈ engine.GetMutantTypes (.BinaryExpr (.Ident 1 "a" none) 3 .LAND (.Ident 6 "b" none))
    ∧ ∃ ms, catalogue id [] 0 .RemoveBinaryExpression
        (.BinaryExpr (.Ident 1 "a" none) 3 .LAND (.Ident 6 "b" none)) = .ret ms ∧ ms ≠ [] :=
  ⟨by decide,
   (C28_proposed_kinds_apply id [] 0
      (.BinaryExpr (.Ident 1 "a" none) 3 .LAND (.Ident 6 "b" none)) .RemoveBinaryExpression
      rfl (by intro p op x h; cases h) rfl (by decide)).1⟩

/-! ## Negated comparisons -/

/-- C29: for every entry `op ↦ op'` of `negatedMutations` and all integers `x` and `y`,
the comparison `x op' y` holds exactly when `x op y` does not. -/
theorem C29_negation_is_negation (op op' : Token)
    (h : conditional.negatedMutations op = some op') (x y : Int) :
    ∃ b, compareInt op x y = some b ∧ compareInt op' x y = some (!b) := by
  cases op <;> simp [conditional.negatedMutations] at h <;> subst h <;>
    simp only [compareInt, Option.some.injEq, exists_eq_left'] <;>
    first
      | (by_cases h1 : x < y <;> by_cases h2 : y < x <;> by_cases h3 : x = y <;>
          simp [h1, h2, h3] <;> omega)

/-- C29, at the entry `> ↦ <=` and the integers 3 and 5. -/
theorem C29_negation_is_negation_witness :
    ∃ b, compareInt .GTR 3 5 = some b ∧ compareInt .LEQ 3 5 = some (!b) :=
  C29_negation_is_negation .GTR .LEQ rfl 3 5

/-! ## The removability check on calls the arid analysis cannot finish -/

/-- C10, the code at the statement `f()` of `func f() { f() }`, an expression
statement: whatever the number of identifier resolutions allowed, neither
`checkRemoveStatement` returns an answer on it, nor on the statement `if c { f() }`,
and `GetRemoveStatementMutations` returns no list for the block `{ f() }`; at the
statement `ext()` of a function declared without body both checks panic, and so does
`GetRemoveStatementMutations` on the block `{ ext() }`. -/
theorem C10_check_does_not_return (noop : Node → Node) (fuel : Nat) :
    removableBySpec example7.callStmt = true
    ∧ statement.checkRemoveStatement example7.env.decls fuel example7.callStmt = .fuel
    ∧ engine.checkRemoveStatement example7.env.decls fuel example7.callStmt = .fuel
    ∧ statement.checkRemoveStatement example7.env.decls fuel example7.ifStmt = .fuel
    ∧ engine.checkRemoveStatement example7.env.decls fuel example7.ifStmt = .fuel
    ∧ statement.GetRemoveStatementMutations noop example7.env.decls fuel
        (.BlockStmt 20 [example7.callStmt]) = .fuel
    ∧ removableBySpec example6.callStmt = true
    ∧ statement.checkRemoveStatement example6.env.decls (fuel + 1) example6.callStmt = .panic
    ∧ engine.checkRemoveStatement example6.env.decls (fuel + 1) example6.callStmt = .panic
    ∧ statement.GetRemoveStatementMutations noop example6.env.decls (fuel + 1)
        (.BlockStmt 32 [example6.callStmt]) = .panic := by
  have ha := astutil_selfcall_fuel fuel
  have he := engine_selfcall_fuel fuel
  have hs : statement.checkRemoveStatement example7.env.decls fuel example7.callStmt
      = .fuel := by
    rw [statement_check_eq, ha]
    rfl
  have hai : astutil.IsAridNode example7.env.decls fuel (some example7.ifStmt) = .fuel := by
    have hb : astutil.IsAridNode example7.env.decls fuel
        (some (.BlockStmt 35 [example7.callStmt]))
        = (match astutil.IsAridNode example7.env.decls fuel (some example7.callStmt) with
            | .ret true => .ret true
            | r => r) := by
      cases fuel <;> rfl
    have h : astutil.IsAridNode example7.env.decls fuel (some example7.ifStmt)
        = (match astutil.IsAridNode example7.env.decls fuel
              (some (.BlockStmt 35 [example7.callStmt])) with
            | .ret true => .ret true
            | r => r) := by
      cases fuel <;> rfl
    rw [h, hb, ha]
  have hei : engine.isAridNode example7.env.decls fuel (some example7.ifStmt) = .fuel := by
    have hb : engine.isAridNode example7.env.decls fuel
        (some (.BlockStmt 35 [example7.callStmt]))
        = (match engine.isAridNode example7.env.decls fuel (some example7.callStmt) with
            | .ret true => .ret true
            | r => r) := by
      cases fuel <;> rfl
    have h : engine.isAridNode example7.env.decls fuel (some example7.ifStmt)
        = (match engine.isAridNode example7.env.decls fuel
              (some (.BlockStmt 35 [example7.callStmt])) with
            | .ret true => .ret true
            | r => r) := by
      cases fuel <;> rfl
    rw [h, hb, he]
  have hx : astutil.IsAridNode example6.env.decls (fuel + 1) (some example6.callStmt)
      = .panic := by
    have h : astutil.IsAridNode example6.env.decls (fuel + 1) (some example6.callStmt)
        = astutil.IsAridNode example6.env.decls fuel (some example6.extDecl) := rfl
    rw [h]
    exact astutil_IsAridNode_bodyless _ _ _ _ _
  have hy : engine.isAridNode example6.env.decls (fuel + 1) (some example6.callStmt)
      = .panic := by
    have h : engine.isAridNode example6.env.decls (fuel + 1) (some example6.callStmt)
        = engine.isAridNode example6.env.decls fuel (some example6.extDecl) := rfl
    rw [h]
    exact engine_isAridNode_bodyless _ _ _ _ _
  have hsx : statement.checkRemoveStatement example6.env.decls (fuel + 1) example6.callStmt
      = .panic := by
    rw [statement_check_eq, hx]
    rfl
  refine ⟨rfl, hs, ?_, ?_, ?_, ?_, rfl, hsx, ?_, ?_⟩
  · rw [engine_check_eq, he]
    rfl
  · rw [statement_check_eq, hai]
    rfl
  · rw [engine_check_eq, hei]
    rfl
  · simp [statement.GetRemoveStatementMutations, Node.stmts, statement.removeLoop, hs]
  · rw [engine_check_eq, hy]
    rfl
  · simp [statement.GetRemoveStatementMutations, Node.stmts, statement.removeLoop, hsx]

/-! ## Apply and Rollback of a statement remover -/

theorem os_WriteFile_written (d : os.Disk) (f data : String)
    (h : (os.WriteFile d f data).2 = none) :
    (os.WriteFile d f data).1.files f = some data := by
  unfold os.WriteFile at h ⊢
  split
  · rename_i h1
    simp [h1] at h
  · split
    · rename_i h1 h2
      simp [h1, h2] at h
    · simp

/-- What the statements of `Apply` leave when they return, on a file that could be
read and with the block and the statement in the file of the mutant: the buffer holds
the bytes read, and the working directory and the file name of the position are as
before. -/
theorem applyBody_returned (env : engine.ApplyEnv) (m : engine.StmtRemover) (d : os.Disk)
    (data : String) (m1 : engine.StmtRemover) (d1 : os.Disk) (err : Option String)
    (hnode : (env.position m.node.Pos).Filename = (m.Position env).Filename)
    (hstmt : ∀ s, m.node.stmts[m.idx]? = some s →
      (env.position s.Pos).Filename = (m.Position env).Filename)
    (hread : os.ReadFile d (filepath.Join m.workDir (m.Position env).Filename) = .ok data)
    (hbody : m.applyBody env d = .returned m1 d1 err) :
    m1.origFile = data ∧ m1.workDir = m.workDir
    ∧ (m1.Position env).Filename = (m.Position env).Filename := by
  unfold engine.StmtRemover.applyBody at hbody
  simp only [hnode, hread] at hbody
  split at hbody
  · simp only [engine.StmtRemover.BodyResult.returned.injEq] at hbody
    obtain ⟨rfl, -, -⟩ := hbody
    exact ⟨rfl, rfl, rfl⟩
  · split at hbody
    · simp only [engine.StmtRemover.BodyResult.returned.injEq] at hbody
      obtain ⟨rfl, -, -⟩ := hbody
      exact ⟨rfl, rfl, rfl⟩
    · rename_i oldStmt hs
      have hp := hstmt oldStmt hs
      split at hbody
      · simp only [engine.StmtRemover.BodyResult.returned.injEq] at hbody
        obtain ⟨rfl, -, -⟩ := hbody
        exact ⟨rfl, rfl, hp⟩
      · split at hbody
        · cases hbody
        · simp only [engine.StmtRemover.BodyResult.returned.injEq] at hbody
          obtain ⟨rfl, -, -⟩ := hbody
          exact ⟨rfl, rfl, hp⟩

/-- Where `Apply` and `Rollback` do restore the file: when the block and the statement
of a statement remover are in the file of its position, the file at the working
directory joined with that file name can be read, `Apply` returns, and the write of
`Rollback` succeeds, then `Apply` has put the bytes of the file into `origFile`,
`Rollback` writes `origFile` to the path `Apply` read, after `Rollback` the file has the
bytes it had before `Apply`, and `origFile` is empty. -/
theorem apply_rollback_round_trip (env : engine.ApplyEnv) (m : engine.StmtRemover)
    (d : os.Disk) (locks : engine.Locks) (data : String)
    (m1 : engine.StmtRemover) (d1 : os.Disk) (l1 : engine.Locks) (err : Option String)
    (hnode : (env.position m.node.Pos).Filename = (m.Position env).Filename)
    (hstmt : ∀ s, m.node.stmts[m.idx]? = some s →
      (env.position s.Pos).Filename = (m.Position env).Filename)
    (hread : os.ReadFile d (filepath.Join m.workDir (m.Position env).Filename) = .ok data)
    (happly : m.Apply env d locks = .returned m1 d1 l1 err)
    (hwrite : (m1.Rollback env d1).2.2 = none) :
    d.files (filepath.Join m.workDir (m.Position env).Filename) = some data
    ∧ m1.origFile = data
    ∧ filepath.Join m1.workDir (m1.Position env).Filename
        = filepath.Join m.workDir (env.position m.node.Pos).Filename
    ∧ (m1.Rollback env d1).2.1
        = (os.WriteFile d1 (filepath.Join m.workDir (env.position m.node.Pos).Filename)
            m1.origFile).1
    ∧ (m1.Rollback env d1).2.1.files (filepath.Join m.workDir (m.Position env).Filename)
        = d.files (filepath.Join m.workDir (m.Position env).Filename)
    ∧ (m1.Rollback env d1).1.origFile = "" := by
  have hfiles : d.files (filepath.Join m.workDir (m.Position env).Filename) = some data := by
    unfold os.ReadFile at hread
    split at hread
    · cases hread
    · split at hread
      · rename_i h
        cases hread
        exact h
      · cases hread
  have hbody : m.applyBody env d = .returned m1 d1 err := by
    unfold engine.StmtRemover.Apply at happly
    simp only at happly
    split at happly
    · cases happly
    · split at happly
      · cases happly
      · rename_i hb
        simp only [engine.StmtRemover.ApplyResult.returned.injEq] at happly
        obtain ⟨rfl, rfl, -, rfl⟩ := happly
        exact hb
  obtain ⟨b1, b2, b3⟩ := applyBody_returned env m d data m1 d1 err hnode hstmt hread hbody
  have hpath : filepath.Join m1.workDir (m1.Position env).Filename
      = filepath.Join m.workDir (env.position m.node.Pos).Filename := by
    rw [b2, b3, hnode]
  refine ⟨hfiles, b1, hpath, ?_, ?_, rfl⟩
  · unfold engine.StmtRemover.Rollback
    simp only [hpath]
  · unfold engine.StmtRemover.Rollback at hwrite ⊢
    simp only [b2, b3] at hwrite ⊢
    rw [os_WriteFile_written _ _ _ hwrite, hfiles, b1]

/-- The round trip at the statement remover of `x++` in `{ x++ }` on the disk where
`w/a.go` can be read and written: `Apply` returns and leaves the mutated file, and
after `Rollback` the file is as before. -/
theorem apply_rollback_round_trip_example :
    ∃ (m1 : engine.StmtRemover) (d1 : os.Disk) (l1 : engine.Locks),
      example8.remover.Apply example8.env example8.disk example8.free
        = .returned m1 d1 l1 none
      ∧ d1.files "w/a.go" = some "package a\nfunc f() { }\n"
      ∧ (m1.Rollback example8.env d1).2.1.files "w/a.go" = example8.disk.files "w/a.go"
      ∧ (m1.Rollback example8.env d1).1.origFile = "" :=
  ⟨_, _, _, rfl, by decide,
    (apply_rollback_round_trip example8.env example8.remover example8.disk
      example8.free "package a\nfunc f() { x++ }\n" _ _ _ none rfl
      (fun s hs => by cases hs; rfl) rfl rfl rfl).2.2.2.2.1,
    (apply_rollback_round_trip example8.env example8.remover example8.disk
      example8.free "package a\nfunc f() { x++ }\n" _ _ _ none rfl
      (fun s hs => by cases hs; rfl) rfl rfl rfl).2.2.2.2.2⟩

/-- C21, the code on a disk where the file `w/a.go` can be written and not read:
`Apply` returns the error of reading it with the buffer empty, and `Rollback` writes
the empty buffer over the file, which held the source text before; on a disk where the
directory `w` has no file `a.go` the two calls create an empty one.  And when a
`//line` comment puts the statement in another file than the brace of its block,
`Apply` reads and mutates `w/a.go` and `Rollback` writes the bytes read to `w/gen.y`:
`w/a.go` keeps the mutated text. -/
theorem C21_unreadable_file_is_overwritten :
    example8.writeOnly.files "w/a.go" = some "package a\nfunc f() { x++ }\n"
    ∧ (∃ (m1 : engine.StmtRemover) (d1 : os.Disk) (l1 : engine.Locks) (e : String),
        example8.remover.Apply example8.env example8.writeOnly example8.free
          = .returned m1 d1 l1 (some e)
        ∧ m1.origFile = ""
        ∧ (m1.Rollback example8.env d1).2.2 = none
        ∧ (m1.Rollback example8.env d1).2.1.files "w/a.go" = some "")
    ∧ (applyThenRollback example8.env example8.remover example8.writeOnly
        example8.free).map (fun r => r.2.files "w/a.go") = some (some "")
    ∧ example8.missing.files "w/a.go" = none
    ∧ example8.missing.dirs "w" = true
    ∧ (applyThenRollback example8.env example8.remover example8.missing
        example8.free).map (fun r => r.2.files "w/a.go") = some (some "")
    ∧ (∃ (m1 : engine.StmtRemover) (d1 : os.Disk) (l1 : engine.Locks),
        example8.remover.Apply example8.envLine example8.disk example8.free
          = .returned m1 d1 l1 none
        ∧ d1.files "w/a.go" = some "package a\nfunc f() { }\n"
        ∧ (m1.Rollback example8.envLine d1).2.2 = none
        ∧ (m1.Rollback example8.envLine d1).2.1.files "w/a.go"
            = some "package a\nfunc f() { }\n"
        ∧ example8.disk.files "w/gen.y" = none
        ∧ (m1.Rollback example8.envLine d1).2.1.files "w/gen.y"
            = some "package a\nfunc f() { x++ }\n") :=
  ⟨by decide, ⟨_, _, _, _, rfl, rfl, rfl, by decide⟩, by decide, by decide, by decide,
    by decide, ⟨_, _, _, rfl, by decide, by decide, by decide, by decide, by decide⟩⟩

/-- C22 fails on a source file that can be read and not written: `Apply` on the
statement remover of `x++` in `{ x++ }` returns the error of writing the mutated file,
and the block then holds the no-op statement where `x++` was; on the disk where the
file can be written the block is as before. -/
theorem C22_failed_write_leaves_no_op_in_tree :
    example8.remover.node.stmts = [example8.stmt]
    ∧ (∃ m1 d1 l1,
        example8.remover.Apply example8.env example8.readOnly example8.free
          = .returned m1 d1 l1 (some "permission denied")
        ∧ m1.node.stmts = [example8.env.noop example8.stmt]
        ∧ m1.node.stmts = [.Other "EmptyStmt" 12 []]
        ∧ m1.node.stmts ≠ example8.remover.node.stmts
        ∧ d1.files "w/a.go" = some "package a\nfunc f() { x++ }\n")
    ∧ (∃ m1 d1 l1,
        example8.remover.Apply example8.env example8.disk example8.free
          = .returned m1 d1 l1 none
        ∧ m1.node.stmts = [example8.stmt]) := by
  refine ⟨rfl, ⟨_, _, _, rfl, rfl, rfl, ?_, by decide⟩, ⟨_, _, _, rfl, rfl⟩⟩
  intro h
  have h2 : ([Node.Other "EmptyStmt" 12 []] : List Node) = [example8.stmt] := h
  simp [example8.stmt] at h2

/-! ## The mutex of a file across the steps of the workers -/

theorem countP_set_of_getElem? {α : Type} (p : α → Bool) :
    ∀ (l : List α) (i : Nat) (a b : α), l[i]? = some a →
      (l.set i b).countP p + (if p a = true then 1 else 0)
        = l.countP p + (if p b = true then 1 else 0)
  | [], i, a, b, h => by simp at h
  | x :: l, 0, a, b, h => by
    simp only [List.getElem?_cons_zero, Option.some.injEq] at h
    subst h
    simp only [List.set_cons_zero, List.countP_cons]
    omega
  | x :: l, i + 1, a, b, h => by
    simp only [List.getElem?_cons_succ] at h
    have ih := countP_set_of_getElem? p l i a b h
    simp only [List.set_cons_succ, List.countP_cons]
    omega

theorem lockInvariant_start (mutants : List engine.StmtRemover) (disk : os.Disk) :
    lockInvariant (engine.World.start mutants disk) := by
  intro name
  simp only [engine.World.start, Bool.false_eq_true, if_false]
  induction mutants with
  | nil => rfl
  | cons m ms ih => simp [List.countP_cons, engine.Worker.inApply]

theorem lockInvariant_step (env : engine.ApplyEnv) (w : engine.World) (s : engine.Step)
    (h : lockInvariant w) : lockInvariant (engine.step env w s) := by
  cases s with
  | lock i =>
    cases hw : w.workers[i]? with
    | none => simpa only [engine.step, hw] using h
    | some x =>
      obtain ⟨m, ph⟩ := x
      cases ph with
      | idle =>
        simp only [engine.step, hw]
        cases hl : engine.Lock w.locks (m.Position env).Filename with
        | none => exact h
        | some held =>
          unfold engine.Lock at hl
          split at hl
          · cases hl
          · rename_i hfree
            simp only [Option.some.injEq] at hl
            subst hl
            intro name
            have hc := countP_set_of_getElem? (engine.Worker.inApply name) w.workers i _
              ⟨m, .locked (m.Position env).Filename⟩ hw
            have hn := h name
            simp only [engine.Worker.inApply] at hc
            simp only [Bool.not_eq_true] at hfree
            by_cases e : (m.Position env).Filename = name
            · subst e
              simp only [hfree, Bool.false_eq_true, if_false] at hn
              simp only [decide_True, if_true, Bool.false_eq_true, if_false] at hc
              simp only [if_true]
              omega
            · have e2 : ¬ name = (m.Position env).Filename := fun x => e x.symm
              simp only [e, e2, decide_False, Bool.false_eq_true, if_false] at hc ⊢
              omega
      | locked n => simpa only [engine.step, hw] using h
      | leaving n p => simpa only [engine.step, hw] using h
      | applied => simpa only [engine.step, hw] using h
      | crashed => simpa only [engine.step, hw] using h
      | done => simpa only [engine.step, hw] using h
  | body i =>
    cases hw : w.workers[i]? with
    | none => simpa only [engine.step, hw] using h
    | some x =>
      obtain ⟨m, ph⟩ := x
      cases ph with
      | locked name =>
        simp only [engine.step, hw]
        cases hb : m.applyBody env w.disk with
        | panicked m1 d1 =>
          intro n
          have hc := countP_set_of_getElem? (engine.Worker.inApply n) w.workers i _
            ⟨m1, .leaving name true⟩ hw
          have hn := h n
          simp only [engine.Worker.inApply] at hc
          simp only
          omega
        | returned m1 d1 e =>
          intro n
          have hc := countP_set_of_getElem? (engine.Worker.inApply n) w.workers i _
            ⟨m1, .leaving name false⟩ hw
          have hn := h n
          simp only [engine.Worker.inApply] at hc
          simp only
          omega
      | idle => simpa only [engine.step, hw] using h
      | leaving n p => simpa only [engine.step, hw] using h
      | applied => simpa only [engine.step, hw] using h
      | crashed => simpa only [engine.step, hw] using h
      | done => simpa only [engine.step, hw] using h
  | unlock i =>
    cases hw : w.workers[i]? with
    | none => simpa only [engine.step, hw] using h
    | some x =>
      obtain ⟨m, ph⟩ := x
      cases ph with
      | leaving name panicked =>
        simp only [engine.step, hw]
        intro n
        have hc := countP_set_of_getElem? (engine.Worker.inApply n) w.workers i _
          ⟨m, if panicked = true then .crashed else .applied⟩ hw
        have hn := h n
        have hnew : engine.Worker.inApply n
            ⟨m, if panicked = true then .crashed else .applied⟩ = false := by
          cases panicked <;> rfl
        rw [hnew] at hc
        simp only [engine.Worker.inApply] at hc
        simp only [engine.Unlock]
        by_cases e : name = n
        · subst e
          simp only [decide_True, if_true, Bool.false_eq_true, if_false] at hc ⊢
          split at hn <;> omega
        · have e2 : ¬ n = name := fun x => e x.symm
          simp only [e, e2, decide_False, Bool.false_eq_true, if_false] at hc ⊢
          omega
      | idle => simpa only [engine.step, hw] using h
      | locked n => simpa only [engine.step, hw] using h
      | applied => simpa only [engine.step, hw] using h
      | crashed => simpa only [engine.step, hw] using h
      | done => simpa only [engine.step, hw] using h
  | rollback i =>
    cases hw : w.workers[i]? with
    | none => simpa only [engine.step, hw] using h
    | some x =>
      obtain ⟨m, ph⟩ := x
      cases ph with
      | applied =>
        simp only [engine.step, hw]
        intro n
        have hc := countP_set_of_getElem? (engine.Worker.inApply n) w.workers i _
          ⟨(m.Rollback env w.disk).1, .done⟩ hw
        have hn := h n
        simp only [engine.Worker.inApply, Bool.false_eq_true, if_false] at hc
        simp only
        omega
      | idle => simpa only [engine.step, hw] using h
      | locked n => simpa only [engine.step, hw] using h
      | leaving n p => simpa only [engine.step, hw] using h
      | crashed => simpa only [engine.step, hw] using h
      | done => simpa only [engine.step, hw] using h

theorem lockInvariant_run (env : engine.ApplyEnv) (schedule : List engine.Step) :
    ∀ w, lockInvariant w → lockInvariant (engine.run env w schedule) := by
  induction schedule with
  | nil => intro w h; exact h
  | cons s rest ih =>
    intro w h
    exact ih _ (lockInvariant_step env w s h)

/-- C26 as stated fails: two workers with statement removers of the file `a.go`, in
the working directories `w` and `v`.  When `Apply` of the first has returned the mutex
of `a.go` is free; the second worker takes it and runs `Apply` before the first has run
`Rollback`: both workers are between the start of `Apply` and the end of `Rollback` on
`a.go`, both mutated files are on the disk, and the mutex is not held. -/
theorem C26_second_apply_before_first_rollback :
    (example8.remover.Position example8.env).Filename = "a.go"
    ∧ (example8.remover2.Position example8.env).Filename = "a.go"
    ∧ (engine.run example8.env
        (engine.World.start [example8.remover, example8.remover2] example8.disk)
        [.lock 0, .body 0, .unlock 0, .lock 1]).workers.map (fun x => x.phase)
      = [.applied, .locked "a.go"]
    ∧ (engine.run example8.env
        (engine.World.start [example8.remover, example8.remover2] example8.disk)
        [.lock 0, .body 0, .unlock 0, .lock 1, .body 1, .unlock 1]).workers.map
          (fun x => x.phase)
      = [.applied, .applied]
    ∧ (engine.run example8.env
        (engine.World.start [example8.remover, example8.remover2] example8.disk)
        [.lock 0, .body 0, .unlock 0, .lock 1, .body 1, .unlock 1]).workers.countP
          (engine.Worker.inCycle example8.env "a.go")
      = 2
    ∧ (engine.run example8.env
        (engine.World.start [example8.remover, example8.remover2] example8.disk)
        [.lock 0, .body 0, .unlock 0, .lock 1, .body 1, .unlock 1]).locks "a.go" = false
    ∧ (engine.run example8.env
        (engine.World.start [example8.remover, example8.remover2] example8.disk)
        [.lock 0, .body 0, .unlock 0, .lock 1, .body 1, .unlock 1]).disk.files "w/a.go"
      = some "package a\nfunc f() { }\n"
    ∧ (engine.run example8.env
        (engine.World.start [example8.remover, example8.remover2] example8.disk)
        [.lock 0, .body 0, .unlock 0, .lock 1, .body 1, .unlock 1]).disk.files "v/a.go"
      = some "package a\nfunc f() { }\n" := by
  refine ⟨rfl, rfl, ?_, ?_, ?_, ?_, ?_, ?_⟩ <;> decide

/-- C26, amended: in every interleaving of the steps of any workers, started with no
mutex held, at most one worker is inside `Apply` on a file (between the `Lock` that
opens `Apply` and the deferred `Unlock` that ends it), and the mutex of the file is
held exactly then.  `Lock` makes a worker wait exactly when the mutex of its own file
is held, whatever the mutexes of other files; the deferred `Unlock` frees the mutex
when the statements of `Apply` have returned or panicked; the statements of `Apply`
and `Rollback` leave the registry as it is, so the mutex is not held while the tests
run and during `Rollback`.  The three steps of `Apply` by one worker give what the
method `Apply` returns. -/
theorem C26_mutex_held_during_apply_only (env : engine.ApplyEnv)
    (mutants : List engine.StmtRemover) (disk : os.Disk) (schedule : List engine.Step)
    (name : String) :
    (engine.run env (engine.World.start mutants disk) schedule).workers.countP
        (engine.Worker.inApply name) ≤ 1
    ∧ ((engine.run env (engine.World.start mutants disk) schedule).locks name = true
        ↔ (engine.run env (engine.World.start mutants disk) schedule).workers.countP
            (engine.Worker.inApply name) = 1)
    ∧ (∀ (w : engine.World) (i : Nat) (m : engine.StmtRemover),
        w.workers[i]? = some ⟨m, .idle⟩ →
        (w.locks (m.Position env).Filename = true →
          (engine.step env w (.lock i)).workers = w.workers
          ∧ (engine.step env w (.lock i)).locks = w.locks)
        ∧ (w.locks (m.Position env).Filename = false →
          (engine.step env w (.lock i)).workers[i]?
              = some ⟨m, .locked (m.Position env).Filename⟩
          ∧ (engine.step env w (.lock i)).locks (m.Position env).Filename = true
          ∧ ∀ n, n ≠ (m.Position env).Filename →
              (engine.step env w (.lock i)).locks n = w.locks n))
    ∧ (∀ (w : engine.World) (i : Nat) (m : engine.StmtRemover) (n : String) (p : Bool),
        w.workers[i]? = some ⟨m, .leaving n p⟩ →
        (engine.step env w (.unlock i)).workers[i]?
            = some ⟨m, if p = true then .crashed else .applied⟩
        ∧ (engine.step env w (.unlock i)).locks n = false
        ∧ ∀ k, k ≠ n → (engine.step env w (.unlock i)).locks k = w.locks k)
    ∧ (∀ (w : engine.World) (i : Nat),
        (engine.step env w (.body i)).locks = w.locks
        ∧ (engine.step env w (.rollback i)).locks = w.locks)
    ∧ (∀ (m m1 : engine.StmtRemover) (d d1 : os.Disk) (l1 : engine.Locks)
        (err : Option String),
        m.Apply env d (fun _ => false) = .returned m1 d1 l1 err →
        (engine.run env (engine.World.start [m] d) [.lock 0, .body 0, .unlock 0]).workers
            = [⟨m1, .applied⟩]
        ∧ (engine.run env (engine.World.start [m] d) [.lock 0, .body 0, .unlock 0]).disk = d1
        ∧ (engine.run env (engine.World.start [m] d) [.lock 0, .body 0, .unlock 0]).locks
            = l1) := by
  have hinv := lockInvariant_run env schedule _ (lockInvariant_start mutants disk) name
  refine ⟨?_, ?_, ?_, ?_, ?_, ?_⟩
  · rw [hinv]
    split <;> omega
  · rw [hinv]
    constructor
    · intro h
      simp [h]
    · intro h
      by_contra hn
      simp [hn] at h
  · intro w i m hw
    constructor
    · intro hl
      simp [engine.step, hw, engine.Lock, hl]
    · intro hl
      have hi : i < w.workers.length := by
        rcases Nat.lt_or_ge i w.workers.length with h | h
        · exact h
        · rw [List.getElem?_eq_none h] at hw
          cases hw
      refine ⟨?_, ?_, ?_⟩
      · simp [engine.step, hw, engine.Lock, hl, hi]
      · simp [engine.step, hw, engine.Lock, hl]
      · intro n hn
        simp [engine.step, hw, engine.Lock, hl, hn]
  · intro w i m n p hw
    have hi : i < w.workers.length := by
      rcases Nat.lt_or_ge i w.workers.length with h | h
      · exact h
      · rw [List.getElem?_eq_none h] at hw
        cases hw
    refine ⟨?_, ?_, ?_⟩
    · simp [engine.step, hw, hi]
    · simp [engine.step, hw, engine.Unlock]
    · intro k hk
      simp [engine.step, hw, engine.Unlock, hk]
  · intro w i
    constructor
    · simp only [engine.step]
      split
      · split <;> rfl
      · rfl
    · simp only [engine.step]
      split <;> rfl
  · intro m m1 d d1 l1 err h
    unfold engine.StmtRemover.Apply at h
    simp only [engine.Lock, Bool.false_eq_true, if_false] at h
    cases hb : m.applyBody env d with
    | panicked m2 d2 =>
      rw [hb] at h
      cases h
    | returned m2 d2 e2 =>
      rw [hb] at h
      simp only [engine.StmtRemover.ApplyResult.returned.injEq] at h
      obtain ⟨rfl, rfl, rfl, -⟩ := h
      simp [engine.run, engine.step, engine.World.start, engine.Lock, hb]

end Gremlins
